import Mathlib

/-!
# YOLO detection operator: serialised form, post-processing and network build

A shallow embedding of the parts of `nvdsinfer_custom_impl_Yolo` that the
properties below are about:

* `yoloPlugins.cpp`: `YoloLayer::serialize`, `YoloLayer::getSerializationSize`
  and the deserialising constructor `YoloLayer::YoloLayer(const void*, size_t)`;
* `nvdsparsebbox_Yolo.cpp`: `clamp`, `convertBBox`, `addBBoxProposal`,
  `decodeTensorYolo`;
* `yolo.cpp`: `Yolo::buildYoloNetwork`.

Conventions.  A `uint` is a natural number below `2 ^ 32`, a `uint64_t` or
`size_t` one below `2 ^ 64`, an `int` an integer in `[-2 ^ 31, 2 ^ 31)`;
arithmetic that the source performs in one of these types is reduced
explicitly.  Memory is a list of bytes (naturals below `256`), little-endian.
A `float` that is only copied is its 32-bit pattern; a `float` that is compared
or subtracted is the rational it denotes (finite values), and an operation
whose result the source stores in a `float` rounds to binary32 (`f32`).
Counted `for` loops are `forLoop`; the number of rounds of a loop is taken to fit the loop
variable.  Assertions are enabled: a failed `assert` ends the run, as does an
uncaught exception.
-/

set_option maxRecDepth 10000

namespace DsYolo

/-! ## Counted loops -/

/-- The loop `for (uint i = 0; i < n; ++i) s = body(i, s);`: the body runs for
`i = 0, 1, ..., n - 1` in that order. -/
def forLoop {σ : Type} : Nat → (Nat → σ → σ) → σ → σ
  | 0, _, s => s
  | n + 1, body, s => body n (forLoop n body s)

/-- A counted loop whose body can fail; a failure ends the loop. -/
def forLoopO {σ : Type} (n : Nat) (body : Nat → σ → Option σ) (s : σ) : Option σ :=
  forLoop n (fun i r => r.bind (body i)) (some s)

/-! ## Raw memory: the `write` and `read` templates of `yoloPlugins.cpp` -/

/-- The `k` little-endian bytes of `v` (the object representation of an
unsigned value of `k` bytes). -/
def leBytes : Nat → Nat → List Nat
  | 0, _ => []
  | k + 1, v => (v % 256) :: leBytes k (v / 256)

/-- The unsigned value whose little-endian bytes are `bs`. -/
def ofLeBytes : List Nat → Nat
  | [] => 0
  | b :: bs => b + 256 * ofLeBytes bs

/-- The 32-bit two's complement pattern of an `int`. -/
def intBits (v : Int) : Nat := (v % 4294967296).toNat

/-- The `int` whose 32-bit two's complement pattern is `u`. -/
def bitsInt (u : Nat) : Int := if u < 2147483648 then (u : Int) else (u : Int) - 4294967296

/-- The template `write<T>(buffer, val)` for a 4-byte `T`: the value is stored
at the cursor and the cursor advances by `sizeof(T)`.  The argument and result
are the bytes written so far. -/
def write32 (buffer : List Nat) (val : Nat) : List Nat := buffer ++ leBytes 4 val

/-- The template `write<T>(buffer, val)` for `uint64_t`. -/
def write64 (buffer : List Nat) (val : Nat) : List Nat := buffer ++ leBytes 8 val

/-- The template `read<T>(buffer, val)` for a `T` of `k` bytes: the value at the
cursor and the advanced cursor (the bytes still unread).  Reading past the end
of the supplied bytes has no defined result and is `none`. -/
def readLE (k : Nat) (buffer : List Nat) : Option (Nat × List Nat) :=
  if buffer.length < k then none else some (ofLeBytes (buffer.take k), buffer.drop k)

/-! ## The operator configuration -/

/-- The struct `TensorInfo` (one detection head).  `scaleXY` and the `anchors`
are `float`s, kept as 32-bit patterns; `mask` holds `int`s. -/
structure TensorInfo where
  blobName : String
  gridSizeX : Nat
  gridSizeY : Nat
  numBBoxes : Nat
  scaleXY : Nat
  anchors : List Nat
  mask : List Int
deriving DecidableEq, Repr

/-- A default-constructed `TensorInfo`. -/
instance : Inhabited TensorInfo := ⟨⟨"", 0, 0, 0, 0, [], []⟩⟩

/-- The data members of `YoloLayer`. -/
structure YoloLayer where
  m_NetWidth : Nat
  m_NetHeight : Nat
  m_NumClasses : Nat
  m_NewCoords : Nat
  m_YoloTensors : List TensorInfo
  m_OutputSize : Nat
deriving DecidableEq, Repr

/-- Narrowing `size_t` to `uint`, as in `uint n = v.size();`. -/
def toUint (n : Nat) : Nat := n % 4294967296

/-- Addition in `size_t`. -/
def addSize (a b : Nat) : Nat := (a + b) % 18446744073709551616

/-- Multiplication in `size_t`. -/
def mulSize (a b : Nat) : Nat := (a * b) % 18446744073709551616

/-- The method `YoloLayer::serialize`: the bytes stored in the buffer. -/
def YoloLayer.serialize (l : YoloLayer) : List Nat :=
  let d : List Nat := []
  let d := write32 d l.m_NetWidth
  let d := write32 d l.m_NetHeight
  let d := write32 d l.m_NumClasses
  let d := write32 d l.m_NewCoords
  let d := write64 d l.m_OutputSize
  let yoloTensorsSize := toUint l.m_YoloTensors.length
  let d := write32 d yoloTensorsSize
  forLoop yoloTensorsSize (fun i d =>
    let curYoloTensor := l.m_YoloTensors.getD i default
    let d := write32 d curYoloTensor.gridSizeX
    let d := write32 d curYoloTensor.gridSizeY
    let d := write32 d curYoloTensor.numBBoxes
    let d := write32 d curYoloTensor.scaleXY
    let anchorsSize := toUint curYoloTensor.anchors.length
    let d := write32 d anchorsSize
    let d := forLoop anchorsSize (fun j d => write32 d (curYoloTensor.anchors.getD j 0)) d
    let maskSize := toUint curYoloTensor.mask.length
    let d := write32 d maskSize
    forLoop maskSize (fun j d => write32 d (intBits (curYoloTensor.mask.getD j 0))) d) d

/-- The method `YoloLayer::getSerializationSize`, with `sizeof(uint) = 4`,
`sizeof(float) = 4`, `sizeof(int) = 4` and `sizeof(uint64_t) = 8`. -/
def YoloLayer.getSerializationSize (l : YoloLayer) : Nat :=
  let totalSize := 0
  let totalSize := addSize totalSize 4
  let totalSize := addSize totalSize 4
  let totalSize := addSize totalSize 4
  let totalSize := addSize totalSize 4
  let totalSize := addSize totalSize 8
  let yoloTensorsSize := toUint l.m_YoloTensors.length
  let totalSize := addSize totalSize 4
  forLoop yoloTensorsSize (fun i totalSize =>
    let curYoloTensor := l.m_YoloTensors.getD i default
    let totalSize := addSize totalSize 4
    let totalSize := addSize totalSize 4
    let totalSize := addSize totalSize 4
    let totalSize := addSize totalSize 4
    let totalSize := addSize totalSize (addSize 4 (mulSize 4 curYoloTensor.anchors.length))
    addSize totalSize (addSize 4 (mulSize 4 curYoloTensor.mask.length))) totalSize

/-- The inner loops of the deserialising constructor: `n` values of 4 bytes
are read and pushed onto `acc`. -/
def readValues {α : Type} (conv : Nat → α) (n : Nat) (d : List Nat) (acc : List α) :
    Option (List Nat × List α) :=
  forLoopO n (fun _ s =>
    (readLE 4 s.1).bind fun r => some (r.2, s.2 ++ [conv r.1])) (d, acc)

/-- One iteration of the head loop of the deserialising constructor. -/
def readTensorInfo (s : List Nat × List TensorInfo) : Option (List Nat × List TensorInfo) :=
  let curYoloTensor : TensorInfo := default
  (readLE 4 s.1).bind fun gx =>
  (readLE 4 gx.2).bind fun gy =>
  (readLE 4 gy.2).bind fun nb =>
  (readLE 4 nb.2).bind fun sc =>
  let curYoloTensor := { curYoloTensor with
    gridSizeX := gx.1, gridSizeY := gy.1, numBBoxes := nb.1, scaleXY := sc.1 }
  (readLE 4 sc.2).bind fun anchorsSize =>
  (readValues id anchorsSize.1 anchorsSize.2 curYoloTensor.anchors).bind fun a =>
  let curYoloTensor := { curYoloTensor with anchors := a.2 }
  (readLE 4 a.1).bind fun maskSize =>
  (readValues bitsInt maskSize.1 maskSize.2 curYoloTensor.mask).bind fun m =>
  let curYoloTensor := { curYoloTensor with mask := m.2 }
  some (m.1, s.2 ++ [curYoloTensor])

/-- The constructor `YoloLayer::YoloLayer(const void* data, size_t length)`:
the object built from the bytes at `data`, together with the bytes that the
cursor `d` has not consumed.  The `length` argument is not used by the
source. -/
def YoloLayer.fromData (data : List Nat) : Option (YoloLayer × List Nat) :=
  (readLE 4 data).bind fun w =>
  (readLE 4 w.2).bind fun h =>
  (readLE 4 h.2).bind fun nc =>
  (readLE 4 nc.2).bind fun newc =>
  (readLE 8 newc.2).bind fun out =>
  (readLE 4 out.2).bind fun yoloTensorsSize =>
  (forLoopO yoloTensorsSize.1 (fun _ s => readTensorInfo s) (yoloTensorsSize.2, [])).bind fun r =>
  some ({ m_NetWidth := w.1, m_NetHeight := h.1, m_NumClasses := nc.1, m_NewCoords := newc.1,
          m_YoloTensors := r.2, m_OutputSize := out.1 }, r.1)

/-! ### The layout in the words of the specification -/

/-- The bytes of one head: grid width, grid height, box count, scale factor,
anchor count and the anchors, mask count and the mask entries. -/
def headLayout (t : TensorInfo) : List Nat :=
  leBytes 4 t.gridSizeX ++ leBytes 4 t.gridSizeY ++ leBytes 4 t.numBBoxes ++ leBytes 4 t.scaleXY
    ++ leBytes 4 t.anchors.length ++ t.anchors.flatMap (leBytes 4)
    ++ leBytes 4 t.mask.length ++ t.mask.flatMap (fun m => leBytes 4 (intBits m))

/-- The flat byte sequence of a configuration: width, height, class count,
coordinate-scheme flag, output size, head count, then the heads in order. -/
def layout (l : YoloLayer) : List Nat :=
  leBytes 4 l.m_NetWidth ++ leBytes 4 l.m_NetHeight ++ leBytes 4 l.m_NumClasses
    ++ leBytes 4 l.m_NewCoords ++ leBytes 8 l.m_OutputSize
    ++ leBytes 4 l.m_YoloTensors.length ++ l.m_YoloTensors.flatMap headLayout

/-- The number of bytes of one head: six 4-byte words and the two lists. -/
def headSize (t : TensorInfo) : Nat := 24 + 4 * t.anchors.length + 4 * t.mask.length

/-- A head whose members hold values of their C++ types and whose list lengths
fit a `uint`. -/
def TensorInfo.Valid (t : TensorInfo) : Prop :=
  t.gridSizeX < 4294967296 ∧ t.gridSizeY < 4294967296 ∧ t.numBBoxes < 4294967296
    ∧ t.scaleXY < 4294967296
    ∧ t.anchors.length < 4294967296 ∧ t.mask.length < 4294967296
    ∧ (∀ a ∈ t.anchors, a < 4294967296)
    ∧ (∀ m ∈ t.mask, -2147483648 ≤ m ∧ m < 2147483648)

instance (t : TensorInfo) : Decidable t.Valid := by
  unfold TensorInfo.Valid; infer_instance

/-- A configuration whose members hold values of their C++ types and whose
head count fits a `uint`. -/
def YoloLayer.Valid (l : YoloLayer) : Prop :=
  l.m_NetWidth < 4294967296 ∧ l.m_NetHeight < 4294967296 ∧ l.m_NumClasses < 4294967296
    ∧ l.m_NewCoords < 4294967296 ∧ l.m_OutputSize < 18446744073709551616
    ∧ l.m_YoloTensors.length < 4294967296 ∧ (∀ t ∈ l.m_YoloTensors, t.Valid)

instance (l : YoloLayer) : Decidable l.Valid := by
  unfold YoloLayer.Valid; infer_instance

/-- The configuration with every head's `blobName` reset to the empty string,
the one member that the serialised form does not carry. -/
def YoloLayer.eraseBlobNames (l : YoloLayer) : YoloLayer :=
  { l with m_YoloTensors := l.m_YoloTensors.map fun t => { t with blobName := "" } }

/-- A sample configuration with two heads. -/
def sampleLayer : YoloLayer :=
  { m_NetWidth := 416, m_NetHeight := 416, m_NumClasses := 80, m_NewCoords := 0,
    m_YoloTensors :=
      [ { blobName := "yolo_17", gridSizeX := 13, gridSizeY := 13, numBBoxes := 3,
          scaleXY := 1065353216, anchors := [1092616192, 1096810496, 1102577664, 1104674816],
          mask := [3, 4, 5] },
        { blobName := "yolo_24", gridSizeX := 26, gridSizeY := 26, numBBoxes := 2,
          scaleXY := 1065353216, anchors := [1092616192, 1096810496], mask := [0, -1] } ],
    m_OutputSize := 1859 }

/-! ## The post-processor (`nvdsparsebbox_Yolo.cpp`) -/

/-- The struct `NvDsInferParseObjectInfo` of the inference SDK: `classId` is an
`unsigned int`, the other members are `float`s. -/
structure NvDsInferParseObjectInfo where
  classId : Nat
  left : ℚ
  top : ℚ
  width : ℚ
  height : ℚ
  detectionConfidence : ℚ
deriving DecidableEq

/-- Rounding to the nearest integer, ties to the even one. -/
def roundEven (t : ℚ) : Int :=
  let f := ⌊t⌋
  if t - f < 1 / 2 then f
  else if 1 / 2 < t - f then f + 1
  else if f % 2 = 0 then f else f + 1

/-- The binary32 value of a `float` expression whose exact value is `x`: round
to nearest, ties to even, with a 24-bit significand, least exponent `-126` and
gradual underflow.  The result is finite, which it is for every `x` below
`2 ^ 128` in magnitude; the expressions rounded here are below `2 ^ 33`. -/
def f32 (x : ℚ) : ℚ :=
  let e := Int.log 2 |x|
  let q := max e (-126) - 23
  (roundEven (x / 2 ^ q) : ℚ) * 2 ^ q

/-- The file-local `clamp`: `std::max(minVal, std::min(val, maxVal))`. -/
def clamp (val minVal maxVal : ℚ) : ℚ := max minVal (min val maxVal)

/-- The function `convertBBox`.  The arguments of `clamp` are `float`s: the
`uint`s `netW` and `netH` are converted, and the differences `x2 - x1` and
`y2 - y1` are computed in `float`.  The members `classId` and
`detectionConfidence` are not set by it (they read `0` here). -/
def convertBBox (bx1 by1 bx2 by2 : ℚ) (netW netH : Nat) : NvDsInferParseObjectInfo :=
  let x1 := bx1
  let y1 := by1
  let x2 := bx2
  let y2 := by2
  let x1 := clamp x1 0 (f32 netW)
  let y1 := clamp y1 0 (f32 netH)
  let x2 := clamp x2 0 (f32 netW)
  let y2 := clamp y2 0 (f32 netH)
  { classId := 0, detectionConfidence := 0,
    left := x1, width := clamp (f32 (x2 - x1)) 0 (f32 netW),
    top := y1, height := clamp (f32 (y2 - y1)) 0 (f32 netH) }

/-- The function `addBBoxProposal`: `binfo` before and after the call.  The
assignment `bbi.classId = maxIndex` converts the `int` to `unsigned int`. -/
def addBBoxProposal (bx1 by1 bx2 by2 : ℚ) (netW netH : Nat) (maxIndex : Int) (maxProb : ℚ)
    (binfo : List NvDsInferParseObjectInfo) : List NvDsInferParseObjectInfo :=
  let bbi := convertBBox bx1 by1 bx2 by2 netW netH
  if bbi.width < 1 ∨ bbi.height < 1 then binfo
  else
    let bbi := { bbi with detectionConfidence := maxProb }
    let bbi := { bbi with classId := intBits maxIndex }
    binfo ++ [bbi]

/-- The conversion `(int) x` of a `float`: truncation toward zero, defined
when the truncated value is an `int`. -/
def floatToInt (x : ℚ) : Option Int :=
  let z := Int.tdiv x.num (x.den : Int)
  if -2147483648 ≤ z ∧ z < 2147483648 then some z else none

/-- The access `v[i]` of a `std::vector<float>` with an `int` index; it is
defined for `0 ≤ i < v.size()`. -/
def vecAt (v : List ℚ) (i : Int) : Option ℚ :=
  if 0 ≤ i then v[i.toNat]? else none

/-- The function `decodeTensorYolo`.  `output` is the memory at the pointer
`output`; the indices `b * 6 + k` are computed in `uint`.  A read outside
`output` or outside `preclusterThreshold`, and an undefined conversion, give
`none`. -/
def decodeTensorYolo (output : List ℚ) (outputSize netW netH : Nat)
    (preclusterThreshold : List ℚ) : Option (List NvDsInferParseObjectInfo) :=
  forLoopO outputSize (fun b binfo =>
    (output[toUint (b * 6 + 4)]?).bind fun maxProb =>
    (output[toUint (b * 6 + 5)]?).bind fun cls =>
    (floatToInt cls).bind fun maxIndex =>
    (vecAt preclusterThreshold maxIndex).bind fun threshold =>
    if maxProb < threshold then some binfo
    else
      (output[toUint (b * 6 + 0)]?).bind fun bx1 =>
      (output[toUint (b * 6 + 1)]?).bind fun by1 =>
      (output[toUint (b * 6 + 2)]?).bind fun bx2 =>
      (output[toUint (b * 6 + 3)]?).bind fun by2 =>
      some (addBBoxProposal bx1 by1 bx2 by2 netW netH maxIndex maxProb binfo)) []

/-! ### The post-processor in the words of the specification -/

/-- One candidate record of the operator's output:
`(x1, y1, x2, y2, confidence, classIndex)`. -/
structure Candidate where
  x1 : ℚ
  y1 : ℚ
  x2 : ℚ
  y2 : ℚ
  confidence : ℚ
  classIndex : ℚ
deriving DecidableEq

/-- The records of a flat buffer, six floats each. -/
def candidates : List ℚ → List Candidate
  | a :: b :: c :: d :: e :: f :: rest => ⟨a, b, c, d, e, f⟩ :: candidates rest
  | _ => []

/-- The threshold that applies to a candidate: the entry of the per-class
vector at its class index, when that index is valid. -/
def classThreshold (thresholds : List ℚ) (c : Candidate) : Option ℚ :=
  (floatToInt c.classIndex).bind (vecAt thresholds)

/-- The detection emitted for one candidate, if any: a candidate below its
class threshold is discarded; otherwise its corners are clamped and it is
discarded when a dimension of the clamped box is below 1. -/
def emitted (netW netH : Nat) (thresholds : List ℚ) (c : Candidate) :
    Option NvDsInferParseObjectInfo :=
  (floatToInt c.classIndex).bind fun k =>
  (vecAt thresholds k).bind fun t =>
  if c.confidence < t then none
  else
    let b := convertBBox c.x1 c.y1 c.x2 c.y2 netW netH
    if b.width < 1 ∨ b.height < 1 then none
    else some { b with detectionConfidence := c.confidence, classId := intBits k }

/-- A box that lies within the network bounds. -/
def InBounds (netW netH : Nat) (o : NvDsInferParseObjectInfo) : Prop :=
  0 ≤ o.left ∧ o.left + o.width ≤ netW ∧ 0 ≤ o.top ∧ o.top + o.height ≤ netH

/-- The box of the corners `(x1, y1)` and `(x2, y2)`: left and top are the
first corner clamped to the network size, width and height are the differences
of the clamped corners, clamped again; the network size and the differences
are `float`s. -/
def IsClampedBox (netW netH : Nat) (x1 y1 x2 y2 : ℚ) (o : NvDsInferParseObjectInfo) : Prop :=
  o.left = clamp x1 0 (f32 netW) ∧ o.top = clamp y1 0 (f32 netH) ∧
    o.width = clamp (f32 (clamp x2 0 (f32 netW) - clamp x1 0 (f32 netW))) 0 (f32 netW) ∧
    o.height = clamp (f32 (clamp y2 0 (f32 netH) - clamp y1 0 (f32 netH))) 0 (f32 netH)

/-! ## The network compiler (`yolo.cpp`) -/

/-- How a run of the compiler can end early: a failed `assert`, an exception
thrown by `at` or `stoi`, or an access outside an array. -/
inductive Fault where
  | assertion
  | exception
  | undefined
deriving DecidableEq, Repr

/-- The status codes returned by `buildYoloNetwork`. -/
inductive NvDsInferStatus where
  | NVDSINFER_SUCCESS
deriving DecidableEq, Repr

/-- A block of the network description: `std::map<std::string, std::string>`,
read with `List.lookup`. -/
abbrev ConfigBlock := List (String × String)

/-- A graph tensor: an identity and its dimensions (`nbDims` is the length). -/
structure ITensor where
  id : Nat
  dims : List Int
deriving DecidableEq, Repr

instance {ε α : Type} [DecidableEq ε] [DecidableEq α] : DecidableEq (Except ε α)
  | .ok a, .ok b => if h : a = b then isTrue (by rw [h]) else isFalse (by simp [h])
  | .error a, .error b => if h : a = b then isTrue (by rw [h]) else isFalse (by simp [h])
  | .ok _, .error _ => isFalse (by simp)
  | .error _, .ok _ => isFalse (by simp)

/-- A counted loop whose body can end the run. -/
def forLoopE {σ : Type} (n : Nat) (body : Nat → σ → Except Fault σ) (s : σ) : Except Fault σ :=
  forLoop n (fun i r => r.bind (body i)) (.ok s)

/-- The predicate `isspace` in the C locale. -/
def isSpace (c : Char) : Bool := c.toNat = 32 || (9 ≤ c.toNat && c.toNat ≤ 13)

/-- The function `std::stoi(s)`: leading white space is skipped, an optional sign
and the longest run of decimal digits are read; no digits or a value outside
`int` throw. -/
def stoi (s : String) : Option Int :=
  let cs := s.toList.dropWhile isSpace
  let neg := cs.head? = some '-'
  let cs := if cs.head? = some '-' ∨ cs.head? = some '+' then cs.tail else cs
  let ds := cs.takeWhile Char.isDigit
  let v : Int := ds.foldl (fun a c => 10 * a + ((c.toNat - 48 : Nat) : Int)) 0
  let z := if neg then -v else v
  if ds = [] then none
  else if -2147483648 ≤ z ∧ z < 2147483648 then some z else none

/-- The function `dimsToString` of `utils.cpp`. -/
def dimsToString (d : List Int) : Except Fault String :=
  if d.length < 1 then .error .assertion
  else
    .ok ("[" ++ String.join (((List.range (d.length - 1)).tail).map fun i =>
        toString (d.getD i 0) ++ ", ") ++ toString (d.getD (d.length - 1) 0) ++ "]")

/-- The function `getNumChannels` of `utils.cpp`. -/
def getNumChannels (t : ITensor) : Except Fault Int :=
  if t.dims.length = 4 then .ok (t.dims.getD 1 0) else .error .assertion

/-- The layer builders of the repository (`convolutionalLayer`, ...,
`reorgLayer`) and the two calls into the inference runtime, `addInput` and
`addPluginV2`.  Their code is not part of this development: every behaviour is
allowed.  A builder returns the new tensor (`none` for a null pointer) and,
when it takes the weight cursor by reference, the cursor's new value; the
weight array itself is only read. -/
structure LayerBuilders where
  addInput : String → List Int → Option ITensor
  convolutionalLayer : Nat → ConfigBlock → List Nat → Int → Int → ITensor → Option ITensor × Int
  deconvolutionalLayer : Nat → ConfigBlock → List Nat → Int → Int → ITensor → Option ITensor × Int
  batchnormLayer : Nat → ConfigBlock → List Nat → Int → ITensor → Option ITensor × Int
  implicitLayer : Nat → ConfigBlock → List Nat → Int → Option ITensor × Int
  channelsLayer : Nat → ConfigBlock → ITensor → ITensor → Option ITensor
  shortcutLayer : Nat → String → String → String → ConfigBlock → ITensor → ITensor → Option ITensor
  samLayer : Nat → String → ConfigBlock → ITensor → ITensor → Option ITensor
  routeLayer : Nat → ConfigBlock → List ITensor → Option ITensor
  upsampleLayer : Nat → ConfigBlock → ITensor → Option ITensor
  poolingLayer : Nat → ConfigBlock → ITensor → Option ITensor
  reorgLayer : Nat → ConfigBlock → ITensor → Option ITensor
  addPluginV2 : List ITensor → Nat → YoloLayer → Option ITensor

/-- The data members of the class `Yolo` that `parseConfigBlocks` and
`buildYoloNetwork` read or write. -/
structure Yolo where
  m_InputBlobName : String
  m_BatchSize : Nat
  m_ImplicitBatch : Bool
  m_InputC : Nat
  m_InputH : Nat
  m_InputW : Nat
  m_NumClasses : Nat
  m_NewCoords : Nat
  m_YoloCount : Nat
  m_ConfigBlocks : List ConfigBlock
  m_YoloTensors : List TensorInfo
  m_InputSize : Nat := 0
  m_LetterBox : Nat := 0
deriving DecidableEq

/-- The local variables of `buildYoloNetwork` that live across the block loop,
and the member `m_YoloTensors`, which the loop updates.  `yoloTensorInputs`
holds the entries of the array written so far. -/
structure BuildState where
  weightPtr : Int
  previous : ITensor
  tensorOutputs : List ITensor
  yoloTensorInputs : List ITensor
  yoloCountInputs : Nat
  m_YoloTensors : List TensorInfo
deriving DecidableEq, Repr

/-- The statement `if (from > 0) { from = from - i + 1; }`: the right-hand side
is computed in `uint` and stored back into the `int`. -/
def relativeFrom (i : Nat) (from_ : Int) : Int :=
  if from_ > 0 then bitsInt (intBits (from_ - i + 1)) else from_

/-- The `uint` expression `i + from - 1`. -/
def refIndex (i : Nat) (from_ : Int) : Nat := intBits (i + from_ - 1)

/-- The three assertions that precede every use of `tensorOutputs[i + from - 1]`;
`i - 2` is a `uint` expression, so `i - 2 >= 0` and `i + from - 1 >= 0` always
hold. -/
def assertReference (i : Nat) (from_ : Int) (size : Nat) : Except Fault Unit :=
  if ¬ (intBits (i - 2) < size) then .error .assertion
  else if ¬ (refIndex i from_ < size) then .error .assertion
  else if ¬ (refIndex i from_ < intBits (i - 2)) then .error .assertion
  else .ok ()

/-- The `from` attribute of a reference block: the assertion that it is
present, `stoi`, and the reinterpretation of a positive value. -/
def readFrom (i : Nat) (block : ConfigBlock) : Except Fault Int :=
  match block.lookup "from" with
  | none => .error .assertion
  | some s =>
    match stoi s with
    | none => .error .exception
    | some from_ => .ok (relativeFrom i from_)

/-- The common tail of the tensor-producing branches: `assert(previous !=
nullptr)`, the output volume string, and `tensorOutputs.push_back(previous)`. -/
def pushTensor (st : BuildState) (t : Option ITensor) (weightPtr : Int) :
    Except Fault BuildState :=
  match t with
  | none => .error .assertion
  | some previous =>
    (dimsToString previous.dims).bind fun _ =>
    .ok { st with previous := previous, tensorOutputs := st.tensorOutputs ++ [previous],
                  weightPtr := weightPtr }

/-- The access `block.at(key)` where only its success matters. -/
def requireKey (block : ConfigBlock) (key : String) : Except Fault Unit :=
  match block.lookup key with
  | none => .error .exception
  | some _ => .ok ()

/-- The branches of the `if`/`else if` chain over the `type` attribute in the
block loop of `buildYoloNetwork`, in source order. -/
inductive LayerKind where
  | net
  | conv
  | deconv
  | batchnorm
  | implicit
  | channels
  | shortcut
  | sam
  | route
  | upsample
  | pooling
  | reorg
  | yolo
  | dropout
  | unsupported
deriving DecidableEq, Repr

/-- The conditions of the `if`/`else if` chain over the `type` attribute, in
source order: which branch runs for a block of the given type. -/
def layerKind (type : String) : LayerKind :=
  if type = "net" then .net
  else if type = "conv" ∨ type = "convolutional" then .conv
  else if type = "deconv" ∨ type = "deconvolutional" then .deconv
  else if type = "batchnorm" then .batchnorm
  else if type = "implicit" ∨ type = "implicit_add" ∨ type = "implicit_mul" then .implicit
  else if type = "shift_channels" ∨ type = "control_channels" then .channels
  else if type = "shortcut" then .shortcut
  else if type = "sam" then .sam
  else if type = "route" then .route
  else if type = "upsample" then .upsample
  else if type = "max" ∨ type = "maxpool" ∨ type = "avg" ∨ type = "avgpool" then .pooling
  else if type = "reorg" ∨ type = "reorg3d" then .reorg
  else if type = "yolo" ∨ type = "region" then .yolo
  else if type = "dropout" then .dropout
  else .unsupported

/-- The body of the block loop of `buildYoloNetwork` for block `i`: the branch
selected by `layerKind` for the block's `type`. -/
def buildBlock (y : Yolo) (B : LayerBuilders) (weights : List Nat) (i : Nat) (st : BuildState) :
    Except Fault BuildState :=
  match y.m_ConfigBlocks[i]? with
  | none => .error .exception
  | some block =>
  match block.lookup "type" with
  | none => .error .exception
  | some type =>
  match layerKind type with
  | .net => .ok st
  | .conv =>
    (getNumChannels st.previous).bind fun channels =>
    (dimsToString st.previous.dims).bind fun _ =>
    let r := B.convolutionalLayer i block weights st.weightPtr channels st.previous
    (pushTensor st r.1 r.2).bind fun st =>
    (requireKey block "activation").bind fun _ => .ok st
  | .deconv =>
    (getNumChannels st.previous).bind fun channels =>
    (dimsToString st.previous.dims).bind fun _ =>
    let r := B.deconvolutionalLayer i block weights st.weightPtr channels st.previous
    pushTensor st r.1 r.2
  | .batchnorm =>
    (dimsToString st.previous.dims).bind fun _ =>
    let r := B.batchnormLayer i block weights st.weightPtr st.previous
    (pushTensor st r.1 r.2).bind fun st =>
    (requireKey block "activation").bind fun _ => .ok st
  | .implicit =>
    let r := B.implicitLayer i block weights st.weightPtr
    pushTensor st r.1 r.2
  | .channels =>
    (readFrom i block).bind fun from_ =>
    (assertReference i from_ st.tensorOutputs.length).bind fun _ =>
    (dimsToString st.previous.dims).bind fun _ =>
    match st.tensorOutputs[refIndex i from_]? with
    | none => .error .undefined
    | some ref => pushTensor st (B.channelsLayer i block st.previous ref) st.weightPtr
  | .shortcut =>
    (readFrom i block).bind fun from_ =>
    (assertReference i from_ st.tensorOutputs.length).bind fun _ =>
    let activation := (block.lookup "activation").getD "linear"
    (dimsToString st.previous.dims).bind fun inputVol =>
    match st.tensorOutputs[refIndex i from_]? with
    | none => .error .undefined
    | some ref =>
      (dimsToString ref.dims).bind fun shortcutVol =>
      pushTensor st (B.shortcutLayer i activation inputVol shortcutVol block st.previous ref)
        st.weightPtr
  | .sam =>
    (readFrom i block).bind fun from_ =>
    (assertReference i from_ st.tensorOutputs.length).bind fun _ =>
    let activation := (block.lookup "activation").getD "linear"
    (dimsToString st.previous.dims).bind fun _ =>
    match st.tensorOutputs[refIndex i from_]? with
    | none => .error .undefined
    | some ref => pushTensor st (B.samLayer i activation block st.previous ref) st.weightPtr
  | .route => pushTensor st (B.routeLayer i block st.tensorOutputs) st.weightPtr
  | .upsample =>
    (dimsToString st.previous.dims).bind fun _ =>
    pushTensor st (B.upsampleLayer i block st.previous) st.weightPtr
  | .pooling =>
    (dimsToString st.previous.dims).bind fun _ =>
    pushTensor st (B.poolingLayer i block st.previous) st.weightPtr
  | .reorg =>
    (dimsToString st.previous.dims).bind fun _ =>
    pushTensor st (B.reorgLayer i block st.previous) st.weightPtr
  | .yolo =>
    let blobName := (if type = "yolo" then "yolo_" else "region_") ++ toString i
    let prevTensorDims := st.previous.dims
    match st.m_YoloTensors[st.yoloCountInputs]? with
    | none => .error .exception
    | some curYoloTensor =>
      let curYoloTensor := { curYoloTensor with
        blobName := blobName,
        gridSizeY := intBits (prevTensorDims.getD 2 0),
        gridSizeX := intBits (prevTensorDims.getD 3 0) }
      (dimsToString st.previous.dims).bind fun _ =>
      if st.yoloCountInputs < y.m_YoloCount then
        .ok { st with
          m_YoloTensors := st.m_YoloTensors.set st.yoloCountInputs curYoloTensor,
          tensorOutputs := st.tensorOutputs ++ [st.previous],
          yoloTensorInputs := st.yoloTensorInputs ++ [st.previous],
          yoloCountInputs := toUint (st.yoloCountInputs + 1) }
      else .error .undefined
  | .dropout => .ok st
  | .unsupported => .error .assertion

/-- The statements of `buildYoloNetwork` before the block loop: the network
input is added and asserted to be a tensor with at least one dimension. -/
def buildInit (y : Yolo) (B : LayerBuilders) : Except Fault BuildState :=
  let batchSize : Nat := if y.m_ImplicitBatch then y.m_BatchSize else intBits (-1)
  match B.addInput y.m_InputBlobName
      [bitsInt batchSize, bitsInt y.m_InputC, bitsInt y.m_InputH, bitsInt y.m_InputW] with
  | none => .error .assertion
  | some data =>
    if 0 < data.dims.length then
      .ok { weightPtr := 0, previous := data, tensorOutputs := [], yoloTensorInputs := [],
            yoloCountInputs := 0, m_YoloTensors := y.m_YoloTensors }
    else .error .assertion

/-- The state of `buildYoloNetwork` when the loop variable has reached `n`,
that is after blocks `0, ..., n - 1`. -/
def buildLoop (y : Yolo) (B : LayerBuilders) (weights : List Nat) (n : Nat) :
    Except Fault BuildState :=
  (buildInit y B).bind (forLoopE n (buildBlock y B weights))

/-- What `buildYoloNetwork` itself has done to the network after the loop:
the operator created by `new YoloLayer`, whether `addPluginV2` returned a
layer for it, and the tensors passed to `markOutput`. -/
structure Network where
  yoloPlugin : Option YoloLayer
  pluginAdded : Bool
  outputs : List ITensor
deriving DecidableEq, Repr

/-- The second `YoloLayer` constructor, with its four assertions. -/
def YoloLayer.create (netWidth netHeight numClasses newCoords : Nat) (yoloTensors : List TensorInfo)
    (outputSize : Nat) : Except Fault YoloLayer :=
  if 0 < netWidth ∧ 0 < netHeight ∧ 0 < numClasses ∧ 0 < outputSize then
    .ok { m_NetWidth := netWidth, m_NetHeight := netHeight, m_NumClasses := numClasses,
          m_NewCoords := newCoords, m_YoloTensors := yoloTensors, m_OutputSize := outputSize }
  else .error .assertion

/-- The statements of `buildYoloNetwork` after the block loop, from the final
loop state: the weight check, the count check, the output size, the operator
and the output. -/
def finishNetwork (y : Yolo) (B : LayerBuilders) (weights : List Nat) (st : BuildState) :
    Except Fault NvDsInferStatus × Network :=
  if bitsInt (toUint weights.length) ≠ st.weightPtr then
    (.error .assertion, ⟨none, false, []⟩)
  else if y.m_YoloCount = st.yoloCountInputs then
    let outputSize := forLoop st.yoloCountInputs (fun j outputSize =>
      let curYoloTensor := st.m_YoloTensors.getD j default
      (outputSize + toUint (curYoloTensor.numBBoxes * curYoloTensor.gridSizeY
        * curYoloTensor.gridSizeX)) % 18446744073709551616) 0
    match YoloLayer.create y.m_InputW y.m_InputH y.m_NumClasses y.m_NewCoords st.m_YoloTensors
        outputSize with
    | .error f => (.error f, ⟨none, false, []⟩)
    | .ok yoloPlugin =>
      match B.addPluginV2 st.yoloTensorInputs y.m_YoloCount yoloPlugin with
      | none => (.error .assertion, ⟨some yoloPlugin, false, []⟩)
      | some detection_output =>
        (.ok .NVDSINFER_SUCCESS, ⟨some yoloPlugin, true, [detection_output]⟩)
  else (.error .assertion, ⟨none, false, []⟩)

/-- The method `Yolo::buildYoloNetwork`: the returned status, or how the run
ended early, and what was done to the network after the loop. -/
def buildYoloNetwork (y : Yolo) (B : LayerBuilders) (weights : List Nat) :
    Except Fault NvDsInferStatus × Network :=
  match buildLoop y B weights y.m_ConfigBlocks.length with
  | .error f => (.error f, ⟨none, false, []⟩)
  | .ok st => finishNetwork y B weights st

/-! ### Sample inputs -/

/-- Sample layer builders: every builder returns a tensor with the dimensions of
its input; the weighted ones consume two floats. -/
def sampleBuilders : LayerBuilders where
  addInput := fun _ d => some ⟨0, d⟩
  convolutionalLayer := fun i _ _ p _ t => (some ⟨i, t.dims⟩, p + 2)
  deconvolutionalLayer := fun i _ _ p _ t => (some ⟨i, t.dims⟩, p + 2)
  batchnormLayer := fun i _ _ p t => (some ⟨i, t.dims⟩, p + 2)
  implicitLayer := fun i _ _ p => (some ⟨i, [1, 1, 1, 1]⟩, p + 2)
  channelsLayer := fun i _ t _ => some ⟨i, t.dims⟩
  shortcutLayer := fun i _ _ _ _ t _ => some ⟨i, t.dims⟩
  samLayer := fun i _ _ t _ => some ⟨i, t.dims⟩
  routeLayer := fun i _ ts => some ⟨i, (ts.getLastD ⟨0, [1]⟩).dims⟩
  upsampleLayer := fun i _ t => some ⟨i, t.dims⟩
  poolingLayer := fun i _ t => some ⟨i, t.dims⟩
  reorgLayer := fun i _ t => some ⟨i, t.dims⟩
  addPluginV2 := fun _ _ _ => some ⟨1000, [1, 507, 6]⟩

/-- A sample output buffer of four candidates; the first has a confidence equal
to its class threshold, the third a clamped width below 1, the last a
confidence below its class threshold. -/
def sampleOutput : List ℚ :=
  [10, 20, 110, 220, 1 / 2, 1, -5, 3, 500, 9 / 2, 9 / 10, 0,
    1, 1, 3 / 2, 5, 9 / 10, 0, 0, 0, 50, 50, 1 / 10, 1]

/-- A sample output buffer holding one candidate. -/
def sampleRecord : List ℚ := [10, 20, 110, 220, 1 / 2, 1]

/-- A sample output buffer holding one candidate whose first corner is
`2 ^ -30` to the right of the left edge. -/
def sampleShifted : List ℚ := [1 / 1073741824, 0, 416, 416, 9 / 10, 0]

/-- The object that the post-processor makes of `sampleShifted` in a 416 x 416
network. -/
def sampleShiftedObject : NvDsInferParseObjectInfo :=
  { classId := 0, left := 1 / 1073741824, top := 0, width := 416, height := 416,
    detectionConfidence := 9 / 10 }

/-- Sample per-class thresholds for two classes. -/
def sampleThresholds : List ℚ := [1 / 4, 1 / 2]

/-- A sample compiler: `net`, three convolutions, a shortcut three layers back
and a detection head. -/
def sampleYolo : Yolo where
  m_InputBlobName := "input"
  m_BatchSize := 1
  m_ImplicitBatch := true
  m_InputC := 3
  m_InputH := 13
  m_InputW := 13
  m_NumClasses := 1
  m_NewCoords := 0
  m_YoloCount := 1
  m_ConfigBlocks :=
    [ [("type", "net"), ("channels", "3"), ("height", "13"), ("width", "13")],
      [("type", "convolutional"), ("activation", "leaky")],
      [("type", "convolutional"), ("activation", "leaky")],
      [("type", "convolutional"), ("activation", "leaky")],
      [("type", "shortcut"), ("from", "-3")],
      [("type", "yolo"), ("anchors", "10,14, 23,27, 37,58"), ("classes", "1"), ("num", "3")] ]
  m_YoloTensors :=
    [ { blobName := "", gridSizeX := 0, gridSizeY := 0, numBBoxes := 3, scaleXY := 1065353216,
        anchors := [1092616192, 1096810496, 1102577664, 1104674816, 1108606976, 1114112000],
        mask := [] } ]

/-- The loop state of the sample compiler when it reaches the shortcut block. -/
def sampleStateAt4 : BuildState where
  weightPtr := 6
  previous := ⟨3, [1, 3, 13, 13]⟩
  tensorOutputs := [⟨1, [1, 3, 13, 13]⟩, ⟨2, [1, 3, 13, 13]⟩, ⟨3, [1, 3, 13, 13]⟩]
  yoloTensorInputs := []
  yoloCountInputs := 0
  m_YoloTensors := sampleYolo.m_YoloTensors

/-- The loop state of the sample compiler after its last block, for any weight
array (the sample builders do not look at it). -/
def sampleStateAt6 : BuildState where
  weightPtr := 6
  previous := ⟨4, [1, 3, 13, 13]⟩
  tensorOutputs := [⟨1, [1, 3, 13, 13]⟩, ⟨2, [1, 3, 13, 13]⟩, ⟨3, [1, 3, 13, 13]⟩,
    ⟨4, [1, 3, 13, 13]⟩, ⟨4, [1, 3, 13, 13]⟩]
  yoloTensorInputs := [⟨4, [1, 3, 13, 13]⟩]
  yoloCountInputs := 1
  m_YoloTensors :=
    [ { blobName := "yolo_5", gridSizeX := 13, gridSizeY := 13, numBBoxes := 3,
        scaleXY := 1065353216,
        anchors := [1092616192, 1096810496, 1102577664, 1104674816, 1108606976, 1114112000],
        mask := [] } ]

/-! ## The config parser (`utils.cpp`, `Yolo::parseConfigFile`) -/

/-- The function `leftTrim` of `utils.cpp`, on the characters of the string. -/
def leftTrim (s : List Char) : List Char := s.dropWhile isSpace

/-- The function `rightTrim` of `utils.cpp`, on the characters of the string. -/
def rightTrim (s : List Char) : List Char := (s.reverse.dropWhile isSpace).reverse

/-- The function `trim` of `utils.cpp`, on the characters of the string. -/
def trimChars (s : List Char) : List Char := rightTrim (leftTrim s)

/-- The function `trim` of `utils.cpp`. -/
def trim (s : String) : String := ⟨trimChars s.data⟩

/-- The call `block.insert(std::pair(key, value))` on a `std::map`: a key that
is already present keeps its value. -/
def mapInsert (block : ConfigBlock) (key value : String) : ConfigBlock :=
  match block.lookup key with
  | some _ => block
  | none => block ++ [(key, value)]

/-- The test `line.size() == 0 || line.front() == ' ' || line.front() == '#'`
that makes the line loop of `parseConfigFile` `continue`. -/
def skipLine (line : String) : Bool :=
  line.data.length = 0 || line.data.head? = some ' ' || line.data.head? = some '#'

/-- A character other than `=`. -/
def notEq (c : Char) : Bool := !(c == '=')

/-- The member `line.find('=')`: the position of the first `=`, if any. -/
def findEq (line : List Char) : Option Nat :=
  if '=' ∈ line then some (line.takeWhile notEq).length else none

/-- The body of the line loop of `parseConfigFile`; the state is the pair of
`blocks` and `block`.  In a trimmed line that is empty `front()` reads the
terminating null, which is not `[`.  When `find` returns `npos`, `cpos` is `-1`:
`substr(0, cpos)` and `substr(cpos + 1)` are both the whole line. -/
def parseLine (st : List ConfigBlock × ConfigBlock) (line : String) :
    List ConfigBlock × ConfigBlock :=
  if skipLine line then st
  else
    let line := trimChars line.data
    if line.head? = some '[' then
      let st := if st.2.length > 0 then (st.1 ++ [st.2], []) else st
      let key := "type"
      let value : String := ⟨trimChars ((line.drop 1).take (line.length - 2))⟩
      (st.1, mapInsert st.2 key value)
    else
      match findEq line with
      | some cpos =>
        let key : String := ⟨trimChars (line.take cpos)⟩
        let value : String := ⟨trimChars (line.drop (cpos + 1))⟩
        (st.1, mapInsert st.2 key value)
      | none =>
        let key : String := ⟨trimChars line⟩
        let value : String := ⟨trimChars line⟩
        (st.1, mapInsert st.2 key value)

/-- The method `Yolo::parseConfigFile`, applied to the lines that `getline`
reads from the file (which exists and can be read). -/
def parseConfigFile (lines : List String) : List ConfigBlock :=
  let st := lines.foldl parseLine ([], [])
  st.1 ++ [st.2]

/-! ### The config format in the words of the specification -/

/-- A line that opens a block: it is not skipped and its trimmed content starts
with `[`. -/
def isHeader (line : String) : Bool :=
  !skipLine line && (trimChars line.data).head? = some '['

/-- The `type` of the block opened by a header line: the trimmed text between
the first and the last character of the trimmed line. -/
def headerType (line : String) : String :=
  ⟨trimChars (((trimChars line.data).drop 1).dropLast)⟩

/-- The key and the value of a line that is neither skipped nor a header: the
trimmed texts before and after the first `=` (the whole trimmed line, twice,
when there is no `=`). -/
def keyValue (line : String) : String × String :=
  if '=' ∈ line.data then
    (⟨trimChars (line.data.takeWhile notEq)⟩,
      ⟨trimChars ((line.data.dropWhile notEq).drop 1)⟩)
  else (⟨trimChars line.data⟩, ⟨trimChars line.data⟩)

/-- The block of one section of the text: the header's `type`, then the lines
that follow it up to the next header, each inserted unless it is skipped. -/
def sectionBlock (section_ : String × List String) : ConfigBlock :=
  (section_.2.filter fun l => !skipLine l).foldl
    (fun b l => mapInsert b (keyValue l).1 (keyValue l).2) [("type", headerType section_.1)]

/-- The lines of a list of sections, each a header line and its body. -/
def sectionLines (sections : List (String × List String)) : List String :=
  sections.flatMap fun s => s.1 :: s.2

/-- A sample network description. -/
def sampleConfig : List String :=
  [ "# sample", "[net]", "channels=3", " batch=1", "height = 416", "width=416", "",
    "[convolutional]", "filters=16", "size=3", "stride=1", "activation=leaky",
    "[yolo]", "anchors = 10,14, 23,27, 37,58", "classes=1", "num=3" ]

/-! ## The attribute pass (`Yolo::parseConfigBlocks`) -/

/-- The function `std::stoul(s)`: leading white space is skipped, an optional
sign and the longest run of decimal digits are read; no digits or a magnitude
above `ULONG_MAX` throw; a minus sign negates in `unsigned long` (64 bits). -/
def stoul (s : String) : Option Nat :=
  let cs := s.data.dropWhile isSpace
  let neg := cs.head? = some '-'
  let cs := if cs.head? = some '-' ∨ cs.head? = some '+' then cs.tail else cs
  let ds := cs.takeWhile Char.isDigit
  let v : Nat := ds.foldl (fun a c => 10 * a + (c.toNat - 48)) 0
  if ds = [] then none
  else if 18446744073709551616 ≤ v then none
  else some (if neg then (18446744073709551616 - v) % 18446744073709551616 else v)

/-- A character other than the comma. -/
def notComma (c : Char) : Bool := !(c == ',')

/-- The member `s.find_first_of(',')`: the position of the first comma, if
any. -/
def findComma (s : List Char) : Option Nat :=
  if ',' ∈ s then some (s.takeWhile notComma).length else none

/-- The loops `while (!anchorString.empty())` and `while (!maskString.empty())`
of `parseConfigBlocks`: the text up to the first comma is trimmed, converted
and pushed, and erased together with the comma; without a comma the rest is
converted and the loop ends.  Every round but the last erases at least one
character, so `fuel = s.length` rounds are enough; `conv` returning `none` is
a thrown exception. -/
def parseFields {α : Type} (conv : String → Option α) :
    Nat → List Char → List α → Except Fault (List α)
  | 0, s, acc => if s = [] then .ok acc else .error .undefined
  | fuel + 1, s, acc =>
    if s = [] then .ok acc
    else
      match findComma s with
      | some npos =>
        match conv ⟨trimChars (s.take npos)⟩ with
        | none => .error .exception
        | some v => parseFields conv fuel (s.drop (npos + 1)) (acc ++ [v])
      | none =>
        match conv ⟨trimChars s⟩ with
        | none => .error .exception
        | some v => .ok (acc ++ [v])

/-- The access `block.at(key)`, which throws when the key is absent. -/
def blockAt (block : ConfigBlock) (key : String) : Except Fault String :=
  match block.lookup key with
  | none => .error .exception
  | some v => .ok v

/-- The statement `assert(block.find(key) != block.end())`. -/
def assertKey (block : ConfigBlock) (key : String) : Except Fault Unit :=
  match block.lookup key with
  | none => .error .assertion
  | some _ => .ok ()

/-- A call of `std::stoul` or `std::stof` whose exception is not caught. -/
def orThrow {α : Type} (v : Option α) : Except Fault α :=
  match v with
  | none => .error .exception
  | some a => .ok a

/-- The conversion of a mask entry: `int mask = std::stoul(...)`. -/
def maskEntry (s : String) : Option Int := (stoul s).map fun v => bitsInt (toUint v)

/-- The bit pattern of the `float` 1.0. -/
def floatOne : Nat := 1065353216

/-- The descriptor `outputTensor` that `parseConfigBlocks` builds for a
`yolo` or `region` block: anchors, mask, scale and box count.  `stof` is
`std::stof`, giving the bit pattern of the parsed `float` or `none` when it
throws. -/
def outputTensorOf (stof : String → Option Nat) (block : ConfigBlock) : Except Fault TensorInfo :=
  let outputTensor : TensorInfo := default
  (blockAt block "anchors").bind fun anchorString =>
  (parseFields stof anchorString.data.length anchorString.data outputTensor.anchors).bind
    fun anchors =>
  let outputTensor := { outputTensor with anchors := anchors }
  (match block.lookup "mask" with
    | some maskString =>
      parseFields maskEntry maskString.data.length maskString.data outputTensor.mask
    | none => Except.ok outputTensor.mask).bind fun mask =>
  let outputTensor := { outputTensor with mask := mask }
  (match block.lookup "scale_x_y" with
    | some s => orThrow (stof s)
    | none => Except.ok floatOne).bind fun scaleXY =>
  let outputTensor := { outputTensor with scaleXY := scaleXY }
  (if outputTensor.mask.length > 0 then Except.ok outputTensor.mask.length
    else (blockAt block "num").bind fun s => orThrow (stoul (trim s))).bind fun numBBoxes =>
  .ok { outputTensor with numBBoxes := toUint numBBoxes }

/-- The body of the block loop of `parseConfigBlocks`. -/
def parseConfigBlock (stof : String → Option Nat) (y : Yolo) (block : ConfigBlock) :
    Except Fault Yolo :=
  (blockAt block "type").bind fun type =>
  if type = "net" then
    (assertKey block "channels").bind fun _ =>
    (assertKey block "height").bind fun _ =>
    (assertKey block "width").bind fun _ =>
    ((blockAt block "channels").bind fun s => orThrow (stoul s)).bind fun c =>
    ((blockAt block "height").bind fun s => orThrow (stoul s)).bind fun h =>
    ((blockAt block "width").bind fun s => orThrow (stoul s)).bind fun w =>
    let y := { y with m_InputC := toUint c, m_InputH := toUint h, m_InputW := toUint w }
    let y := { y with m_InputSize := toUint (y.m_InputC * y.m_InputH * y.m_InputW) }
    match block.lookup "letter_box" with
    | some s => (orThrow (stoul s)).bind fun v => .ok { y with m_LetterBox := toUint v }
    | none => .ok y
  else if type = "region" ∨ type = "yolo" then
    (assertKey block "num").bind fun _ =>
    (assertKey block "classes").bind fun _ =>
    (assertKey block "anchors").bind fun _ =>
    let y := { y with m_YoloCount := toUint (y.m_YoloCount + 1) }
    ((blockAt block "classes").bind fun s => orThrow (stoul s)).bind fun classes =>
    let y := { y with m_NumClasses := toUint classes }
    (match block.lookup "new_coords" with
      | some s => (orThrow (stoul s)).bind fun v => Except.ok { y with m_NewCoords := toUint v }
      | none => Except.ok y).bind fun y =>
    (outputTensorOf stof block).bind fun outputTensor =>
    .ok { y with m_YoloTensors := y.m_YoloTensors ++ [outputTensor] }
  else .ok y

/-- A range-based `for` loop whose body can end the run. -/
def forEachE {σ α : Type} (body : σ → α → Except Fault σ) : List α → σ → Except Fault σ
  | [], s => .ok s
  | a :: as, s => (body s a).bind (forEachE body as)

/-- The method `Yolo::parseConfigBlocks`: the compiler after the pass over
`m_ConfigBlocks`. -/
def parseConfigBlocks (stof : String → Option Nat) (y : Yolo) : Except Fault Yolo :=
  forEachE (parseConfigBlock stof) y.m_ConfigBlocks y

/-- The constructor `Yolo::Yolo`, followed by the assignment of the parsed
document to `m_ConfigBlocks`: the counters are zero and there is no descriptor. -/
def Yolo.create (inputBlobName : String) (batchSize : Nat) (implicitBatch : Bool)
    (configBlocks : List ConfigBlock) : Yolo :=
  { m_InputBlobName := inputBlobName, m_BatchSize := batchSize, m_ImplicitBatch := implicitBatch,
    m_InputC := 0, m_InputH := 0, m_InputW := 0, m_NumClasses := 0, m_NewCoords := 0,
    m_YoloCount := 0, m_ConfigBlocks := configBlocks, m_YoloTensors := [], m_InputSize := 0,
    m_LetterBox := 0 }

/-! ### The attribute pass in the words of the specification -/

/-- A detection-head block: its `type` is `yolo` or `region`. -/
def isHeadBlock (block : ConfigBlock) : Bool :=
  block.lookup "type" = some "region" || block.lookup "type" = some "yolo"

/-- Fields joined by commas. -/
def joinComma : List (List Char) → List Char
  | [] => []
  | [f] => f
  | f :: g :: rest => f ++ ',' :: joinComma (g :: rest)

/-- A sample `std::stof`, defined on the sample anchors. -/
def sampleStof (s : String) : Option Nat :=
  [("10", 1092616192), ("14", 1096810496), ("23", 1102577664), ("27", 1104674816),
    ("37", 1108606976), ("58", 1114112000)].lookup s

/-- A `net` block that lacks `channels`, `height` or `width`, or a
detection-head block that lacks `num`, `classes` or `anchors`. -/
def lacksRequiredKey (block : ConfigBlock) : Prop :=
  (block.lookup "type" = some "net" ∧
      (block.lookup "channels" = none ∨ block.lookup "height" = none
        ∨ block.lookup "width" = none)) ∨
    (isHeadBlock block = true ∧
      (block.lookup "num" = none ∨ block.lookup "classes" = none
        ∨ block.lookup "anchors" = none))

instance (block : ConfigBlock) : Decidable (lacksRequiredKey block) := by
  unfold lacksRequiredKey; infer_instance

/-- The sample compiler state after the attribute pass over the blocks of
`sampleConfig`. -/
def sampleParsed : Yolo :=
  { m_InputBlobName := "input", m_BatchSize := 1, m_ImplicitBatch := true,
    m_InputC := 3, m_InputH := 416, m_InputW := 416, m_NumClasses := 1, m_NewCoords := 0,
    m_YoloCount := 1, m_ConfigBlocks := parseConfigFile sampleConfig,
    m_YoloTensors :=
      [ { blobName := "", gridSizeX := 0, gridSizeY := 0, numBBoxes := 3, scaleXY := 1065353216,
          anchors := [1092616192, 1096810496, 1102577664, 1104674816, 1108606976, 1114112000],
          mask := [] } ],
    m_InputSize := 519168, m_LetterBox := 0 }

/-- A detection-head block whose `mask` attribute is present and empty. -/
def sampleEmptyMask : ConfigBlock :=
  [("type", "yolo"), ("anchors", "10,14"), ("classes", "1"), ("num", "3"), ("mask", "")]

/-- A detection-head block with a three-entry `mask` attribute. -/
def sampleMasked : ConfigBlock :=
  [("type", "yolo"), ("anchors", "10,14"), ("classes", "1"), ("num", "9"), ("mask", "3, 4,5")]

/-- The compiler state after the attribute pass over a single head block that
produced the descriptor `d`, with one class. -/
def sampleAfter (block : ConfigBlock) (d : TensorInfo) : Yolo :=
  { m_InputBlobName := "input", m_BatchSize := 1, m_ImplicitBatch := true,
    m_InputC := 0, m_InputH := 0, m_InputW := 0, m_NumClasses := 1, m_NewCoords := 0,
    m_YoloCount := 1, m_ConfigBlocks := [block], m_YoloTensors := [d],
    m_InputSize := 0, m_LetterBox := 0 }

/-- The descriptor of `sampleMasked`. -/
def sampleMaskedDescriptor : TensorInfo :=
  { blobName := "", gridSizeX := 0, gridSizeY := 0, numBBoxes := 3, scaleXY := 1065353216,
    anchors := [1092616192, 1096810496], mask := [3, 4, 5] }

/-- The descriptor of `sampleEmptyMask`. -/
def sampleEmptyMaskDescriptor : TensorInfo :=
  { blobName := "", gridSizeX := 0, gridSizeY := 0, numBBoxes := 3, scaleXY := 1065353216,
    anchors := [1092616192, 1096810496], mask := [] }

/-! ### The detection heads of a build, in the words of the specification -/

/-- The number of yolo/region blocks among the first `n` blocks. -/
def headsBefore (blocks : List ConfigBlock) (n : Nat) : Nat :=
  ((blocks.take n).filter isHeadBlock).length

/-- The descriptor `d` is the pre-populated descriptor `d0` with the grid of the
tensor `t` captured: dimensions 2 and 3, stored into `uint` fields. -/
def capturedGrid (t : ITensor) (d0 d : TensorInfo) : Prop :=
  d.gridSizeY = intBits (t.dims.getD 2 0) ∧ d.gridSizeX = intBits (t.dims.getD 3 0) ∧
    d.numBBoxes = d0.numBBoxes ∧ d.scaleXY = d0.scaleXY ∧ d.anchors = d0.anchors ∧
    d.mask = d0.mask

/-- The operator that the sample compiler builds: one head of three boxes on a
13 x 13 grid, 507 candidates. -/
def sampleLayer13 : YoloLayer :=
  { m_NetWidth := 13, m_NetHeight := 13, m_NumClasses := 1, m_NewCoords := 0,
    m_YoloTensors := sampleStateAt6.m_YoloTensors, m_OutputSize := 507 }

/-! ## The operator's output shape (`YoloLayer::getOutputDimensions`) -/

/-- The method `YoloLayer::getOutputDimensions`.  A `DimsExprs` is the list of
its dimension expressions, of a type `ε` owned by the inference runtime;
`constant` is `exprBuilder.constant`, which takes an `int`, and `inputs` is the
array of input shapes.  The result is the three-entry shape
`inputs->d[0], constant((int) m_OutputSize), constant(6)`; the cast narrows the
`uint64_t` member to `int`. -/
def YoloLayer.getOutputDimensions {ε : Type} (l : YoloLayer) (index : Int)
    (inputs : List (List ε)) (_nbInputDims : Int) (constant : Int → ε) : Except Fault (List ε) :=
  if index < 1 then
    match inputs with
    | [] => .error .undefined
    | input0 :: _ =>
      match input0[0]? with
      | none => .error .undefined
      | some batch => .ok [batch, constant (bitsInt (toUint l.m_OutputSize)), constant 6]
  else .error .assertion

/-- An operator whose stored output size, 2^32 + 507, is not an `int`. -/
def sampleLayerWide : YoloLayer := { sampleLayer13 with m_OutputSize := 4294967803 }

/-! ## The weight loader (`loadWeights` of `utils.cpp`) -/

/-- The test `s.find(t) != std::string::npos`: `t` occurs in `s`. -/
def hasSubstr (s t : String) : Bool := s.data.tails.any fun u => t.data.isPrefixOf u

/-- The number of bytes that `loadWeights` passes to `file.ignore`: four
32-bit words when the path contains `yolov2` and not `yolov2-tiny`, five
otherwise. -/
def headerBytes (weightsFilePath : String) : Nat :=
  if hasSubstr weightsFilePath "yolov2" ∧ ¬ hasSubstr weightsFilePath "yolov2-tiny" then 4 * 4
  else 4 * 5

/-- The loop `while (!file.eof())` of `loadWeights`, entered with the end of the
file not yet met: `rest` is the unread part of the file.  `file.read` takes
four bytes, the assertion `file.gcount() == 4` fails when fewer are left, the
four bytes are pushed as one `float` (its 32-bit pattern, bytes in memory
order), and the loop ends when `file.peek()` meets the end of the file. -/
def readWeights : List Nat → List Nat → Except Fault (List Nat)
  | b0 :: b1 :: b2 :: b3 :: rest, weights =>
    let weights := weights ++ [ofLeBytes [b0, b1, b2, b3]]
    if rest = [] then .ok weights else readWeights rest weights
  | _, _ => .error .assertion

/-- The function `loadWeights`.  `file` is the content of the file at the path,
`none` when `fileExists` or `file.good()` is false.  `file.ignore` skips the
header; when the file is shorter than the header it meets the end of the file,
`file.eof()` holds and the loop is not entered. -/
def loadWeights (weightsFilePath : String) (file : Option (List Nat)) :
    Except Fault (List Nat) :=
  match file with
  | none => .error .assertion
  | some content =>
    if hasSubstr weightsFilePath ".weights" then
      if content.length < headerBytes weightsFilePath then .ok []
      else readWeights (content.drop (headerBytes weightsFilePath)) []
    else .error .assertion

/-- The records of a byte stream, four bytes each, as 32-bit values. -/
def words : List Nat → List Nat
  | b0 :: b1 :: b2 :: b3 :: rest => ofLeBytes [b0, b1, b2, b3] :: words rest
  | _ => []

/-- A sample weight file: a header of five words and two records. -/
def sampleWeightFile : List Nat :=
  [9, 9, 9, 9, 9, 9, 9, 9, 9, 9, 9, 9, 9, 9, 9, 9, 9, 9, 9, 9, 0, 0, 128, 63, 1, 0, 0, 0]

/-! ### The block kinds, in the words of the specification -/

/-- The layer names that the block loop of `buildYoloNetwork` recognises. -/
def recognisedTypes : List String :=
  ["net", "conv", "convolutional", "deconv", "deconvolutional", "batchnorm", "implicit",
    "implicit_add", "implicit_mul", "shift_channels", "control_channels", "shortcut", "sam",
    "route", "upsample", "max", "maxpool", "avg", "avgpool", "reorg", "reorg3d", "yolo",
    "region", "dropout"]

/-- A `net` or `dropout` block. -/
def isSilentBlock (block : ConfigBlock) : Bool :=
  block.lookup "type" = some "net" || block.lookup "type" = some "dropout"

/-- The number of `net` and `dropout` blocks among the first `n` blocks. -/
def silentBefore (blocks : List ConfigBlock) (n : Nat) : Nat :=
  ((blocks.take n).filter isSilentBlock).length

/-- A reference block: `shortcut`, `sam`, `shift_channels` or
`control_channels`. -/
def isReferenceBlock (block : ConfigBlock) : Bool :=
  block.lookup "type" = some "shortcut" || block.lookup "type" = some "sam"
    || block.lookup "type" = some "shift_channels"
    || block.lookup "type" = some "control_channels"

/-- A sample compiler with a `dropout` block before a `shortcut` block. -/
def sampleDropoutYolo : Yolo :=
  { sampleYolo with
    m_ConfigBlocks :=
      [ [("type", "net"), ("channels", "3"), ("height", "13"), ("width", "13")],
        [("type", "convolutional"), ("activation", "leaky")],
        [("type", "dropout")],
        [("type", "convolutional"), ("activation", "leaky")],
        [("type", "shortcut"), ("from", "-2")] ] }

/-- The loop state of `sampleDropoutYolo` when it reaches the shortcut block. -/
def sampleDropoutStateAt4 : BuildState where
  weightPtr := 4
  previous := ⟨3, [1, 3, 13, 13]⟩
  tensorOutputs := [⟨1, [1, 3, 13, 13]⟩, ⟨3, [1, 3, 13, 13]⟩]
  yoloTensorInputs := []
  yoloCountInputs := 0
  m_YoloTensors := sampleYolo.m_YoloTensors

/-! ## The operator at inference time (`YoloLayer::enqueue`) -/

/-- The three decode kernels that `enqueue` can launch. -/
inductive DecodeKernel where
  | cudaYoloLayer_nc
  | cudaYoloLayer
  | cudaRegionLayer
deriving DecidableEq, Repr

/-- One kernel launch of `enqueue`: the kernel, the index `i` of the input
`inputs[i]` it reads, and its scalar arguments.  `anchors` and `mask` are the
contents of the device buffers `d_anchors` and `d_mask`, `none` when the buffer
was not allocated (the host vector is empty) or is not an argument of the
kernel, as `scaleXY` and `mask` for `cudaRegionLayer`. -/
structure KernelLaunch where
  kernel : DecodeKernel
  input : Nat
  batchSize : Nat
  inputSize : Nat
  outputSize : Nat
  lastInputSize : Nat
  netWidth : Nat
  netHeight : Nat
  gridSizeX : Nat
  gridSizeY : Nat
  numOutputClasses : Nat
  numBBoxes : Nat
  scaleXY : Option Nat
  anchors : Option (List Nat)
  mask : Option (List Int)
deriving DecidableEq, Repr

/-- What a call of `enqueue` has done when it returns: the returned value, the
final value of the local `lastInputSize`, and the kernel launches in order. -/
structure EnqueueRun where
  status : Int
  lastInputSize : Nat
  launches : List KernelLaunch
deriving DecidableEq, Repr

/-- The kernel launch of round `i` of the loop of `enqueue`, with
`lastInputSize` as it is in that round.  `inputSize` is computed in `uint`. -/
def YoloLayer.launch (l : YoloLayer) (batchSize : Int) (i : Nat) (lastInputSize : Nat) :
    KernelLaunch :=
  let curYoloTensor := l.m_YoloTensors.getD i default
  let numBBoxes := curYoloTensor.numBBoxes
  let scaleXY := curYoloTensor.scaleXY
  let gridSizeX := curYoloTensor.gridSizeX
  let gridSizeY := curYoloTensor.gridSizeY
  let anchors := curYoloTensor.anchors
  let mask := curYoloTensor.mask
  let d_anchors := if anchors.length > 0 then some anchors else none
  let d_mask := if mask.length > 0 then some mask else none
  let inputSize := toUint ((numBBoxes * (4 + 1 + l.m_NumClasses)) * gridSizeY * gridSizeX)
  if mask.length > 0 then
    if l.m_NewCoords ≠ 0 then
      { kernel := .cudaYoloLayer_nc, input := i, batchSize := intBits batchSize,
        inputSize := inputSize, outputSize := l.m_OutputSize, lastInputSize := lastInputSize,
        netWidth := l.m_NetWidth, netHeight := l.m_NetHeight, gridSizeX := gridSizeX,
        gridSizeY := gridSizeY, numOutputClasses := l.m_NumClasses, numBBoxes := numBBoxes,
        scaleXY := some scaleXY, anchors := d_anchors, mask := d_mask }
    else
      { kernel := .cudaYoloLayer, input := i, batchSize := intBits batchSize,
        inputSize := inputSize, outputSize := l.m_OutputSize, lastInputSize := lastInputSize,
        netWidth := l.m_NetWidth, netHeight := l.m_NetHeight, gridSizeX := gridSizeX,
        gridSizeY := gridSizeY, numOutputClasses := l.m_NumClasses, numBBoxes := numBBoxes,
        scaleXY := some scaleXY, anchors := d_anchors, mask := d_mask }
  else
    { kernel := .cudaRegionLayer, input := i, batchSize := intBits batchSize,
      inputSize := inputSize, outputSize := l.m_OutputSize, lastInputSize := lastInputSize,
      netWidth := l.m_NetWidth, netHeight := l.m_NetHeight, gridSizeX := gridSizeX,
      gridSizeY := gridSizeY, numOutputClasses := l.m_NumClasses, numBBoxes := numBBoxes,
      scaleXY := none, anchors := d_anchors, mask := none }

/-- The method `YoloLayer::enqueue`, in a run where every call of the CUDA
runtime succeeds (the macro `CUDA_CHECK` is not part of these sources).
`batchSize` is `inputDesc[0].dims.d[0]`.  The loop index stays below
`m_YoloTensors.size()`, so `m_YoloTensors.at(i)` does not throw.  The product
added to `lastInputSize` is computed in `uint`, the sum in `uint64_t`. -/
def YoloLayer.enqueue (l : YoloLayer) (batchSize : Int) : EnqueueRun :=
  let lastInputSize : Nat := 0
  let yoloTensorsSize := toUint l.m_YoloTensors.length
  let r := forLoop yoloTensorsSize (fun i (s : Nat × List KernelLaunch) =>
    let curYoloTensor := l.m_YoloTensors.getD i default
    (addSize s.1
        (toUint (curYoloTensor.numBBoxes * curYoloTensor.gridSizeY * curYoloTensor.gridSizeX)),
      s.2 ++ [l.launch batchSize i s.1])) (lastInputSize, [])
  { status := 0, lastInputSize := r.1, launches := r.2 }

/-! ### The candidate ranges, in the words of the specification -/

/-- The number of candidates of a descriptor: box count x grid height x grid
width. -/
def headCandidates (d : TensorInfo) : Nat := d.numBBoxes * d.gridSizeY * d.gridSizeX

/-- The number of candidates of the first `k` descriptors. -/
def candidatesBefore (l : YoloLayer) (k : Nat) : Nat :=
  ((l.m_YoloTensors.take k).map headCandidates).sum

/-- A sample operator with two heads, the first with a mask, under the new
coordinate scheme. -/
def sampleLayerTwoHeads : YoloLayer :=
  { m_NetWidth := 416, m_NetHeight := 416, m_NumClasses := 2, m_NewCoords := 1,
    m_YoloTensors :=
      [ { blobName := "yolo_5", gridSizeX := 13, gridSizeY := 13, numBBoxes := 3,
          scaleXY := 1065353216, anchors := [1092616192, 1096810496], mask := [0, 1, 2] },
        { blobName := "region_9", gridSizeX := 26, gridSizeY := 26, numBBoxes := 2,
          scaleXY := 1065353216, anchors := [1092616192, 1096810496], mask := [] } ],
    m_OutputSize := 1859 }

/-- The value of the local `lastInputSize` of `enqueue` after `n` rounds. -/
def YoloLayer.lastInputSizeAt (l : YoloLayer) (n : Nat) : Nat :=
  forLoop n (fun j out =>
    addSize out (toUint (headCandidates (l.m_YoloTensors.getD j default)))) 0

/-! ### A document with a million boxes per cell -/

/-- A sample document with two detection heads on an 80 x 80 input, the first
declaring `num=1000000`. -/
def sampleManyBlocks : List ConfigBlock :=
  [ [("type", "net"), ("channels", "3"), ("height", "80"), ("width", "80")],
    [("type", "convolutional"), ("activation", "leaky")],
    [("type", "yolo"), ("anchors", "10,14, 23,27, 37,58"), ("classes", "1"),
      ("num", "1000000")],
    [("type", "convolutional"), ("activation", "leaky")],
    [("type", "yolo"), ("anchors", "10,14, 23,27, 37,58"), ("classes", "1"), ("num", "3")] ]

/-- The two descriptors of `sampleManyBlocks` with the grid `gy` x `gx` and the
given blob names. -/
def sampleManyTensors (name0 name1 : String) (gy gx : Nat) : List TensorInfo :=
  [ { blobName := name0, gridSizeX := gx, gridSizeY := gy, numBBoxes := 1000000,
      scaleXY := 1065353216,
      anchors := [1092616192, 1096810496, 1102577664, 1104674816, 1108606976, 1114112000],
      mask := [] },
    { blobName := name1, gridSizeX := gx, gridSizeY := gy, numBBoxes := 3,
      scaleXY := 1065353216,
      anchors := [1092616192, 1096810496, 1102577664, 1104674816, 1108606976, 1114112000],
      mask := [] } ]

/-- The compiler after the attribute pass over `sampleManyBlocks`. -/
def sampleManyYolo : Yolo :=
  { m_InputBlobName := "input", m_BatchSize := 1, m_ImplicitBatch := true,
    m_InputC := 3, m_InputH := 80, m_InputW := 80, m_NumClasses := 1, m_NewCoords := 0,
    m_YoloCount := 2, m_ConfigBlocks := sampleManyBlocks,
    m_YoloTensors := sampleManyTensors "" "" 0 0,
    m_InputSize := 19200, m_LetterBox := 0 }

/-- The operator that `buildYoloNetwork` makes of `sampleManyYolo`. -/
def sampleManyLayer : YoloLayer :=
  { m_NetWidth := 80, m_NetHeight := 80, m_NumClasses := 1, m_NewCoords := 0,
    m_YoloTensors := sampleManyTensors "yolo_2" "yolo_4" 80 80, m_OutputSize := 2105051904 }

/-! ## Facts about loops and raw memory -/

theorem forLoop_congr {σ : Type} (n : Nat) (f g : Nat → σ → σ) (s : σ)
    (h : ∀ i, i < n → ∀ t, f i t = g i t) : forLoop n f s = forLoop n g s := by
  induction n with
  | zero => rfl
  | succ k ih =>
    simp only [forLoop]
    rw [ih (fun i hi => h i (Nat.lt_succ_of_lt hi)), h k (Nat.lt_succ_self k)]

theorem forLoop_const_succ {σ : Type} (n : Nat) (g : σ → σ) (s : σ) :
    forLoop (n + 1) (fun _ => g) s = forLoop n (fun _ => g) (g s) := by
  induction n with
  | zero => rfl
  | succ k ih =>
    show g (forLoop (k + 1) (fun _ => g) s) = g (forLoop k (fun _ => g) (g s))
    rw [ih]

theorem forLoop_bind_none {σ : Type} (n : Nat) (body : Nat → σ → Option σ) :
    forLoop n (fun i r => r.bind (body i)) none = none := by
  induction n with
  | zero => rfl
  | succ k ih => simp only [forLoop, ih, Option.none_bind]

theorem forLoopO_zero {σ : Type} (body : Nat → σ → Option σ) (s : σ) :
    forLoopO 0 body s = some s := rfl

theorem forLoopO_succ {σ : Type} (n : Nat) (body : Nat → σ → Option σ) (s : σ) :
    forLoopO (n + 1) body s = (forLoopO n body s).bind (body n) := rfl

theorem forLoopO_const_succ {σ : Type} (n : Nat) (g : σ → Option σ) (s : σ) :
    forLoopO (n + 1) (fun _ => g) s = (g s).bind (forLoopO n (fun _ => g)) := by
  unfold forLoopO
  rw [forLoop_const_succ n (fun r : Option σ => r.bind g) (some s)]
  simp only [Option.some_bind]
  cases g s with
  | none => simpa using forLoop_bind_none n (fun _ => g)
  | some t => simp

theorem leBytes_length (k v : Nat) : (leBytes k v).length = k := by
  induction k generalizing v with
  | zero => rfl
  | succ k ih => simp [leBytes, ih]

theorem ofLeBytes_leBytes (k v : Nat) : ofLeBytes (leBytes k v) = v % 256 ^ k := by
  induction k generalizing v with
  | zero => simp [leBytes, ofLeBytes, Nat.mod_one]
  | succ k ih =>
    simp only [leBytes, ofLeBytes, ih]
    rw [pow_succ', Nat.mod_mul]

theorem readLE_leBytes (k v : Nat) (rest : List Nat) :
    readLE k (leBytes k v ++ rest) = some (v % 256 ^ k, rest) := by
  have hl := leBytes_length k v
  unfold readLE
  rw [if_neg (by simp [hl])]
  have h1 : (leBytes k v ++ rest).take k = leBytes k v := by
    simp [hl]
  have h2 : (leBytes k v ++ rest).drop k = rest := by
    simp [hl]
  rw [h1, h2, ofLeBytes_leBytes]

theorem read32_leBytes (v : Nat) (hv : v < 4294967296) (rest : List Nat) :
    readLE 4 (leBytes 4 v ++ rest) = some (v, rest) := by
  rw [readLE_leBytes]
  have : v % 256 ^ 4 = v := Nat.mod_eq_of_lt (by norm_num; exact hv)
  rw [this]

theorem read64_leBytes (v : Nat) (hv : v < 18446744073709551616) (rest : List Nat) :
    readLE 8 (leBytes 8 v ++ rest) = some (v, rest) := by
  rw [readLE_leBytes]
  have : v % 256 ^ 8 = v := Nat.mod_eq_of_lt (by norm_num; exact hv)
  rw [this]

theorem bitsInt_intBits (m : Int) (h1 : -2147483648 ≤ m) (h2 : m < 2147483648) :
    bitsInt (intBits m) = m := by
  unfold bitsInt intBits
  split <;> omega

theorem intBits_lt (m : Int) : intBits m < 4294967296 := by
  unfold intBits
  omega

/-- A loop that appends one chunk per element writes the chunks of the first
`n` elements in order. -/
theorem forLoop_append_getD {α : Type} (xs : List α) (dflt : α) (g : α → List Nat) (n : Nat)
    (hn : n ≤ xs.length) (d : List Nat) :
    forLoop n (fun j d => d ++ g (xs.getD j dflt)) d = d ++ (xs.take n).flatMap g := by
  induction n with
  | zero => simp [forLoop]
  | succ k ih =>
    have hk : k < xs.length := hn
    simp only [forLoop]
    rw [ih (Nat.le_of_lt hk), List.take_succ, List.getElem?_eq_getElem hk]
    have hg : xs.getD k dflt = xs[k] := by
      rw [List.getD_eq_getElem?_getD, List.getElem?_eq_getElem hk, Option.getD_some]
    simp only [hg, List.flatMap_append, Option.toList, List.flatMap_cons, List.flatMap_nil,
      List.append_nil, List.append_assoc]

theorem getD_mem {α : Type} (xs : List α) (dflt : α) (i : Nat) (hi : i < xs.length) :
    xs.getD i dflt ∈ xs := by
  rw [List.getD_eq_getElem?_getD, List.getElem?_eq_getElem hi, Option.getD_some]
  exact List.getElem_mem hi

theorem toUint_of_lt (n : Nat) (h : n < 4294967296) : toUint n = n := Nat.mod_eq_of_lt h

/-- What one iteration of the head loop of `serialize` appends. -/
theorem serialize_head (t : TensorInfo) (hv : t.Valid) (d : List Nat) :
    forLoop (toUint t.mask.length) (fun j d => write32 d (intBits (t.mask.getD j 0)))
      (write32 (forLoop (toUint t.anchors.length) (fun j d => write32 d (t.anchors.getD j 0))
        (write32 (write32 (write32 (write32 (write32 d t.gridSizeX) t.gridSizeY) t.numBBoxes)
          t.scaleXY) (toUint t.anchors.length))) (toUint t.mask.length))
      = d ++ headLayout t := by
  obtain ⟨_, _, _, _, ha, hm, _, _⟩ := hv
  rw [toUint_of_lt _ ha, toUint_of_lt _ hm]
  unfold write32
  rw [forLoop_append_getD t.anchors 0 (leBytes 4) _ le_rfl,
    forLoop_append_getD t.mask 0 (fun m => leBytes 4 (intBits m)) _ le_rfl,
    List.take_length, List.take_length]
  simp only [headLayout, List.append_assoc]

theorem serialize_eq_layout (l : YoloLayer) (hv : l.Valid) : l.serialize = layout l := by
  obtain ⟨_, _, _, _, _, hlen, hts⟩ := hv
  unfold YoloLayer.serialize
  simp only [toUint_of_lt _ hlen]
  rw [forLoop_congr _ _ (fun i d => d ++ headLayout (l.m_YoloTensors.getD i default)) _ ?_]
  · rw [forLoop_append_getD _ _ _ _ le_rfl, List.take_length]
    simp only [layout, write32, write64, List.nil_append, List.append_assoc]
  · intro i hi d
    exact serialize_head _ (hts _ (getD_mem _ _ _ hi)) d

/-- Reading back `xs.length` values from the bytes written for `xs`. -/
theorem readValues_flatMap {α : Type} (conv : Nat → α) (e : α → Nat) (xs : List α)
    (h : ∀ x ∈ xs, conv (e x % 256 ^ 4) = x) (rest : List Nat) (acc : List α) :
    readValues conv xs.length (xs.flatMap (fun x => leBytes 4 (e x)) ++ rest) acc
      = some (rest, acc ++ xs) := by
  unfold readValues
  induction xs generalizing acc with
  | nil => simp [forLoopO_zero]
  | cons x xs ih =>
    rw [List.length_cons, forLoopO_const_succ]
    simp only [List.flatMap_cons, List.append_assoc, readLE_leBytes, Option.some_bind]
    rw [ih (fun y hy => h y (List.mem_cons_of_mem _ hy)), h x (List.mem_cons_self _ _)]
    simp

/-- Reading back one head from the bytes written for it: every member but
`blobName` is recovered and the cursor stops right after the head. -/
theorem readTensorInfo_headLayout (t : TensorInfo) (hv : t.Valid) (rest : List Nat)
    (acc : List TensorInfo) :
    readTensorInfo (headLayout t ++ rest, acc)
      = some (rest, acc ++ [{ t with blobName := "" }]) := by
  obtain ⟨h1, h2, h3, h4, ha, hm, hav, hmv⟩ := hv
  have ra := readValues_flatMap id id t.anchors
    (fun a ha => by simpa using Nat.mod_eq_of_lt (hav a ha))
  have rm := readValues_flatMap bitsInt intBits t.mask
    (fun m hm => by
      have hb : intBits m % 256 ^ 4 = intBits m := Nat.mod_eq_of_lt (by simpa using intBits_lt m)
      rw [hb]; exact bitsInt_intBits m (hmv m hm).1 (hmv m hm).2)
  simp only [id] at ra
  unfold readTensorInfo headLayout
  simp only [List.append_assoc, read32_leBytes _ h1, read32_leBytes _ h2, read32_leBytes _ h3,
    read32_leBytes _ h4, read32_leBytes _ ha, read32_leBytes _ hm, Option.some_bind, ra, rm]
  simp [default]

theorem readHeads_layout (ts : List TensorInfo) (hv : ∀ t ∈ ts, t.Valid) (rest : List Nat)
    (acc : List TensorInfo) :
    forLoopO ts.length (fun _ s => readTensorInfo s) (ts.flatMap headLayout ++ rest, acc)
      = some (rest, acc ++ ts.map fun t => { t with blobName := "" }) := by
  induction ts generalizing acc with
  | nil => simp [forLoopO_zero]
  | cons t ts ih =>
    rw [List.length_cons, forLoopO_const_succ]
    simp only [List.flatMap_cons, List.append_assoc]
    rw [readTensorInfo_headLayout t (hv t (List.mem_cons_self _ _)), Option.some_bind,
      ih (fun y hy => hv y (List.mem_cons_of_mem _ hy))]
    simp

/-- The deserialising constructor applied to the layout of a configuration,
followed by arbitrary further bytes. -/
theorem fromData_layout (l : YoloLayer) (hv : l.Valid) (rest : List Nat) :
    YoloLayer.fromData (layout l ++ rest) = some (l.eraseBlobNames, rest) := by
  obtain ⟨h1, h2, h3, h4, h5, hlen, hts⟩ := hv
  unfold YoloLayer.fromData layout
  simp only [List.append_assoc, read32_leBytes _ h1, read32_leBytes _ h2, read32_leBytes _ h3,
    read32_leBytes _ h4, read64_leBytes _ h5, read32_leBytes _ hlen, Option.some_bind,
    readHeads_layout _ hts]
  simp [YoloLayer.eraseBlobNames]

theorem flatMap_leBytes_length {α : Type} (e : α → Nat) (xs : List α) :
    (xs.flatMap (fun x => leBytes 4 (e x))).length = 4 * xs.length := by
  induction xs with
  | nil => rfl
  | cons x xs ih =>
    simp only [List.flatMap_cons, List.length_append, leBytes_length, ih, List.length_cons]
    omega

theorem headLayout_length (t : TensorInfo) : (headLayout t).length = headSize t := by
  have ha := flatMap_leBytes_length id t.anchors
  have hm := flatMap_leBytes_length intBits t.mask
  simp only [id] at ha
  simp only [headLayout, headSize, List.length_append, leBytes_length, ha, hm]
  omega

theorem flatMap_headLayout_length (ts : List TensorInfo) :
    (ts.flatMap headLayout).length = (ts.map headSize).sum := by
  induction ts with
  | nil => rfl
  | cons t ts ih =>
    simp only [List.flatMap_cons, List.length_append, headLayout_length, ih, List.map_cons,
      List.sum_cons]

theorem layout_length (l : YoloLayer) :
    (layout l).length = 28 + (l.m_YoloTensors.map headSize).sum := by
  simp only [layout, List.length_append, leBytes_length, flatMap_headLayout_length]

/-- The size loop of `getSerializationSize` adds the sizes of the first `n`
heads, as long as the total fits a `size_t`. -/
theorem sizeLoop_eq (ts : List TensorInfo) (t0 n : Nat) (hn : n ≤ ts.length)
    (hfit : t0 + (ts.map headSize).sum < 18446744073709551616) :
    forLoop n (fun i totalSize =>
      addSize (addSize (addSize (addSize (addSize (addSize totalSize 4) 4) 4) 4)
        (addSize 4 (mulSize 4 (ts.getD i default).anchors.length)))
        (addSize 4 (mulSize 4 (ts.getD i default).mask.length))) t0
      = t0 + ((ts.take n).map headSize).sum := by
  induction n with
  | zero => simp [forLoop]
  | succ k ih =>
    have hk : k < ts.length := hn
    have hg : ts.getD k default = ts[k] := by
      rw [List.getD_eq_getElem?_getD, List.getElem?_eq_getElem hk, Option.getD_some]
    have hsplit := List.sum_take_add_sum_drop (ts.map headSize) (k + 1)
    have htake : ((ts.take (k + 1)).map headSize).sum
        = ((ts.take k).map headSize).sum + headSize ts[k] := by
      rw [List.take_succ, List.getElem?_eq_getElem hk]
      simp only [Option.toList, List.map_append, List.sum_append, List.map_cons, List.map_nil,
        List.sum_cons, List.sum_nil, add_zero]
    rw [← List.map_take] at hsplit
    simp only [forLoop]
    rw [ih (Nat.le_of_lt hk), hg, htake]
    unfold headSize at *
    unfold addSize mulSize
    omega

theorem getSerializationSize_eq (l : YoloLayer) (hv : l.Valid)
    (hfit : 28 + (l.m_YoloTensors.map headSize).sum < 18446744073709551616) :
    l.getSerializationSize = 28 + (l.m_YoloTensors.map headSize).sum := by
  obtain ⟨_, _, _, _, _, hlen, _⟩ := hv
  unfold YoloLayer.getSerializationSize
  simp only [toUint_of_lt _ hlen]
  have h28 : addSize (addSize (addSize (addSize (addSize (addSize 0 4) 4) 4) 4) 8) 4 = 28 := by
    decide
  rw [h28, sizeLoop_eq _ 28 _ le_rfl hfit, List.take_length]

/-! ## The serialised form of the operator -/

/-- C1, as the code has it: for every valid configuration, the deserialising
constructor applied to the bytes written by `serialize` gives back the
configuration with every member equal to the original and the heads in the same
order, except that each head's `blobName`, which is not part of the serialised
form, is empty; all the bytes are consumed. -/
theorem fromData_serialize (l : YoloLayer) (hv : l.Valid) :
    YoloLayer.fromData l.serialize = some (l.eraseBlobNames, []) := by
  have h := fromData_layout l hv []
  rwa [List.append_nil, ← serialize_eq_layout l hv] at h

theorem fromData_serialize_witness :
    sampleLayer.Valid ∧
      YoloLayer.fromData sampleLayer.serialize = some (sampleLayer.eraseBlobNames, []) :=
  ⟨by decide, fromData_serialize sampleLayer (by decide)⟩

/-- C1 as stated fails: the sample configuration is valid, and the configuration
rebuilt from its serialised bytes differs from it (its heads have lost their
blob names). -/
theorem fromData_serialize_ne_original :
    sampleLayer.Valid ∧
      (YoloLayer.fromData sampleLayer.serialize).map Prod.fst ≠ some sampleLayer := by
  decide

/-- C2: for every valid configuration, `serialize` writes net width, net height,
class count, new-coords flag, output size, head count and then, for each head
in list order, grid width, grid height, box count, scale factor, the anchor
count followed by the anchors, and the mask count followed by the mask
entries; the counts written are the lengths of the lists. -/
theorem serialize_field_order (l : YoloLayer) (hv : l.Valid) :
    l.serialize =
      leBytes 4 l.m_NetWidth ++ leBytes 4 l.m_NetHeight ++ leBytes 4 l.m_NumClasses
        ++ leBytes 4 l.m_NewCoords ++ leBytes 8 l.m_OutputSize
        ++ leBytes 4 l.m_YoloTensors.length
        ++ l.m_YoloTensors.flatMap (fun t =>
            leBytes 4 t.gridSizeX ++ leBytes 4 t.gridSizeY ++ leBytes 4 t.numBBoxes
              ++ leBytes 4 t.scaleXY
              ++ leBytes 4 t.anchors.length ++ t.anchors.flatMap (leBytes 4)
              ++ leBytes 4 t.mask.length ++ t.mask.flatMap (fun m => leBytes 4 (intBits m))) :=
  serialize_eq_layout l hv

theorem serialize_field_order_witness :
    sampleLayer.Valid ∧ sampleLayer.serialize =
      leBytes 4 416 ++ leBytes 4 416 ++ leBytes 4 80 ++ leBytes 4 0 ++ leBytes 8 1859
        ++ leBytes 4 2
        ++ sampleLayer.m_YoloTensors.flatMap (fun t =>
            leBytes 4 t.gridSizeX ++ leBytes 4 t.gridSizeY ++ leBytes 4 t.numBBoxes
              ++ leBytes 4 t.scaleXY
              ++ leBytes 4 t.anchors.length ++ t.anchors.flatMap (leBytes 4)
              ++ leBytes 4 t.mask.length ++ t.mask.flatMap (fun m => leBytes 4 (intBits m))) :=
  ⟨by decide, serialize_field_order sampleLayer (by decide)⟩

/-- C3: for every valid configuration whose serialised size fits a `size_t`, the
number of bytes written by `serialize` equals `getSerializationSize()`, both
equal `28` plus the sum over the heads of `24 + 4 * anchorCount + 4 * maskCount`,
and the deserialising constructor consumes exactly these bytes: whatever
follows them is left unread. -/
theorem serialize_length (l : YoloLayer) (hv : l.Valid)
    (hfit : 28 + (l.m_YoloTensors.map fun t => 24 + 4 * t.anchors.length + 4 * t.mask.length).sum
      < 18446744073709551616) :
    l.serialize.length = l.getSerializationSize ∧
      l.getSerializationSize
        = 28 + (l.m_YoloTensors.map fun t => 24 + 4 * t.anchors.length + 4 * t.mask.length).sum ∧
      ∀ rest : List Nat, ∃ r : YoloLayer, YoloLayer.fromData (l.serialize ++ rest) = some (r, rest) := by
  have hsz := getSerializationSize_eq l hv hfit
  refine ⟨?_, hsz, fun rest => ⟨l.eraseBlobNames, ?_⟩⟩
  · rw [hsz, serialize_eq_layout l hv, layout_length]
  · rw [serialize_eq_layout l hv]
    exact fromData_layout l hv rest

theorem serialize_length_witness :
    sampleLayer.Valid ∧ sampleLayer.serialize.length = sampleLayer.getSerializationSize ∧
      sampleLayer.getSerializationSize = 120 ∧
      ∃ r : YoloLayer, YoloLayer.fromData (sampleLayer.serialize ++ [7, 7]) = some (r, [7, 7]) :=
  have h := serialize_length sampleLayer (by decide) (by decide)
  ⟨by decide, h.1, h.2.1, h.2.2 [7, 7]⟩


/-! ## The post-processor -/

theorem clamp_nonneg (v hi : ℚ) : 0 ≤ clamp v 0 hi := le_max_left _ _

theorem clamp_le (v hi : ℚ) (h : 0 ≤ hi) : clamp v 0 hi ≤ hi :=
  max_le h (min_le_right _ _)

theorem roundEven_cases (t : ℚ) : roundEven t = ⌊t⌋ ∨ roundEven t = ⌊t⌋ + 1 ∧ (⌊t⌋ : ℚ) < t := by
  unfold roundEven
  dsimp only
  split
  · exact Or.inl rfl
  · rename_i h1
    have hlt : (⌊t⌋ : ℚ) < t := by
      have : (0 : ℚ) < t - ⌊t⌋ := by
        have := not_lt.mp h1
        linarith
      linarith
    split
    · exact Or.inr ⟨rfl, hlt⟩
    · split
      · exact Or.inl rfl
      · exact Or.inr ⟨rfl, hlt⟩

theorem roundEven_nonneg (t : ℚ) (h : 0 ≤ t) : 0 ≤ roundEven t := by
  have hf : 0 ≤ ⌊t⌋ := Int.floor_nonneg.mpr h
  rcases roundEven_cases t with e | ⟨e, _⟩ <;> omega

theorem roundEven_nonpos (t : ℚ) (h : t ≤ 0) : roundEven t ≤ 0 := by
  rcases roundEven_cases t with e | ⟨e, hlt⟩
  · rw [e]
    exact Int.floor_nonpos h
  · rw [e]
    have : (⌊t⌋ : ℚ) < 0 := lt_of_lt_of_le hlt h
    have : ⌊t⌋ < 0 := by exact_mod_cast this
    omega

theorem f32_nonneg (x : ℚ) (h : 0 ≤ x) : 0 ≤ f32 x := by
  unfold f32
  dsimp only
  have hq : (0 : ℚ) < 2 ^ (max (Int.log 2 |x|) (-126) - 23) := zpow_pos (by norm_num) _
  have := roundEven_nonneg (x / 2 ^ (max (Int.log 2 |x|) (-126) - 23)) (div_nonneg h hq.le)
  exact mul_nonneg (by exact_mod_cast this) hq.le

theorem f32_nonpos (x : ℚ) (h : x ≤ 0) : f32 x ≤ 0 := by
  unfold f32
  dsimp only
  have hq : (0 : ℚ) < 2 ^ (max (Int.log 2 |x|) (-126) - 23) := zpow_pos (by norm_num) _
  have := roundEven_nonpos (x / 2 ^ (max (Int.log 2 |x|) (-126) - 23))
    (div_nonpos_of_nonpos_of_nonneg h hq.le)
  exact mul_nonpos_of_nonpos_of_nonneg (by exact_mod_cast this) hq.le

/-- The rounding of a value with a known integer part. -/
theorem roundEven_of_floor (t : ℚ) (f : Int) (h1 : (f : ℚ) ≤ t) (h2 : t < f + 1) :
    (t - f < 1 / 2 → roundEven t = f) ∧ (1 / 2 < t - f → roundEven t = f + 1) ∧
      (t - f = 1 / 2 → f % 2 = 0 → roundEven t = f) ∧
      (t - f = 1 / 2 → f % 2 = 1 → roundEven t = f + 1) := by
  have hf : ⌊t⌋ = f := Int.floor_eq_iff.mpr ⟨h1, h2⟩
  unfold roundEven
  dsimp only
  rw [hf]
  refine ⟨fun h => by rw [if_pos h], fun h => ?_, fun h he => ?_, fun h ho => ?_⟩
  · rw [if_neg (by linarith), if_pos h]
  · rw [if_neg (by linarith), if_neg (by linarith), if_pos he]
  · rw [if_neg (by linarith), if_neg (by linarith), if_neg (by omega)]

/-- The binary32 rounding of a value in the binade `[2^e, 2^(e+1))`. -/
theorem f32_eval (x : ℚ) (e q m : Int) (hq : q = max e (-126) - 23)
    (hlo : (2 : ℚ) ^ e ≤ |x|) (hhi : |x| < (2 : ℚ) ^ (e + 1))
    (hm : roundEven (x / 2 ^ q) = m) : f32 x = m * 2 ^ q := by
  have hpos : (0 : ℚ) < |x| := lt_of_lt_of_le (zpow_pos (by norm_num) e) hlo
  have he : Int.log 2 |x| = e := by
    have h1 : e ≤ Int.log 2 |x| :=
      (Int.zpow_le_iff_le_log (by norm_num) hpos).mp (by exact_mod_cast hlo)
    have h2 : Int.log 2 |x| < e + 1 :=
      (Int.lt_zpow_iff_log_lt (by norm_num) hpos).mp (by exact_mod_cast hhi)
    omega
  unfold f32
  dsimp only
  rw [he, ← hq, hm]

theorem f32_zero : f32 0 = 0 := by
  have h1 := f32_nonneg 0 le_rfl
  have h2 := f32_nonpos 0 le_rfl
  exact le_antisymm h2 h1

theorem roundEven_intCast (k : Int) : roundEven (k : ℚ) = k := by
  exact (roundEven_of_floor (k : ℚ) k le_rfl (by linarith)).1 (by norm_num)

/-- A natural number up to `2 ^ 24` is a binary32 value: its conversion to
`float` is exact. -/
theorem f32_natCast (n : Nat) (h : n ≤ 16777216) : f32 (n : ℚ) = n := by
  rcases Nat.eq_zero_or_pos n with h0 | hpos
  · subst h0
    simpa using f32_zero
  have hx : (0 : ℚ) < (n : ℚ) := by exact_mod_cast hpos
  have habs : |(n : ℚ)| = n := abs_of_pos hx
  have hlo := Int.zpow_log_le_self (b := 2) (r := (n : ℚ)) (by norm_num) hx
  have he0 : 0 ≤ Int.log 2 (n : ℚ) :=
    (Int.zpow_le_iff_le_log (b := 2) (by norm_num) hx).mp (by simpa using (by exact_mod_cast hpos : (1 : ℚ) ≤ n))
  have he1 : Int.log 2 (n : ℚ) ≤ 24 := by
    have : Int.log 2 (n : ℚ) < 25 :=
      (Int.lt_zpow_iff_log_lt (b := 2) (by norm_num) hx).mp (by
        have : (n : ℚ) ≤ 16777216 := by exact_mod_cast h
        norm_num
        linarith)
    omega
  unfold f32
  dsimp only
  rw [habs]
  generalize Int.log 2 (n : ℚ) = e at hlo he0 he1
  have hmax : max e (-126) = e := max_eq_left (by omega)
  rw [hmax]
  by_cases h24 : e = 24
  · subst h24
    have hn : n = 16777216 := by
      have : 16777216 ≤ n := by
        norm_num at hlo
        exact hlo
      omega
    subst hn
    have : ((16777216 : Nat) : ℚ) / 2 ^ ((24 : ℤ) - 23) = ((8388608 : Int) : ℚ) := by norm_num
    rw [this, roundEven_intCast]
    norm_num
  · obtain ⟨j, hj⟩ : ∃ j : Nat, (23 : ℤ) - e = j := ⟨(23 - e).toNat, by omega⟩
    have hq : e - 23 = -(j : ℤ) := by omega
    have : (n : ℚ) / 2 ^ (e - 23) = (((n * 2 ^ j : Nat) : Int) : ℚ) := by
      rw [hq, zpow_neg, zpow_natCast]
      push_cast
      field_simp
    rw [this, roundEven_intCast, hq, zpow_neg, zpow_natCast]
    push_cast
    field_simp

theorem convertBBox_clamped (bx1 by1 bx2 by2 : ℚ) (netW netH : Nat) :
    IsClampedBox netW netH bx1 by1 bx2 by2 (convertBBox bx1 by1 bx2 by2 netW netH) :=
  ⟨rfl, rfl, rfl, rfl⟩

/-- The bounds that hold of every clamped box, and the bound on the far edge
when the network size is a `float` and the difference is computed exactly. -/
theorem clampedBox_bounds (netW netH : Nat) (x1 y1 x2 y2 : ℚ) (o : NvDsInferParseObjectInfo)
    (h : IsClampedBox netW netH x1 y1 x2 y2 o) :
    (0 ≤ o.left ∧ o.left ≤ f32 netW ∧ 0 ≤ o.width ∧ o.width ≤ f32 netW) ∧
      (0 ≤ o.top ∧ o.top ≤ f32 netH ∧ 0 ≤ o.height ∧ o.height ≤ f32 netH) ∧
      (f32 netW = netW →
        f32 (clamp x2 0 (f32 netW) - clamp x1 0 (f32 netW))
          = clamp x2 0 (f32 netW) - clamp x1 0 (f32 netW) →
        o.left + o.width ≤ netW) ∧
      (f32 netH = netH →
        f32 (clamp y2 0 (f32 netH) - clamp y1 0 (f32 netH))
          = clamp y2 0 (f32 netH) - clamp y1 0 (f32 netH) →
        o.top + o.height ≤ netH) := by
  obtain ⟨hl, ht, hw, hh⟩ := h
  have hW : 0 ≤ f32 netW := f32_nonneg _ (Nat.cast_nonneg _)
  have hH : 0 ≤ f32 netH := f32_nonneg _ (Nat.cast_nonneg _)
  have key : ∀ (a b hi : ℚ), 0 ≤ hi →
      clamp a 0 hi + clamp (clamp b 0 hi - clamp a 0 hi) 0 hi ≤ hi := by
    intro a b hi h
    have h1 := clamp_le a hi h
    have h2 := clamp_le b hi h
    have h3 := clamp_nonneg a hi
    have h4 : clamp (clamp b 0 hi - clamp a 0 hi) 0 hi ≤ max 0 (clamp b 0 hi - clamp a 0 hi) :=
      max_le_max le_rfl (min_le_left _ _)
    rcases le_total 0 (clamp b 0 hi - clamp a 0 hi) with h5 | h5
    · rw [max_eq_right h5] at h4; linarith
    · rw [max_eq_left h5] at h4; linarith
  refine ⟨⟨?_, ?_, ?_, ?_⟩, ⟨?_, ?_, ?_, ?_⟩, ?_, ?_⟩
  · rw [hl]; exact clamp_nonneg _ _
  · rw [hl]; exact clamp_le _ _ hW
  · rw [hw]; exact clamp_nonneg _ _
  · rw [hw]; exact clamp_le _ _ hW
  · rw [ht]; exact clamp_nonneg _ _
  · rw [ht]; exact clamp_le _ _ hH
  · rw [hh]; exact clamp_nonneg _ _
  · rw [hh]; exact clamp_le _ _ hH
  · intro e1 e2
    rw [hl, hw, e2]
    have := key x1 x2 (f32 netW) hW
    rw [e1] at this ⊢
    exact this
  · intro e1 e2
    rw [ht, hh, e2]
    have := key y1 y2 (f32 netH) hH
    rw [e1] at this ⊢
    exact this

theorem f32_sample_values :
    f32 416 = 416 ∧ f32 100 = 100 ∧ f32 200 = 200 ∧ f32 (1 / 2) = 1 / 2 ∧ f32 4 = 4
      ∧ f32 1 = 1 ∧ f32 5 = 5 := by
  have h416 : f32 416 = 416 := by simpa using f32_natCast 416 (by norm_num)
  have h100 : f32 100 = 100 := by simpa using f32_natCast 100 (by norm_num)
  have h200 : f32 200 = 200 := by simpa using f32_natCast 200 (by norm_num)
  have h4 : f32 4 = 4 := by simpa using f32_natCast 4 (by norm_num)
  have h1 : f32 1 = 1 := by simpa using f32_natCast 1 (by norm_num)
  have h5 : f32 5 = 5 := by simpa using f32_natCast 5 (by norm_num)
  have hhalf : f32 (1 / 2) = 1 / 2 := by
    have hr := (roundEven_of_floor ((1 / 2) / 2 ^ (-24 : ℤ)) 8388608 (by norm_num)
      (by norm_num)).1 (by norm_num)
    rw [f32_eval (1 / 2) (-1) (-24) 8388608 (by decide) (by norm_num [abs_of_pos])
      (by norm_num [abs_of_pos]) hr]
    norm_num
  exact ⟨h416, h100, h200, hhalf, h4, h1, h5⟩

/-- The difference `416 - 2 ^ -30` rounds to `416`, and `1 - 2 ^ -30` to `1`. -/
theorem f32_rounds_up :
    f32 (416 - 1 / 1073741824) = 416 ∧ f32 (1 - 1 / 1073741824) = 1 := by
  constructor
  · have hr := (roundEven_of_floor ((416 - 1 / 1073741824) / 2 ^ (-15 : ℤ)) 13631487
      (by norm_num) (by norm_num)).2.1 (by norm_num)
    rw [f32_eval _ 8 (-15) (13631487 + 1) (by decide) (by norm_num [abs_of_pos])
      (by norm_num [abs_of_pos]) hr]
    norm_num
  · have hr := (roundEven_of_floor ((1 - 1 / 1073741824) / 2 ^ (-24 : ℤ)) 16777215
      (by norm_num) (by norm_num)).2.1 (by norm_num)
    rw [f32_eval _ (-1) (-24) (16777215 + 1) (by decide) (by norm_num [abs_of_pos])
      (by norm_num [abs_of_pos]) hr]
    norm_num

theorem convertBBox_sample :
    convertBBox 10 20 110 220 416 416
      = { classId := 0, left := 10, top := 20, width := 100, height := 200,
          detectionConfidence := 0 } := by
  obtain ⟨h416, h100, h200, _⟩ := f32_sample_values
  simp only [convertBBox, Nat.cast_ofNat, h416, clamp]
  norm_num [h100, h200]

theorem convertBBox_sampleNarrow :
    convertBBox 1 1 (3 / 2) 5 416 416
      = { classId := 0, left := 1, top := 1, width := 1 / 2, height := 4,
          detectionConfidence := 0 } := by
  obtain ⟨h416, _, _, hhalf, h4, _⟩ := f32_sample_values
  simp only [convertBBox, Nat.cast_ofNat, h416, clamp]
  norm_num [hhalf, h4]

theorem convertBBox_sampleShifted :
    convertBBox (1 / 1073741824) 0 416 416 416 416
      = { classId := 0, left := 1 / 1073741824, top := 0, width := 416, height := 416,
          detectionConfidence := 0 } := by
  obtain ⟨h416, _⟩ := f32_sample_values
  simp only [convertBBox, Nat.cast_ofNat, h416, clamp]
  norm_num [h416]
  rw [show (446676598783 / 1073741824 : ℚ) = 416 - 1 / 1073741824 by norm_num,
    f32_rounds_up.1]
  norm_num

/-- What `addBBoxProposal` does to `binfo`: nothing, or one record appended. -/
theorem addBBoxProposal_eq (bx1 by1 bx2 by2 : ℚ) (netW netH : Nat) (maxIndex : Int) (maxProb : ℚ)
    (binfo : List NvDsInferParseObjectInfo) :
    addBBoxProposal bx1 by1 bx2 by2 netW netH maxIndex maxProb binfo
      = if (convertBBox bx1 by1 bx2 by2 netW netH).width < 1
            ∨ (convertBBox bx1 by1 bx2 by2 netW netH).height < 1 then binfo
        else binfo ++ [{ convertBBox bx1 by1 bx2 by2 netW netH with
                          detectionConfidence := maxProb, classId := intBits maxIndex }] := rfl

/-- One more round of the candidate loop of `decodeTensorYolo`. -/
theorem decodeTensorYolo_succ (output : List ℚ) (b netW netH : Nat) (thr : List ℚ) :
    decodeTensorYolo output (b + 1) netW netH thr
      = (decodeTensorYolo output b netW netH thr).bind fun binfo =>
          (output[toUint (b * 6 + 4)]?).bind fun maxProb =>
          (output[toUint (b * 6 + 5)]?).bind fun cls =>
          (floatToInt cls).bind fun maxIndex =>
          (vecAt thr maxIndex).bind fun threshold =>
          if maxProb < threshold then some binfo
          else
            (output[toUint (b * 6 + 0)]?).bind fun bx1 =>
            (output[toUint (b * 6 + 1)]?).bind fun by1 =>
            (output[toUint (b * 6 + 2)]?).bind fun bx2 =>
            (output[toUint (b * 6 + 3)]?).bind fun by2 =>
            some (addBBoxProposal bx1 by1 bx2 by2 netW netH maxIndex maxProb binfo) := rfl

/-- A property that `addBBoxProposal` preserves holds for every object that
`decodeTensorYolo` returns. -/
theorem decodeTensorYolo_forall (P : NvDsInferParseObjectInfo → Prop) (netW netH : Nat)
    (hadd : ∀ (bx1 by1 bx2 by2 : ℚ) (idx : Int) (prob : ℚ)
      (binfo : List NvDsInferParseObjectInfo), (∀ o ∈ binfo, P o) →
      ∀ o ∈ addBBoxProposal bx1 by1 bx2 by2 netW netH idx prob binfo, P o)
    (output : List ℚ) (n : Nat) (thr : List ℚ) :
    ∀ out, decodeTensorYolo output n netW netH thr = some out → ∀ o ∈ out, P o := by
  induction n with
  | zero =>
    intro out h o ho
    have : out = [] := by
      have h2 : decodeTensorYolo output 0 netW netH thr = some [] := rfl
      rw [h2] at h
      exact (Option.some.inj h).symm
    rw [this] at ho
    cases ho
  | succ k ih =>
    intro out h
    rw [decodeTensorYolo_succ] at h
    simp only [Option.bind_eq_some] at h
    obtain ⟨binfo, hprev, maxProb, _, cls, _, maxIndex, _, threshold, _, hbody⟩ := h
    have hb := ih binfo hprev
    split at hbody
    · rw [← Option.some.inj hbody]; exact hb
    · simp only [Option.bind_eq_some] at hbody
      obtain ⟨bx1, _, by1, _, bx2, _, by2, _, hout⟩ := hbody
      rw [← Option.some.inj hout]
      exact hadd bx1 by1 bx2 by2 maxIndex maxProb binfo hb

/-- A property of the objects that `addBBoxProposal` preserves when it is given
the corners read from a record of the buffer holds for every object that
`decodeTensorYolo` returns. -/
theorem decodeTensorYolo_forall_read (P : NvDsInferParseObjectInfo → Prop) (netW netH : Nat)
    (output : List ℚ)
    (hadd : ∀ (b : Nat) (bx1 by1 bx2 by2 : ℚ) (idx : Int) (prob : ℚ)
      (binfo : List NvDsInferParseObjectInfo),
      output[toUint (b * 6 + 0)]? = some bx1 → output[toUint (b * 6 + 1)]? = some by1 →
      output[toUint (b * 6 + 2)]? = some bx2 → output[toUint (b * 6 + 3)]? = some by2 →
      output[toUint (b * 6 + 4)]? = some prob →
      (∀ o ∈ binfo, P o) →
      ∀ o ∈ addBBoxProposal bx1 by1 bx2 by2 netW netH idx prob binfo, P o)
    (n : Nat) (thr : List ℚ) :
    ∀ out, decodeTensorYolo output n netW netH thr = some out → ∀ o ∈ out, P o := by
  induction n with
  | zero =>
    intro out h o ho
    have : out = [] := by
      have h2 : decodeTensorYolo output 0 netW netH thr = some [] := rfl
      rw [h2] at h
      exact (Option.some.inj h).symm
    rw [this] at ho
    cases ho
  | succ k ih =>
    intro out h
    rw [decodeTensorYolo_succ] at h
    simp only [Option.bind_eq_some] at h
    obtain ⟨binfo, hprev, maxProb, hp, cls, _, maxIndex, _, threshold, _, hbody⟩ := h
    have hb := ih binfo hprev
    split at hbody
    · rw [← Option.some.inj hbody]; exact hb
    · simp only [Option.bind_eq_some] at hbody
      obtain ⟨bx1, h0, by1, h1, bx2, h2, by2, h3, hout⟩ := hbody
      rw [← Option.some.inj hout]
      exact hadd k bx1 by1 bx2 by2 maxIndex maxProb binfo h0 h1 h2 h3 hp hb

/-- The object that `addBBoxProposal` appends, if any, is the clamped box of the
corners it is given, with the confidence it is given. -/
theorem addBBoxProposal_clamped (netW netH : Nat) (bx1 by1 bx2 by2 : ℚ) (idx : Int) (prob : ℚ)
    (binfo : List NvDsInferParseObjectInfo) :
    ∀ o ∈ addBBoxProposal bx1 by1 bx2 by2 netW netH idx prob binfo,
      o ∈ binfo ∨ (IsClampedBox netW netH bx1 by1 bx2 by2 o ∧ o.detectionConfidence = prob) := by
  intro o ho
  rw [addBBoxProposal_eq] at ho
  split at ho
  · exact Or.inl ho
  · rcases List.mem_append.mp ho with ho | ho
    · exact Or.inl ho
    · rw [List.mem_singleton.mp ho]
      exact Or.inr ⟨convertBBox_clamped bx1 by1 bx2 by2 netW netH, rfl⟩

theorem addBBoxProposal_sizes (netW netH : Nat) (bx1 by1 bx2 by2 : ℚ) (idx : Int) (prob : ℚ)
    (binfo : List NvDsInferParseObjectInfo) (h : ∀ o ∈ binfo, 1 ≤ o.width ∧ 1 ≤ o.height) :
    ∀ o ∈ addBBoxProposal bx1 by1 bx2 by2 netW netH idx prob binfo,
      1 ≤ o.width ∧ 1 ≤ o.height := by
  intro o ho
  rw [addBBoxProposal_eq] at ho
  split at ho
  · exact h o ho
  · rename_i hsz
    rcases List.mem_append.mp ho with ho | ho
    · exact h o ho
    · rw [List.mem_singleton.mp ho]
      exact ⟨le_of_not_lt fun hw => hsz (Or.inl hw), le_of_not_lt fun hh => hsz (Or.inr hh)⟩


theorem candidates_cons (a b c d e f : ℚ) (rest : List ℚ) :
    candidates (a :: b :: c :: d :: e :: f :: rest) = ⟨a, b, c, d, e, f⟩ :: candidates rest := by
  rw [candidates]

/-- A flat buffer of `6 * n` floats starts with six floats. -/
theorem six_floats (n : Nat) (output : List ℚ) (h : output.length = 6 * (n + 1)) :
    ∃ a b c d e f rest, output = a :: b :: c :: d :: e :: f :: rest ∧ rest.length = 6 * n := by
  rcases output with _ | ⟨a, _ | ⟨b, _ | ⟨c, _ | ⟨d, _ | ⟨e, _ | ⟨f, rest⟩⟩⟩⟩⟩⟩ <;>
    simp only [List.length_cons, List.length_nil] at h <;> try omega
  exact ⟨a, b, c, d, e, f, rest, rfl, by omega⟩

theorem candidates_length (n : Nat) : ∀ output : List ℚ, output.length = 6 * n →
    (candidates output).length = n := by
  induction n with
  | zero =>
    intro output h
    have : output = [] := List.length_eq_zero.mp (by omega)
    rw [this]; rfl
  | succ k ih =>
    intro output h
    obtain ⟨a, b, c, d, e, f, rest, rfl, hr⟩ := six_floats k output h
    rw [candidates_cons, List.length_cons, ih rest hr]

theorem candidates_append (n : Nat) : ∀ output1 output2 : List ℚ, output1.length = 6 * n →
    candidates (output1 ++ output2) = candidates output1 ++ candidates output2 := by
  induction n with
  | zero =>
    intro output1 output2 h
    have : output1 = [] := List.length_eq_zero.mp (by omega)
    rw [this]
    simp [candidates]
  | succ k ih =>
    intro output1 output2 h
    obtain ⟨a, b, c, d, e, f, rest, rfl, hr⟩ := six_floats k output1 h
    simp only [List.cons_append, candidates_cons, ih rest output2 hr]

/-- Record `b` of a flat buffer occupies the floats `b * 6 + 0, ..., b * 6 + 5`. -/
theorem candidates_read (n : Nat) : ∀ (output : List ℚ) (b : Nat), output.length = 6 * n → b < n →
    ∃ c, (candidates output)[b]? = some c ∧
      output[b * 6 + 0]? = some c.x1 ∧ output[b * 6 + 1]? = some c.y1 ∧
      output[b * 6 + 2]? = some c.x2 ∧ output[b * 6 + 3]? = some c.y2 ∧
      output[b * 6 + 4]? = some c.confidence ∧ output[b * 6 + 5]? = some c.classIndex := by
  induction n with
  | zero => intro _ b _ hb; omega
  | succ k ih =>
    intro output b h hb
    obtain ⟨a, b1, c, d, e, f, rest, rfl, hr⟩ := six_floats k output h
    rw [candidates_cons]
    cases b with
    | zero => exact ⟨⟨a, b1, c, d, e, f⟩, by simp, by simp, by simp, by simp, by simp, by simp, by simp⟩
    | succ j =>
      obtain ⟨r, hr0, h0, h1, h2, h3, h4, h5⟩ := ih rest j hr (by omega)
      refine ⟨r, ?_, ?_, ?_, ?_, ?_, ?_, ?_⟩
      · simpa using hr0
      · have : (j + 1) * 6 + 0 = (j * 6 + 0) + 6 := by ring
        rw [this]; simpa using h0
      · have : (j + 1) * 6 + 1 = (j * 6 + 1) + 6 := by ring
        rw [this]; simpa using h1
      · have : (j + 1) * 6 + 2 = (j * 6 + 2) + 6 := by ring
        rw [this]; simpa using h2
      · have : (j + 1) * 6 + 3 = (j * 6 + 3) + 6 := by ring
        rw [this]; simpa using h3
      · have : (j + 1) * 6 + 4 = (j * 6 + 4) + 6 := by ring
        rw [this]; simpa using h4
      · have : (j + 1) * 6 + 5 = (j * 6 + 5) + 6 := by ring
        rw [this]; simpa using h5

/-- The detection emitted for a candidate whose class index is valid. -/
theorem emitted_eq (netW netH : Nat) (thr : List ℚ) (c : Candidate) (k : Int) (t : ℚ)
    (hk : floatToInt c.classIndex = some k) (ht : vecAt thr k = some t) :
    emitted netW netH thr c
      = if c.confidence < t then none
        else if (convertBBox c.x1 c.y1 c.x2 c.y2 netW netH).width < 1
            ∨ (convertBBox c.x1 c.y1 c.x2 c.y2 netW netH).height < 1 then none
        else some { convertBBox c.x1 c.y1 c.x2 c.y2 netW netH with
                    detectionConfidence := c.confidence, classId := intBits k } := by
  unfold emitted
  rw [hk, Option.some_bind, ht, Option.some_bind]

/-- The candidate loop over a well-formed buffer, after `m` rounds. -/
theorem decodeTensorYolo_take (output : List ℚ) (n netW netH : Nat) (thr : List ℚ)
    (hlen : output.length = 6 * n) (hfit : 6 * n ≤ 4294967296)
    (hv : ∀ c ∈ candidates output, (classThreshold thr c).isSome) (m : Nat) (hm : m ≤ n) :
    decodeTensorYolo output m netW netH thr
      = some (((candidates output).take m).filterMap (emitted netW netH thr)) := by
  induction m with
  | zero => rfl
  | succ j ih =>
    obtain ⟨c, hc, h0, h1, h2, h3, h4, h5⟩ := candidates_read n output j hlen (by omega)
    have hmem : c ∈ candidates output := List.getElem?_mem hc
    obtain ⟨t, ht⟩ := Option.isSome_iff_exists.mp (hv c hmem)
    obtain ⟨k, hk, hkt⟩ := Option.bind_eq_some.mp ht
    have e0 : toUint (j * 6 + 0) = j * 6 + 0 := toUint_of_lt _ (by omega)
    have e1 : toUint (j * 6 + 1) = j * 6 + 1 := toUint_of_lt _ (by omega)
    have e2 : toUint (j * 6 + 2) = j * 6 + 2 := toUint_of_lt _ (by omega)
    have e3 : toUint (j * 6 + 3) = j * 6 + 3 := toUint_of_lt _ (by omega)
    have e4 : toUint (j * 6 + 4) = j * 6 + 4 := toUint_of_lt _ (by omega)
    have e5 : toUint (j * 6 + 5) = j * 6 + 5 := toUint_of_lt _ (by omega)
    rw [decodeTensorYolo_succ, ih (by omega), e0, e1, e2, e3, e4, e5, h0, h1, h2, h3, h4, h5]
    simp only [Option.some_bind, hk, hkt, addBBoxProposal_eq]
    rw [List.take_succ, hc, List.filterMap_append]
    simp only [Option.toList, List.filterMap_cons, List.filterMap_nil,
      emitted_eq netW netH thr c k t hk hkt]
    by_cases hconf : c.confidence < t
    · simp [hconf]
    · by_cases hsz : (convertBBox c.x1 c.y1 c.x2 c.y2 netW netH).width < 1
          ∨ (convertBBox c.x1 c.y1 c.x2 c.y2 netW netH).height < 1
      · simp [hconf, hsz]
      · simp [hconf, hsz]


/-- The round of the candidate loop for a candidate with a valid class index. -/
theorem decodeTensorYolo_step (output : List ℚ) (b netW netH : Nat) (thr : List ℚ)
    (x1 y1 x2 y2 conf cls t : ℚ) (c : Int) (binfo : List NvDsInferParseObjectInfo)
    (hb : b * 6 + 5 < 4294967296)
    (h0 : output[b * 6 + 0]? = some x1) (h1 : output[b * 6 + 1]? = some y1)
    (h2 : output[b * 6 + 2]? = some x2) (h3 : output[b * 6 + 3]? = some y2)
    (h4 : output[b * 6 + 4]? = some conf) (h5 : output[b * 6 + 5]? = some cls)
    (hc : floatToInt cls = some c) (ht : vecAt thr c = some t)
    (hprev : decodeTensorYolo output b netW netH thr = some binfo) :
    (conf < t → decodeTensorYolo output (b + 1) netW netH thr = some binfo) ∧
    (t ≤ conf → 1 ≤ (convertBBox x1 y1 x2 y2 netW netH).width →
      1 ≤ (convertBBox x1 y1 x2 y2 netW netH).height →
      decodeTensorYolo output (b + 1) netW netH thr
        = some (binfo ++ [{ convertBBox x1 y1 x2 y2 netW netH with
                            detectionConfidence := conf, classId := c.toNat }])) := by
  have e0 : toUint (b * 6 + 0) = b * 6 + 0 := toUint_of_lt _ (by omega)
  have e1 : toUint (b * 6 + 1) = b * 6 + 1 := toUint_of_lt _ (by omega)
  have e2 : toUint (b * 6 + 2) = b * 6 + 2 := toUint_of_lt _ (by omega)
  have e3 : toUint (b * 6 + 3) = b * 6 + 3 := toUint_of_lt _ (by omega)
  have e4 : toUint (b * 6 + 4) = b * 6 + 4 := toUint_of_lt _ (by omega)
  have e5 : toUint (b * 6 + 5) = b * 6 + 5 := toUint_of_lt _ (by omega)
  have hcid : intBits c = c.toNat := by
    have hc0 : 0 ≤ c := by
      by_contra hneg
      unfold vecAt at ht
      rw [if_neg hneg] at ht
      cases ht
    unfold intBits
    have hcr : c < 2147483648 := by
      unfold floatToInt at hc
      simp only at hc
      split at hc
      · rename_i hr
        rw [← Option.some.inj hc]; exact hr.2
      · cases hc
    congr 1
    omega
  rw [decodeTensorYolo_succ, hprev, e0, e1, e2, e3, e4, e5, h0, h1, h2, h3, h4, h5]
  simp only [Option.some_bind, hc, ht, addBBoxProposal_eq, hcid]
  constructor
  · intro hlt
    rw [if_pos hlt]
  · intro hge hw hh
    rw [if_neg (not_lt.mpr hge), if_neg (by
      intro hor
      rcases hor with h | h
      · exact absurd hw (not_le.mpr h)
      · exact absurd hh (not_le.mpr h))]

theorem sampleOutput_first :
    decodeTensorYolo sampleOutput 1 416 416 sampleThresholds
      = some [{ convertBBox 10 20 110 220 416 416 with
                detectionConfidence := 1 / 2, classId := 1 }] :=
  (decodeTensorYolo_step sampleOutput 0 416 416 sampleThresholds 10 20 110 220 (1 / 2) 1
    (1 / 2) 1 [] (by decide) (by simp [sampleOutput]) (by simp [sampleOutput])
    (by simp [sampleOutput]) (by simp [sampleOutput]) (by simp [sampleOutput])
    (by simp [sampleOutput]) (by simp [floatToInt]) (by simp [vecAt, sampleThresholds]) rfl).2
    le_rfl (by rw [convertBBox_sample]; norm_num) (by rw [convertBBox_sample]; norm_num)

/-- C4: in `decodeTensorYolo`, let candidate `b` be `(x1, y1, x2, y2, conf, cls)`
with class index `c = (int) cls` a valid index into the threshold vector and
`t = thresholds[c]`, and let `binfo` be the objects collected from the earlier
candidates.  If `conf < t` nothing is emitted for the candidate; if `t ≤ conf`
(equality included) and the clamped box has width and height at least 1, the
clamped box is emitted with confidence `conf` and class index `c`. -/
theorem decodeTensorYolo_threshold (output : List ℚ) (b netW netH : Nat) (thr : List ℚ)
    (x1 y1 x2 y2 conf cls t : ℚ) (c : Int) (binfo : List NvDsInferParseObjectInfo)
    (hb : b * 6 + 5 < 4294967296)
    (h0 : output[b * 6 + 0]? = some x1) (h1 : output[b * 6 + 1]? = some y1)
    (h2 : output[b * 6 + 2]? = some x2) (h3 : output[b * 6 + 3]? = some y2)
    (h4 : output[b * 6 + 4]? = some conf) (h5 : output[b * 6 + 5]? = some cls)
    (hc : floatToInt cls = some c) (ht : vecAt thr c = some t)
    (hprev : decodeTensorYolo output b netW netH thr = some binfo) :
    (conf < t → decodeTensorYolo output (b + 1) netW netH thr = some binfo) ∧
    (t ≤ conf → 1 ≤ (convertBBox x1 y1 x2 y2 netW netH).width →
      1 ≤ (convertBBox x1 y1 x2 y2 netW netH).height →
      decodeTensorYolo output (b + 1) netW netH thr
        = some (binfo ++ [{ convertBBox x1 y1 x2 y2 netW netH with
                            detectionConfidence := conf, classId := c.toNat }])) :=
  decodeTensorYolo_step output b netW netH thr x1 y1 x2 y2 conf cls t c binfo hb h0 h1 h2 h3 h4 h5
    hc ht hprev

theorem decodeTensorYolo_threshold_witness :
    vecAt sampleThresholds 1 = some (1 / 2) ∧
      decodeTensorYolo sampleOutput 1 416 416 sampleThresholds
        = some [{ convertBBox 10 20 110 220 416 416 with
                  detectionConfidence := 1 / 2, classId := 1 }] :=
  ⟨by simp [vecAt, sampleThresholds],
    (decodeTensorYolo_threshold sampleOutput 0 416 416 sampleThresholds 10 20 110 220 (1 / 2) 1
      (1 / 2) 1 [] (by decide) (by simp [sampleOutput]) (by simp [sampleOutput])
      (by simp [sampleOutput]) (by simp [sampleOutput]) (by simp [sampleOutput])
      (by simp [sampleOutput]) (by simp [floatToInt]) (by simp [vecAt, sampleThresholds]) rfl).2
      le_rfl (by rw [convertBBox_sample]; norm_num) (by rw [convertBBox_sample]; norm_num)⟩


/-- C5, as the code has it: for arbitrary corner coordinates and every network
size, the box made by `convertBBox` has as left and top the first corner
clamped to the network size, and as width and height the differences of the
clamped corners, clamped again, the network size being converted to `float`
and the differences computed in `float`.  Such a box has
`0 ≤ left ≤ W`, `0 ≤ width ≤ W`, `0 ≤ top ≤ H`, `0 ≤ height ≤ H` for the
converted sizes `W` and `H`, which are `netW` and `netH` up to `2 ^ 24`; and
`left + width ≤ netW`, `top + height ≤ netH` hold when the size is a `float`
and the difference is computed exactly.  The object that `addBBoxProposal`
appends is this box of the corners it is given, and every object that
`decodeTensorYolo` returns is this box of the corners of a record of the
buffer, with that record's confidence. -/
theorem emitted_box_within_bounds (netW netH : Nat) :
    (∀ x1 y1 x2 y2 : ℚ,
      IsClampedBox netW netH x1 y1 x2 y2 (convertBBox x1 y1 x2 y2 netW netH)) ∧
    (∀ (x1 y1 x2 y2 : ℚ) (o : NvDsInferParseObjectInfo), IsClampedBox netW netH x1 y1 x2 y2 o →
      (0 ≤ o.left ∧ o.left ≤ f32 netW ∧ 0 ≤ o.width ∧ o.width ≤ f32 netW) ∧
      (0 ≤ o.top ∧ o.top ≤ f32 netH ∧ 0 ≤ o.height ∧ o.height ≤ f32 netH) ∧
      (f32 netW = netW →
        f32 (clamp x2 0 (f32 netW) - clamp x1 0 (f32 netW))
          = clamp x2 0 (f32 netW) - clamp x1 0 (f32 netW) →
        o.left + o.width ≤ netW) ∧
      (f32 netH = netH →
        f32 (clamp y2 0 (f32 netH) - clamp y1 0 (f32 netH))
          = clamp y2 0 (f32 netH) - clamp y1 0 (f32 netH) →
        o.top + o.height ≤ netH)) ∧
    (netW ≤ 16777216 → f32 netW = netW) ∧ (netH ≤ 16777216 → f32 netH = netH) ∧
    (∀ (x1 y1 x2 y2 : ℚ) (maxIndex : Int) (maxProb : ℚ),
      ∀ o ∈ addBBoxProposal x1 y1 x2 y2 netW netH maxIndex maxProb [],
        IsClampedBox netW netH x1 y1 x2 y2 o ∧ o.detectionConfidence = maxProb) ∧
    (∀ (output : List ℚ) (outputSize : Nat) (thr : List ℚ)
      (objects : List NvDsInferParseObjectInfo),
      decodeTensorYolo output outputSize netW netH thr = some objects →
      ∀ o ∈ objects, ∃ (b : Nat) (x1 y1 x2 y2 : ℚ),
        output[toUint (b * 6 + 0)]? = some x1 ∧ output[toUint (b * 6 + 1)]? = some y1 ∧
        output[toUint (b * 6 + 2)]? = some x2 ∧ output[toUint (b * 6 + 3)]? = some y2 ∧
        output[toUint (b * 6 + 4)]? = some o.detectionConfidence ∧
        IsClampedBox netW netH x1 y1 x2 y2 o) := by
  refine ⟨fun x1 y1 x2 y2 => convertBBox_clamped x1 y1 x2 y2 netW netH,
    fun x1 y1 x2 y2 o h => clampedBox_bounds netW netH x1 y1 x2 y2 o h,
    f32_natCast netW, f32_natCast netH, ?_, ?_⟩
  · intro x1 y1 x2 y2 maxIndex maxProb o ho
    rcases addBBoxProposal_clamped netW netH x1 y1 x2 y2 maxIndex maxProb [] o ho with h | h
    · exact absurd h (List.not_mem_nil o)
    · exact h
  · intro output outputSize thr
    refine decodeTensorYolo_forall_read
      (fun o => ∃ (b : Nat) (x1 y1 x2 y2 : ℚ),
        output[toUint (b * 6 + 0)]? = some x1 ∧ output[toUint (b * 6 + 1)]? = some y1 ∧
        output[toUint (b * 6 + 2)]? = some x2 ∧ output[toUint (b * 6 + 3)]? = some y2 ∧
        output[toUint (b * 6 + 4)]? = some o.detectionConfidence ∧
        IsClampedBox netW netH x1 y1 x2 y2 o) netW netH output ?_ outputSize thr
    intro b bx1 by1 bx2 by2 idx prob binfo h0 h1 h2 h3 hp hb o ho
    rcases addBBoxProposal_clamped netW netH bx1 by1 bx2 by2 idx prob binfo o ho with h | ⟨h, hc⟩
    · exact hb o h
    · exact ⟨b, bx1, by1, bx2, by2, h0, h1, h2, h3, by rw [hc]; exact hp, h⟩

theorem emitted_box_within_bounds_witness :
    decodeTensorYolo sampleOutput 1 416 416 sampleThresholds
        = some [{ convertBBox 10 20 110 220 416 416 with
                  detectionConfidence := 1 / 2, classId := 1 }] ∧
      (convertBBox 10 20 110 220 416 416).left + (convertBBox 10 20 110 220 416 416).width
        ≤ ((416 : Nat) : ℚ) :=
  ⟨sampleOutput_first,
    ((emitted_box_within_bounds 416 416).2.1 10 20 110 220 _
      ((emitted_box_within_bounds 416 416).1 10 20 110 220)).2.2.1
      ((emitted_box_within_bounds 416 416).2.2.1 (by norm_num))
      (by
        obtain ⟨h416, h100, _⟩ := f32_sample_values
        simp only [Nat.cast_ofNat, h416, clamp]
        norm_num [h100])⟩

/-- C5 as stated fails where the difference of the clamped corners is rounded:
the candidate with corners `(2 ^ -30, 0)` and `(416, 416)` in a 416 x 416
network is emitted with left `2 ^ -30` and width `416`, so that
`left + width > netW`. -/
theorem rounded_width_leaves_bounds :
    decodeTensorYolo sampleShifted 1 416 416 [1 / 4] = some [sampleShiftedObject] ∧
      sampleShiftedObject.left + sampleShiftedObject.width > ((416 : Nat) : ℚ) ∧
      ¬ InBounds 416 416 sampleShiftedObject := by
  refine ⟨?_, ?_, ?_⟩
  · have h := (decodeTensorYolo_step sampleShifted 0 416 416 [1 / 4] (1 / 1073741824) 0 416 416
      (9 / 10) 0 (1 / 4) 0 [] (by decide) (by simp [sampleShifted]) (by simp [sampleShifted])
      (by simp [sampleShifted]) (by simp [sampleShifted]) (by simp [sampleShifted])
      (by simp [sampleShifted]) (by simp [floatToInt]) (by simp [vecAt]) rfl).2
      (by norm_num) (by rw [convertBBox_sampleShifted]; norm_num)
      (by rw [convertBBox_sampleShifted]; norm_num)
    rw [h, convertBBox_sampleShifted]
    rfl
  · norm_num [sampleShiftedObject]
  · unfold InBounds
    norm_num [sampleShiftedObject]

/-- C6: if the width or the height of the clamped box, as `convertBBox`
computes it, is below 1, `addBBoxProposal` appends nothing; the width is 0 as
soon as the clamped second corner is not to the right of the clamped first
corner (and likewise for the height); consequently every object returned by
`decodeTensorYolo` has width and height at least 1. -/
theorem degenerate_box_dropped (netW netH : Nat) :
    (∀ (x1 y1 x2 y2 : ℚ) (maxIndex : Int) (maxProb : ℚ)
      (binfo : List NvDsInferParseObjectInfo),
      (convertBBox x1 y1 x2 y2 netW netH).width < 1
        ∨ (convertBBox x1 y1 x2 y2 netW netH).height < 1 →
      addBBoxProposal x1 y1 x2 y2 netW netH maxIndex maxProb binfo = binfo) ∧
    (∀ x1 y1 x2 y2 : ℚ,
      (clamp x2 0 (f32 netW) ≤ clamp x1 0 (f32 netW) →
        (convertBBox x1 y1 x2 y2 netW netH).width = 0) ∧
      (clamp y2 0 (f32 netH) ≤ clamp y1 0 (f32 netH) →
        (convertBBox x1 y1 x2 y2 netW netH).height = 0)) ∧
    (∀ (output : List ℚ) (outputSize : Nat) (thr : List ℚ)
      (objects : List NvDsInferParseObjectInfo),
      decodeTensorYolo output outputSize netW netH thr = some objects →
      ∀ o ∈ objects, 1 ≤ o.width ∧ 1 ≤ o.height) := by
  have hzero : ∀ (d hi : ℚ), d ≤ 0 → clamp (f32 d) 0 hi = 0 := by
    intro d hi hd
    exact max_eq_left (le_trans (min_le_left _ _) (f32_nonpos d hd))
  refine ⟨?_, ?_, ?_⟩
  · intro x1 y1 x2 y2 maxIndex maxProb binfo h
    rw [addBBoxProposal_eq, if_pos h]
  · intro x1 y1 x2 y2
    exact ⟨fun h => hzero _ _ (sub_nonpos.mpr h), fun h => hzero _ _ (sub_nonpos.mpr h)⟩
  · intro output outputSize thr
    exact decodeTensorYolo_forall (fun o => 1 ≤ o.width ∧ 1 ≤ o.height) netW netH
      (fun x1 y1 x2 y2 idx prob binfo h => addBBoxProposal_sizes netW netH x1 y1 x2 y2 idx prob
        binfo h) output outputSize thr

/-- A box whose exact width `1 - 2 ^ -30` is below 1 and whose computed width,
rounded to binary32, is 1. -/
theorem convertBBox_sampleRounded :
    convertBBox (1 / 1073741824) 0 1 5 416 416
      = { classId := 0, left := 1 / 1073741824, top := 0, width := 1, height := 5,
          detectionConfidence := 0 } := by
  obtain ⟨h416, _, _, _, _, _, h5⟩ := f32_sample_values
  simp only [convertBBox, Nat.cast_ofNat, h416, clamp]
  norm_num [h416, h5]
  rw [show (1073741823 / 1073741824 : ℚ) = 1 - 1 / 1073741824 by norm_num,
    f32_rounds_up.2]
  norm_num

theorem degenerate_box_dropped_witness :
    (convertBBox 1 1 (3 / 2) 5 416 416).width < 1 ∧
      addBBoxProposal 1 1 (3 / 2) 5 416 416 0 (9 / 10) [] = [] ∧
      1 ≤ (convertBBox 10 20 110 220 416 416).width :=
  have hw : (convertBBox 1 1 (3 / 2) 5 416 416).width < 1 := by
    rw [convertBBox_sampleNarrow]
    norm_num
  have h := (degenerate_box_dropped 416 416).2.2 sampleOutput 1 sampleThresholds _
    sampleOutput_first
    { convertBBox 10 20 110 220 416 416 with detectionConfidence := 1 / 2, classId := 1 }
    (List.mem_singleton.mpr rfl)
  ⟨hw, (degenerate_box_dropped 416 416).1 1 1 (3 / 2) 5 0 (9 / 10) [] (Or.inl hw), h.1⟩

/-- C7: for flat buffers of `n1` and `n2` records of 6 floats whose class indices
are valid (with `6 * (n1 + n2)` within the range of the `uint` index),
`decodeTensorYolo` returns the in-order filter-map of the candidates under
`emitted`, which looks at one candidate, the thresholds and the network size
only; the output is no longer than the number of candidates, and decoding the
concatenation of two buffers gives the concatenation of their decodings (so
equal surviving candidates each appear). -/
theorem decodeTensorYolo_filterMap (output1 output2 : List ℚ) (n1 n2 netW netH : Nat)
    (thr : List ℚ) (h1 : output1.length = 6 * n1) (h2 : output2.length = 6 * n2)
    (hfit : 6 * (n1 + n2) ≤ 4294967296)
    (hv1 : ∀ c ∈ candidates output1, (classThreshold thr c).isSome)
    (hv2 : ∀ c ∈ candidates output2, (classThreshold thr c).isSome) :
    decodeTensorYolo output1 n1 netW netH thr
        = some ((candidates output1).filterMap (emitted netW netH thr)) ∧
      ((candidates output1).filterMap (emitted netW netH thr)).length ≤ n1 ∧
      decodeTensorYolo (output1 ++ output2) (n1 + n2) netW netH thr
        = some ((candidates output1).filterMap (emitted netW netH thr)
            ++ (candidates output2).filterMap (emitted netW netH thr)) := by
  have hc1 := candidates_length n1 output1 h1
  have hc2 := candidates_length n2 output2 h2
  refine ⟨?_, ?_, ?_⟩
  · have h := decodeTensorYolo_take output1 n1 netW netH thr h1 (by omega) hv1 n1 le_rfl
    rwa [← hc1, List.take_length, hc1] at h
  · calc ((candidates output1).filterMap (emitted netW netH thr)).length
        ≤ (candidates output1).length := List.length_filterMap_le _ _
      _ = n1 := hc1
  · have hlen : (output1 ++ output2).length = 6 * (n1 + n2) := by
      rw [List.length_append, h1, h2]; ring
    have happ := candidates_append n1 output1 output2 h1
    have hv : ∀ c ∈ candidates (output1 ++ output2), (classThreshold thr c).isSome := by
      intro c hc
      rw [happ] at hc
      rcases List.mem_append.mp hc with hc | hc
      · exact hv1 c hc
      · exact hv2 c hc
    have h := decodeTensorYolo_take (output1 ++ output2) (n1 + n2) netW netH thr hlen hfit hv
      (n1 + n2) le_rfl
    have hcl : (candidates (output1 ++ output2)).length = n1 + n2 := by
      rw [happ, List.length_append, hc1, hc2]
    rw [← hcl, List.take_length, hcl, happ, List.filterMap_append] at h
    exact h

theorem decodeTensorYolo_filterMap_witness :
    decodeTensorYolo (sampleRecord ++ sampleRecord) (1 + 1) 416 416 sampleThresholds
      = some ((candidates sampleRecord).filterMap (emitted 416 416 sampleThresholds)
          ++ (candidates sampleRecord).filterMap (emitted 416 416 sampleThresholds)) :=
  have hv : ∀ c ∈ candidates sampleRecord, (classThreshold sampleThresholds c).isSome := by
    intro c hc
    have : c = ⟨10, 20, 110, 220, 1 / 2, 1⟩ := by
      simpa [sampleRecord, candidates] using hc
    rw [this]
    simp [classThreshold, floatToInt, vecAt, sampleThresholds]
  (decodeTensorYolo_filterMap sampleRecord sampleRecord 1 1 416 416 sampleThresholds rfl rfl
    (by decide) hv hv).2.2


/-! ## The network compiler -/

theorem bitsInt_range (u : Nat) (hu : u < 4294967296) :
    -2147483648 ≤ bitsInt u ∧ bitsInt u < 2147483648 := by
  unfold bitsInt
  split <;> omega

theorem stoi_range (s : String) (f : Int) (h : stoi s = some f) :
    -2147483648 ≤ f ∧ f < 2147483648 := by
  unfold stoi at h
  simp only [] at h
  split_ifs at h with h1 h2 h3 h4 h5
  all_goals (rw [← Option.some.inj h]; assumption)

theorem intBits_cast (z : Int) : ((intBits z : Nat) : Int) = z % 4294967296 := by
  unfold intBits
  exact Int.toNat_of_nonneg (Int.emod_nonneg _ (by norm_num))

theorem relativeFrom_range (i : Nat) (f : Int) (hf : -2147483648 ≤ f ∧ f < 2147483648) :
    -2147483648 ≤ relativeFrom i f ∧ relativeFrom i f < 2147483648 := by
  unfold relativeFrom
  split
  · exact bitsInt_range _ (intBits_lt _)
  · exact hf

/-- When the three assertions pass, the resolved index, as an integer, is
non-negative, below `i - 2` and below the number of emitted tensors, and the
`uint` index is the resolved index itself; otherwise an assertion fails. -/
theorem assertReference_ok (i : Nat) (g : Int) (size : Nat) (hi : i < 2147483648)
    (hg : -2147483648 ≤ g ∧ g < 2147483648) (hsize : size ≤ i) :
    (assertReference i g size = .ok () →
        (0 ≤ (i : Int) + g - 1 ∧ (i : Int) + g - 1 < (i : Int) - 2 ∧ (i : Int) + g - 1 < size
          ∧ (refIndex i g : Int) = (i : Int) + g - 1)) ∧
      (assertReference i g size = .ok () ∨ assertReference i g size = .error .assertion) := by
  have ha := intBits_cast ((i : Int) - 2)
  have hb := intBits_cast ((i : Int) + g - 1)
  unfold assertReference refIndex
  generalize intBits ((i : Int) - 2) = a at ha ⊢
  generalize intBits ((i : Int) + g - 1) = b at hb ⊢
  refine ⟨?_, ?_⟩
  · split
    · intro h; cases h
    · split
      · intro h; cases h
      · split
        · intro h; cases h
        · intro _; omega
  · split
    · exact Or.inr rfl
    · split
      · exact Or.inr rfl
      · split
        · exact Or.inr rfl
        · exact Or.inl rfl


theorem bind_eq_ok {α β : Type} (x : Except Fault α) (f : α → Except Fault β) (b : β) :
    x.bind f = .ok b ↔ ∃ a, x = .ok a ∧ f a = .ok b := by
  cases x with
  | error e => simp [Except.bind]
  | ok a => simp [Except.bind]

theorem pushTensor_ok (st st1 : BuildState) (t : Option ITensor) (wp : Int)
    (h : pushTensor st t wp = .ok st1) :
    ∃ p, t = some p ∧ st1 = { st with previous := p, tensorOutputs := st.tensorOutputs ++ [p],
                                       weightPtr := wp } := by
  unfold pushTensor at h
  split at h
  · cases h
  · rename_i p
    rw [bind_eq_ok] at h
    obtain ⟨_, _, h⟩ := h
    exact ⟨p, rfl, (Except.ok.inj h).symm⟩

/-- What a round of the block loop can do to the list of emitted tensors: leave
it alone, or push one tensor. -/
theorem buildBlock_outputs (y : Yolo) (B : LayerBuilders) (weights : List Nat) (i : Nat)
    (st st1 : BuildState) (h : buildBlock y B weights i st = .ok st1) :
    st1.tensorOutputs = st.tensorOutputs ∨ ∃ t, st1.tensorOutputs = st.tensorOutputs ++ [t] := by
  unfold buildBlock at h
  split at h
  · cases h
  split at h
  · cases h
  split at h
  all_goals
    repeat' (first
      | (rw [bind_eq_ok] at h; obtain ⟨_, _, h⟩ := h)
      | (split at h)
      | (dsimp only at h))
  all_goals first
    | (cases h; done)
    | (injection h with h; subst h; exact Or.inl rfl)
    | (obtain ⟨p, _, hp⟩ := pushTensor_ok _ _ _ _ ‹pushTensor _ _ _ = _›
       injection h with h; subst h; subst hp; exact Or.inr ⟨p, rfl⟩)
    | (obtain ⟨p, _, hp⟩ := pushTensor_ok _ _ _ _ h
       subst hp; exact Or.inr ⟨p, rfl⟩)
    | (injection h with h; subst h; exact Or.inr ⟨_, rfl⟩)


theorem buildLoop_succ (y : Yolo) (B : LayerBuilders) (weights : List Nat) (n : Nat) :
    buildLoop y B weights (n + 1)
      = (buildLoop y B weights n).bind (buildBlock y B weights n) := by
  unfold buildLoop
  cases buildInit y B with
  | error e => rfl
  | ok s => rfl

theorem buildInit_outputs (y : Yolo) (B : LayerBuilders) (st : BuildState)
    (h : buildInit y B = .ok st) : st.tensorOutputs = [] := by
  unfold buildInit at h
  dsimp only at h
  split at h
  · cases h
  · split at h
    · injection h with h; subst h; rfl
    · cases h

/-- When the loop variable is `n`, at most `n` tensors have been emitted. -/
theorem buildLoop_outputs_le (y : Yolo) (B : LayerBuilders) (weights : List Nat) (n : Nat) :
    ∀ st, buildLoop y B weights n = .ok st → st.tensorOutputs.length ≤ n := by
  induction n with
  | zero =>
    intro st h
    unfold buildLoop at h
    rw [bind_eq_ok] at h
    obtain ⟨s0, h0, h1⟩ := h
    have : s0 = st := Except.ok.inj h1
    rw [← this, buildInit_outputs y B s0 h0]
    exact Nat.le_refl 0
  | succ k ih =>
    intro st h
    rw [buildLoop_succ, bind_eq_ok] at h
    obtain ⟨s0, h0, h1⟩ := h
    have hk := ih s0 h0
    rcases buildBlock_outputs y B weights k s0 st h1 with he | ⟨t, he⟩
    · rw [he]; omega
    · rw [he, List.length_append, List.length_singleton]; omega

theorem dimsToString_fault (d : List Int) (f : Fault) (h : dimsToString d = .error f) :
    f = .assertion := by
  unfold dimsToString at h
  split at h
  · injection h with h; exact h.symm
  · cases h

theorem pushTensor_fault (st : BuildState) (t : Option ITensor) (wp : Int) (f : Fault)
    (h : pushTensor st t wp = .error f) : f = .assertion := by
  unfold pushTensor at h
  split at h
  · injection h with h; exact h.symm
  · cases hd : dimsToString _ with
    | error e =>
      rw [hd] at h
      injection h with h
      rw [← h]; exact dimsToString_fault _ e hd
    | ok v => rw [hd] at h; cases h

theorem layerKind_reference (type : String)
    (href : type = "shortcut" ∨ type = "sam" ∨ type = "shift_channels"
      ∨ type = "control_channels") :
    layerKind type = .shortcut ∨ layerKind type = .sam ∨ layerKind type = .channels := by
  rcases href with h | h | h | h <;> subst h <;> decide

theorem ok_bind {α β : Type} (a : α) (f : α → Except Fault β) :
    (Except.ok a : Except Fault α).bind f = f a := rfl

theorem bind_eq_error {α β : Type} (x : Except Fault α) (f : α → Except Fault β) (e : Fault) :
    x.bind f = .error e ↔ x = .error e ∨ ∃ a, x = .ok a ∧ f a = .error e := by
  cases x with
  | error e => simp [Except.bind]
  | ok a => simp [Except.bind]

theorem assertReference_fault (i : Nat) (g : Int) (size : Nat) (f : Fault)
    (h : assertReference i g size = .error f) : f = .assertion := by
  unfold assertReference at h
  split_ifs at h <;> (injection h with h; exact h.symm)

/-- A reference block whose `from` attribute reads `f`: the round of the block
loop begins with the three assertions on the normalised offset, and it does not
access `tensorOutputs` outside its bounds when the index is that of an emitted
tensor. -/
theorem buildBlock_reference (y : Yolo) (B : LayerBuilders) (weights : List Nat) (i : Nat)
    (st : BuildState) (block : ConfigBlock) (type s : String) (f : Int)
    (hblock : y.m_ConfigBlocks[i]? = some block) (htype : block.lookup "type" = some type)
    (href : type = "shortcut" ∨ type = "sam" ∨ type = "shift_channels"
      ∨ type = "control_channels")
    (hfrom : block.lookup "from" = some s) (hs : stoi s = some f) :
    (assertReference i (relativeFrom i f) st.tensorOutputs.length = .error .assertion →
        buildBlock y B weights i st = .error .assertion) ∧
      ((∃ ref, st.tensorOutputs[refIndex i (relativeFrom i f)]? = some ref) →
        buildBlock y B weights i st ≠ .error .undefined) := by
  have hread : readFrom i block = .ok (relativeFrom i f) := by
    unfold readFrom
    rw [hfrom]
    dsimp only
    rw [hs]
  have hkind := layerKind_reference type href
  unfold buildBlock
  rw [hblock]
  dsimp only
  rw [htype]
  dsimp only
  constructor
  · intro ha
    rcases hkind with hk | hk | hk <;> rw [hk] <;> dsimp only <;> rw [hread, ok_bind, ha] <;> rfl
  · rintro ⟨ref, href2⟩ h
    rcases hkind with hk | hk | hk <;> rw [hk] at h <;> dsimp only at h <;>
      rw [hread, ok_bind, href2] at h <;> dsimp only at h
    all_goals
      repeat' (first
        | (rw [bind_eq_error] at h; rcases h with h | ⟨_, _, h⟩))
    all_goals first
      | cases assertReference_fault _ _ _ _ h
      | cases dimsToString_fault _ _ h
      | cases pushTensor_fault _ _ _ _ h


/-- A reference block that the round of the block loop completes: the tensor at
`tensorOutputs[i + from - 1]` exists and is the one handed to the layer
builder, whose result becomes the current tensor. -/
theorem buildBlock_reference_ok (y : Yolo) (B : LayerBuilders) (weights : List Nat) (i : Nat)
    (st st1 : BuildState) (block : ConfigBlock) (type s : String) (f : Int)
    (hblock : y.m_ConfigBlocks[i]? = some block) (htype : block.lookup "type" = some type)
    (href : type = "shortcut" ∨ type = "sam" ∨ type = "shift_channels"
      ∨ type = "control_channels")
    (hfrom : block.lookup "from" = some s) (hs : stoi s = some f)
    (h : buildBlock y B weights i st = .ok st1) :
    assertReference i (relativeFrom i f) st.tensorOutputs.length = .ok () ∧
    ∃ ref, st.tensorOutputs[refIndex i (relativeFrom i f)]? = some ref ∧
      (type = "shortcut" → ∃ inputVol shortcutVol,
        B.shortcutLayer i ((block.lookup "activation").getD "linear") inputVol shortcutVol block
          st.previous ref = some st1.previous) ∧
      (type = "sam" →
        B.samLayer i ((block.lookup "activation").getD "linear") block st.previous ref
          = some st1.previous) ∧
      (type = "shift_channels" ∨ type = "control_channels" →
        B.channelsLayer i block st.previous ref = some st1.previous) := by
  have hread : readFrom i block = .ok (relativeFrom i f) := by
    unfold readFrom
    rw [hfrom]
    dsimp only
    rw [hs]
  unfold buildBlock at h
  rw [hblock] at h
  dsimp only at h
  rw [htype] at h
  dsimp only at h
  rcases href with ht | ht | ht | ht <;> subst ht
  · have hk : layerKind "shortcut" = .shortcut := by decide
    rw [hk] at h
    dsimp only at h
    rw [hread, ok_bind, bind_eq_ok] at h
    obtain ⟨u, hu, h⟩ := h
    rw [bind_eq_ok] at h
    obtain ⟨inputVol, _, h⟩ := h
    split at h
    · cases h
    · rename_i ref href2
      rw [bind_eq_ok] at h
      obtain ⟨shortcutVol, _, h⟩ := h
      obtain ⟨p, hp, hst⟩ := pushTensor_ok _ _ _ _ h
      refine ⟨hu, ref, href2, fun _ => ⟨inputVol, shortcutVol, ?_⟩, fun hne => ?_,
        fun hne => ?_⟩
      · rw [hp, hst]
      · exact absurd hne (by decide)
      · exact absurd hne (by decide)
  · have hk : layerKind "sam" = .sam := by decide
    rw [hk] at h
    dsimp only at h
    rw [hread, ok_bind, bind_eq_ok] at h
    obtain ⟨u, hu, h⟩ := h
    rw [bind_eq_ok] at h
    obtain ⟨inputVol, _, h⟩ := h
    split at h
    · cases h
    · rename_i ref href2
      obtain ⟨p, hp, hst⟩ := pushTensor_ok _ _ _ _ h
      refine ⟨hu, ref, href2, fun hne => ?_, fun _ => ?_, fun hne => ?_⟩
      · exact absurd hne (by decide)
      · rw [hp, hst]
      · exact absurd hne (by decide)
  · have hk : layerKind "shift_channels" = .channels := by decide
    rw [hk] at h
    dsimp only at h
    rw [hread, ok_bind, bind_eq_ok] at h
    obtain ⟨u, hu, h⟩ := h
    rw [bind_eq_ok] at h
    obtain ⟨inputVol, _, h⟩ := h
    split at h
    · cases h
    · rename_i ref href2
      obtain ⟨p, hp, hst⟩ := pushTensor_ok _ _ _ _ h
      refine ⟨hu, ref, href2, fun hne => ?_, fun hne => ?_, fun _ => ?_⟩
      · exact absurd hne (by decide)
      · exact absurd hne (by decide)
      · rw [hp, hst]
  · have hk : layerKind "control_channels" = .channels := by decide
    rw [hk] at h
    dsimp only at h
    rw [hread, ok_bind, bind_eq_ok] at h
    obtain ⟨u, hu, h⟩ := h
    rw [bind_eq_ok] at h
    obtain ⟨inputVol, _, h⟩ := h
    split at h
    · cases h
    · rename_i ref href2
      obtain ⟨p, hp, hst⟩ := pushTensor_ok _ _ _ _ h
      refine ⟨hu, ref, href2, fun hne => ?_, fun hne => ?_, fun _ => ?_⟩
      · exact absurd hne (by decide)
      · exact absurd hne (by decide)
      · rw [hp, hst]


/-- Once the block loop has ended early, it stays ended. -/
theorem buildLoop_error_le (y : Yolo) (B : LayerBuilders) (weights : List Nat) (n : Nat)
    (e : Fault) (h : buildLoop y B weights n = .error e) (k : Nat) :
    buildLoop y B weights (n + k) = .error e := by
  induction k with
  | zero => exact h
  | succ j ih =>
    have : n + (j + 1) = (n + j) + 1 := rfl
    rw [this, buildLoop_succ, ih]
    rfl

/-- A block at which the round of the loop ends early ends `buildYoloNetwork`,
with nothing done to the network. -/
theorem buildYoloNetwork_abort_at (y : Yolo) (B : LayerBuilders) (weights : List Nat) (i : Nat)
    (st : BuildState) (e : Fault) (hi : i < y.m_ConfigBlocks.length)
    (hrun : buildLoop y B weights i = .ok st) (hb : buildBlock y B weights i st = .error e) :
    buildYoloNetwork y B weights = (.error e, ⟨none, false, []⟩) := by
  have h1 : buildLoop y B weights (i + 1) = .error e := by
    rw [buildLoop_succ, hrun, ok_bind, hb]
  have h2 := buildLoop_error_le y B weights (i + 1) e h1 (y.m_ConfigBlocks.length - (i + 1))
  have h3 : i + 1 + (y.m_ConfigBlocks.length - (i + 1)) = y.m_ConfigBlocks.length := by omega
  rw [h3] at h2
  unfold buildYoloNetwork
  rw [h2]

/-- C8: let block `i` be a reference block (`shortcut`, `sam`, `shift_channels`
or `control_channels`) with raw attribute `from = f`, reached by the block loop
in state `st`, and let `r = i + from - 1` be the index it resolves to after
the normalisation of `from`.  If `r ≥ i - 2`, or `r < 0`, or `r` is not the
index of an emitted tensor, one of the assertions that precede the access to
`tensorOutputs` fails and `buildYoloNetwork` aborts there.  When the assertions pass,
`0 ≤ r < i - 2`, `r` is below the number of emitted tensors, and the element
accessed is `tensorOutputs[r]`, which exists; the block never accesses
`tensorOutputs` out of bounds. -/
theorem reference_bound (y : Yolo) (B : LayerBuilders) (weights : List Nat) (i : Nat)
    (st : BuildState) (block : ConfigBlock) (type s : String) (f : Int)
    (hi : i < 2147483648) (hrun : buildLoop y B weights i = .ok st)
    (hblock : y.m_ConfigBlocks[i]? = some block) (htype : block.lookup "type" = some type)
    (href : type = "shortcut" ∨ type = "sam" ∨ type = "shift_channels"
      ∨ type = "control_channels")
    (hfrom : block.lookup "from" = some s) (hs : stoi s = some f)
    (r : Int) (hr : r = (i : Int) + relativeFrom i f - 1) :
    (r ≥ (i : Int) - 2 ∨ r < 0 ∨ ¬ r < st.tensorOutputs.length →
        assertReference i (relativeFrom i f) st.tensorOutputs.length = .error .assertion ∧
        buildBlock y B weights i st = .error .assertion ∧
        buildYoloNetwork y B weights = (.error .assertion, ⟨none, false, []⟩)) ∧
      (assertReference i (relativeFrom i f) st.tensorOutputs.length = .ok () →
        0 ≤ r ∧ r < (i : Int) - 2 ∧ r < st.tensorOutputs.length ∧
        (refIndex i (relativeFrom i f) : Int) = r ∧
        ∃ ref, st.tensorOutputs[refIndex i (relativeFrom i f)]? = some ref) ∧
      buildBlock y B weights i st ≠ .error .undefined := by
  have hilt : i < y.m_ConfigBlocks.length := (List.getElem?_eq_some_iff.mp hblock).1
  have hsize := buildLoop_outputs_le y B weights i st hrun
  have hg := relativeFrom_range i f (stoi_range s f hs)
  obtain ⟨hok, hcases⟩ :=
    assertReference_ok i (relativeFrom i f) st.tensorOutputs.length hi hg hsize
  obtain ⟨habort, hdef⟩ :=
    buildBlock_reference y B weights i st block type s f hblock htype href hfrom hs
  have hpass : assertReference i (relativeFrom i f) st.tensorOutputs.length = .ok () →
      0 ≤ r ∧ r < (i : Int) - 2 ∧ r < st.tensorOutputs.length ∧
      (refIndex i (relativeFrom i f) : Int) = r ∧
      ∃ ref, st.tensorOutputs[refIndex i (relativeFrom i f)]? = some ref := by
    intro h
    obtain ⟨h1, h2, h3, h4⟩ := hok h
    rw [← hr] at h1 h2 h3 h4
    have hlt : refIndex i (relativeFrom i f) < st.tensorOutputs.length := by omega
    exact ⟨h1, h2, h3, h4, st.tensorOutputs[refIndex i (relativeFrom i f)],
      List.getElem?_eq_getElem hlt⟩
  refine ⟨?_, hpass, ?_⟩
  · intro hbad
    rcases hcases with h | h
    · obtain ⟨h1, h2, h3, _⟩ := hpass h
      omega
    · exact ⟨h, habort h, buildYoloNetwork_abort_at y B weights i st _ hilt hrun (habort h)⟩
  · rcases hcases with h | h
    · exact hdef (hpass h).2.2.2.2
    · rw [habort h]
      intro hne
      cases hne

theorem reference_bound_witness :
    buildLoop sampleYolo sampleBuilders [0, 0, 0, 0, 0, 0] 4 = .ok sampleStateAt4 ∧
      stoi "-3" = some (-3) ∧
      (refIndex 4 (relativeFrom 4 (-3)) : Int) = 0 ∧
      buildBlock sampleYolo sampleBuilders [0, 0, 0, 0, 0, 0] 4 sampleStateAt4
        ≠ .error .undefined :=
  have h := reference_bound sampleYolo sampleBuilders [0, 0, 0, 0, 0, 0] 4 sampleStateAt4
    [("type", "shortcut"), ("from", "-3")] "shortcut" "-3" (-3) (by decide) (by decide)
    (by decide) (by decide) (Or.inl rfl) (by decide) (by decide) 0 (by decide)
  ⟨by decide, by decide, (h.2.1 (by decide)).2.2.2.1, h.2.2⟩


/-- C9, as the code has it: for a reference block at block index `i` with raw
`from` value `f`, if `f` is strictly positive the index used is `f` itself, and
the offset is `f - i + 1` whenever that value is an `int`; if `f` is zero or
negative the offset is `f` unchanged and the index used is `i + f - 1` when
that is not negative.  When the round of the block loop completes, the tensor
at that index is the one handed to `shortcutLayer`, `samLayer` or
`channelsLayer`. -/
theorem from_offset (y : Yolo) (B : LayerBuilders) (weights : List Nat) (i : Nat)
    (st : BuildState) (block : ConfigBlock) (type s : String) (f : Int)
    (hi : i < 2147483648) (hrun : buildLoop y B weights i = .ok st)
    (hblock : y.m_ConfigBlocks[i]? = some block) (htype : block.lookup "type" = some type)
    (href : type = "shortcut" ∨ type = "sam" ∨ type = "shift_channels"
      ∨ type = "control_channels")
    (hfrom : block.lookup "from" = some s) (hs : stoi s = some f) :
    (0 < f → refIndex i (relativeFrom i f) = f.toNat ∧
        (f - (i : Int) + 1 < 2147483648 → relativeFrom i f = f - (i : Int) + 1)) ∧
      (f ≤ 0 → relativeFrom i f = f ∧
        (0 ≤ (i : Int) + f - 1 → refIndex i (relativeFrom i f) = ((i : Int) + f - 1).toNat)) ∧
      (∀ st1, buildBlock y B weights i st = .ok st1 →
        ∃ ref, st.tensorOutputs[if 0 < f then f.toNat else ((i : Int) + f - 1).toNat]? = some ref ∧
          (type = "shortcut" → ∃ inputVol shortcutVol,
            B.shortcutLayer i ((block.lookup "activation").getD "linear") inputVol shortcutVol
              block st.previous ref = some st1.previous) ∧
          (type = "sam" →
            B.samLayer i ((block.lookup "activation").getD "linear") block st.previous ref
              = some st1.previous) ∧
          (type = "shift_channels" ∨ type = "control_channels" →
            B.channelsLayer i block st.previous ref = some st1.previous)) := by
  have hf := stoi_range s f hs
  have hc : ∀ g : Int, ((refIndex i g : Nat) : Int) = ((i : Int) + g - 1) % 4294967296 :=
    fun g => intBits_cast _
  have hpos : 0 < f → refIndex i (relativeFrom i f) = f.toNat ∧
      (f - (i : Int) + 1 < 2147483648 → relativeFrom i f = f - (i : Int) + 1) := by
    intro h0
    have hb := intBits_cast (f - (i : Int) + 1)
    have hrel : relativeFrom i f = bitsInt (intBits (f - (i : Int) + 1)) := by
      unfold relativeFrom
      rw [if_pos h0]
    have hg : bitsInt (intBits (f - (i : Int) + 1)) = (intBits (f - (i : Int) + 1) : Int) ∨
        bitsInt (intBits (f - (i : Int) + 1))
          = (intBits (f - (i : Int) + 1) : Int) - 4294967296 := by
      unfold bitsInt
      split
      · exact Or.inl rfl
      · exact Or.inr rfl
    have hr := bitsInt_range _ (intBits_lt (f - (i : Int) + 1))
    rw [hrel]
    have h1 := hc (bitsInt (intBits (f - (i : Int) + 1)))
    generalize bitsInt (intBits (f - (i : Int) + 1)) = g at hg hr h1 ⊢
    generalize intBits (f - (i : Int) + 1) = u at hb hg
    generalize refIndex i g = v at h1 ⊢
    constructor
    · omega
    · intro hlt
      omega
  have hneg : f ≤ 0 → relativeFrom i f = f ∧
      (0 ≤ (i : Int) + f - 1 → refIndex i (relativeFrom i f) = ((i : Int) + f - 1).toNat) := by
    intro h0
    have hrel : relativeFrom i f = f := by
      unfold relativeFrom
      rw [if_neg (by omega)]
    refine ⟨hrel, fun hnn => ?_⟩
    have h1 := hc f
    rw [hrel]
    omega
  refine ⟨hpos, hneg, fun st1 h => ?_⟩
  obtain ⟨hassert, ref, href2, hb⟩ :=
    buildBlock_reference_ok y B weights i st st1 block type s f hblock htype href hfrom hs h
  refine ⟨ref, ?_, hb⟩
  by_cases h0 : 0 < f
  · rw [if_pos h0, ← (hpos h0).1]
    exact href2
  · rw [if_neg h0]
    have hsize := buildLoop_outputs_le y B weights i st hrun
    have hg := relativeFrom_range i f hf
    obtain ⟨h1, _, _, h4⟩ :=
      (assertReference_ok i (relativeFrom i f) st.tensorOutputs.length hi hg hsize).1 hassert
    have hrel := (hneg (by omega)).1
    rw [hrel] at h1 h4 href2
    have : refIndex i f = ((i : Int) + f - 1).toNat := by omega
    rw [← this]
    exact href2

theorem from_offset_witness :
    stoi "-3" = some (-3) ∧ relativeFrom 4 (-3) = -3 ∧
      refIndex 4 (relativeFrom 4 (-3)) = ((4 : Int) + (-3) - 1).toNat :=
  have h := from_offset sampleYolo sampleBuilders [0, 0, 0, 0, 0, 0] 4 sampleStateAt4
    [("type", "shortcut"), ("from", "-3")] "shortcut" "-3" (-3) (by decide) (by decide)
    (by decide) (by decide) (Or.inl rfl) (by decide) (by decide)
  ⟨by decide, (h.2.1 (by decide)).1, (h.2.1 (by decide)).2 (by decide)⟩

/-- C9 as stated fails at `f = 0`: at block index 5 the offset used for
`from = 0` is `0`, not `0 - 5 + 1`, and the index used is `4`, not `0`. -/
theorem from_zero_is_relative :
    relativeFrom 5 0 = 0 ∧ relativeFrom 5 0 ≠ (0 : Int) - 5 + 1 ∧
      refIndex 5 (relativeFrom 5 0) = 4 ∧ refIndex 5 (relativeFrom 5 0) ≠ 0 := by
  decide


/-- The weight check of `buildYoloNetwork` compares the cursor with the number
of floats, as long as that number is an `int`. -/
theorem weightCount_cast (weights : List Nat) (hw : weights.length < 2147483648) :
    bitsInt (toUint weights.length) = (weights.length : Int) := by
  unfold bitsInt toUint
  rw [Nat.mod_eq_of_lt (by omega), if_pos hw]

/-- When the weight check fails, the run ends there, with nothing done to the
network. -/
theorem finishNetwork_unused_weights (y : Yolo) (B : LayerBuilders) (weights : List Nat)
    (st : BuildState) (hw : weights.length < 2147483648)
    (hne : st.weightPtr ≠ (weights.length : Int)) :
    finishNetwork y B weights st = (.error .assertion, ⟨none, false, []⟩) := by
  unfold finishNetwork
  rw [weightCount_cast weights hw, if_pos (fun h => hne h.symm)]

/-- A successful end of the run has passed the weight check. -/
theorem finishNetwork_success (y : Yolo) (B : LayerBuilders) (weights : List Nat)
    (st : BuildState) (hw : weights.length < 2147483648)
    (h : (finishNetwork y B weights st).1 = .ok .NVDSINFER_SUCCESS) :
    st.weightPtr = (weights.length : Int) := by
  by_contra hne
  rw [finishNetwork_unused_weights y B weights st hw hne] at h
  cases h

/-- C10: for every compiler state, every weight array (whose length is an `int`)
and every behaviour of the layer builders, `buildYoloNetwork` returns success
only if the weight cursor after the last block equals the number of floats in
the weight array; if the block loop ends with a cursor that is smaller or
larger, the run aborts at the weight check: no operator has been created, none
has been added to the network and no output has been marked. -/
theorem weight_cursor_exact (y : Yolo) (B : LayerBuilders) (weights : List Nat)
    (hw : weights.length < 2147483648) :
    ((buildYoloNetwork y B weights).1 = .ok .NVDSINFER_SUCCESS →
        ∃ st, buildLoop y B weights y.m_ConfigBlocks.length = .ok st ∧
          st.weightPtr = (weights.length : Int)) ∧
      (∀ st, buildLoop y B weights y.m_ConfigBlocks.length = .ok st →
        st.weightPtr ≠ (weights.length : Int) →
        (buildYoloNetwork y B weights).1 = .error .assertion ∧
        (buildYoloNetwork y B weights).2.yoloPlugin = none ∧
        (buildYoloNetwork y B weights).2.pluginAdded = false ∧
        (buildYoloNetwork y B weights).2.outputs = []) := by
  constructor
  · intro h
    unfold buildYoloNetwork at h
    split at h
    · cases h
    · rename_i st hloop
      exact ⟨st, hloop, finishNetwork_success y B weights st hw h⟩
  · intro st hloop hne
    have hfin : buildYoloNetwork y B weights = finishNetwork y B weights st := by
      unfold buildYoloNetwork
      rw [hloop]
    rw [hfin, finishNetwork_unused_weights y B weights st hw hne]
    exact ⟨rfl, rfl, rfl, rfl⟩

theorem weight_cursor_exact_witness :
    ((buildYoloNetwork sampleYolo sampleBuilders [0, 0, 0, 0, 0, 0]).1 = .ok .NVDSINFER_SUCCESS ∧
      ∃ st, buildLoop sampleYolo sampleBuilders [0, 0, 0, 0, 0, 0] 6 = .ok st ∧
        st.weightPtr = 6) ∧
    (buildLoop sampleYolo sampleBuilders [0, 0, 0, 0, 0] 6 = .ok sampleStateAt6 ∧
      (buildYoloNetwork sampleYolo sampleBuilders [0, 0, 0, 0, 0]).1 = .error .assertion ∧
      (buildYoloNetwork sampleYolo sampleBuilders [0, 0, 0, 0, 0]).2.outputs = []) :=
  have h5 := (weight_cursor_exact sampleYolo sampleBuilders [0, 0, 0, 0, 0] (by decide)).2
    sampleStateAt6 (by decide) (by decide)
  ⟨⟨by decide,
      (weight_cursor_exact sampleYolo sampleBuilders [0, 0, 0, 0, 0, 0] (by decide)).1
        (by decide)⟩,
    by decide, h5.1, h5.2.2.2⟩

/-! ## The config parser -/

theorem dropWhile_append_stop {α : Type} (p : α → Bool) (xs : List α) (y : α) (ys : List α)
    (hy : p y = false) : (xs ++ y :: ys).dropWhile p = xs.dropWhile p ++ y :: ys := by
  induction xs with
  | nil => simp [List.dropWhile, hy]
  | cons x xs ih =>
    by_cases hx : p x = true
    · simp [List.dropWhile, hx, ih]
    · simp [List.dropWhile, hx]

theorem leftTrim_append_stop (xs : List Char) (y : Char) (ys : List Char)
    (hy : isSpace y = false) : leftTrim (xs ++ y :: ys) = leftTrim xs ++ y :: ys :=
  dropWhile_append_stop isSpace xs y ys hy

theorem rightTrim_append_stop (xs : List Char) (y : Char) (ys : List Char)
    (hy : isSpace y = false) : rightTrim (xs ++ y :: ys) = xs ++ y :: rightTrim ys := by
  unfold rightTrim
  have h : (xs ++ y :: ys).reverse = ys.reverse ++ y :: xs.reverse := by simp
  rw [h, dropWhile_append_stop isSpace _ y _ hy]
  simp

theorem dropWhile_idem {α : Type} (p : α → Bool) (xs : List α) :
    (xs.dropWhile p).dropWhile p = xs.dropWhile p := by
  induction xs with
  | nil => rfl
  | cons x xs ih =>
    by_cases hx : p x = true
    · simp [List.dropWhile, hx, ih]
    · simp [List.dropWhile, hx]

theorem leftTrim_idem (s : List Char) : leftTrim (leftTrim s) = leftTrim s :=
  dropWhile_idem isSpace s

theorem rightTrim_idem (s : List Char) : rightTrim (rightTrim s) = rightTrim s := by
  unfold rightTrim
  rw [List.reverse_reverse, dropWhile_idem]

/-- A string is white space only, or has a first character that is not. -/
theorem leftTrim_cases (s : List Char) :
    leftTrim s = [] ∧ (∀ c ∈ s, isSpace c = true) ∨
      ∃ sp c rest, s = sp ++ c :: rest ∧ (∀ d ∈ sp, isSpace d = true) ∧ isSpace c = false
        ∧ leftTrim s = c :: rest := by
  induction s with
  | nil => exact Or.inl ⟨rfl, fun c hc => absurd hc (List.not_mem_nil c)⟩
  | cons x xs ih =>
    by_cases hx : isSpace x = true
    · have hl : leftTrim (x :: xs) = leftTrim xs := by simp [leftTrim, List.dropWhile, hx]
      rcases ih with ⟨h1, h2⟩ | ⟨sp, c, rest, h1, h2, h3, h4⟩
      · left
        refine ⟨by rw [hl, h1], ?_⟩
        intro c hc
        rcases List.mem_cons.mp hc with h | h
        · rw [h]; exact hx
        · exact h2 c h
      · right
        refine ⟨x :: sp, c, rest, by rw [h1]; rfl, ?_, h3, by rw [hl, h4]⟩
        intro d hd
        rcases List.mem_cons.mp hd with h | h
        · rw [h]; exact hx
        · exact h2 d h
    · right
      have hx2 : isSpace x = false := by simpa using hx
      exact ⟨[], x, xs, rfl, fun d hd => absurd hd (List.not_mem_nil d), hx2,
        by simp [leftTrim, List.dropWhile, hx2]⟩

theorem dropWhile_all {α : Type} (p : α → Bool) (xs : List α) (h : ∀ x ∈ xs, p x = true) :
    xs.dropWhile p = [] := by
  induction xs with
  | nil => rfl
  | cons x xs ih =>
    have hx := h x (List.mem_cons_self _ _)
    simp only [List.dropWhile, hx]
    exact ih fun y hy => h y (List.mem_cons_of_mem _ hy)

theorem rightTrim_all (s : List Char) (h : ∀ c ∈ s, isSpace c = true) : rightTrim s = [] := by
  unfold rightTrim
  rw [dropWhile_all isSpace s.reverse (fun c hc => h c (List.mem_reverse.mp hc))]
  rfl

/-- Trimming on the left and on the right commute. -/
theorem leftTrim_rightTrim (s : List Char) : leftTrim (rightTrim s) = rightTrim (leftTrim s) := by
  rcases leftTrim_cases s with ⟨h1, h2⟩ | ⟨sp, c, rest, h1, h2, h3, h4⟩
  · rw [h1, rightTrim_all s h2]
    rfl
  · rw [h4]
    have e1 : rightTrim s = sp ++ c :: rightTrim rest := by
      rw [h1]; exact rightTrim_append_stop sp c rest h3
    have e2 : rightTrim (c :: rest) = c :: rightTrim rest :=
      rightTrim_append_stop [] c rest h3
    rw [e1, e2, leftTrim_append_stop sp c _ h3]
    have : leftTrim sp = [] := dropWhile_all isSpace sp h2
    rw [this]
    rfl

theorem trimChars_idem (s : List Char) : trimChars (trimChars s) = trimChars s := by
  unfold trimChars
  rw [leftTrim_rightTrim, leftTrim_idem, rightTrim_idem]

theorem trimChars_leftTrim (s : List Char) : trimChars (leftTrim s) = trimChars s := by
  unfold trimChars
  rw [leftTrim_idem]

theorem trimChars_rightTrim (s : List Char) : trimChars (rightTrim s) = trimChars s := by
  unfold trimChars
  rw [leftTrim_rightTrim, rightTrim_idem]

theorem isSpace_eq : isSpace '=' = false := by decide

/-- Trimming a line around its first `=`. -/
theorem trimChars_around_eq (before after : List Char) :
    trimChars (before ++ '=' :: after) = leftTrim before ++ '=' :: rightTrim after := by
  unfold trimChars
  rw [leftTrim_append_stop before '=' after isSpace_eq,
    rightTrim_append_stop (leftTrim before) '=' after isSpace_eq]

theorem mem_dropWhile {α : Type} (p : α → Bool) (xs : List α) (x : α)
    (h : x ∈ xs.dropWhile p) : x ∈ xs :=
  (List.dropWhile_sublist p).subset h

theorem mem_trimChars (s : List Char) (c : Char) (h : c ∈ trimChars s) : c ∈ s := by
  unfold trimChars rightTrim leftTrim at h
  have h1 := mem_dropWhile _ _ _ (List.mem_reverse.mp h)
  exact mem_dropWhile _ _ _ (List.mem_reverse.mp h1)

theorem notEq_iff (c : Char) : notEq c = true ↔ c ≠ '=' := by
  unfold notEq
  simp

theorem takeWhile_ne_append (before after : List Char) (h : '=' ∉ before) :
    (before ++ '=' :: after).takeWhile notEq = before ∧
      (before ++ '=' :: after).dropWhile notEq = '=' :: after := by
  induction before with
  | nil =>
    have : notEq '=' = false := by decide
    simp [List.takeWhile, List.dropWhile, this]
  | cons x xs ih =>
    have hx : notEq x = true :=
      (notEq_iff x).mpr fun e => h (by rw [e]; exact List.mem_cons_self _ _)
    have hxs : '=' ∉ xs := fun e => h (List.mem_cons_of_mem _ e)
    obtain ⟨i1, i2⟩ := ih hxs
    constructor
    · rw [List.cons_append, List.takeWhile_cons, if_pos hx, i1]
    · rw [List.cons_append, List.dropWhile_cons, if_pos hx, i2]

/-- A line that holds an `=` splits at the first one. -/
theorem split_at_eq (s : List Char) (h : '=' ∈ s) :
    s = s.takeWhile notEq ++ '=' :: (s.dropWhile notEq).drop 1 ∧
      '=' ∉ s.takeWhile notEq := by
  induction s with
  | nil => cases h
  | cons x xs ih =>
    by_cases hx : x = '='
    · subst hx
      have : notEq '=' = false := by decide
      simp [List.takeWhile, List.dropWhile, this]
    · have hmem : '=' ∈ xs := by
        rcases List.mem_cons.mp h with e | e
        · exact absurd e.symm hx
        · exact e
      have hx2 : notEq x = true := (notEq_iff x).mpr hx
      obtain ⟨i1, i2⟩ := ih hmem
      constructor
      · rw [List.takeWhile_cons, if_pos hx2, List.dropWhile_cons, if_pos hx2, List.cons_append,
          ← i1]
      · rw [List.takeWhile_cons, if_pos hx2]
        intro hm
        rcases List.mem_cons.mp hm with e | e
        · exact hx e.symm
        · exact i2 e

theorem parseLine_skip (st : List ConfigBlock × ConfigBlock) (line : String)
    (h : skipLine line = true) : parseLine st line = st := by
  unfold parseLine
  rw [if_pos h]

theorem substr_inner (l : List Char) : (l.drop 1).take (l.length - 2) = (l.drop 1).dropLast := by
  rw [List.dropLast_eq_take, List.length_drop]
  rfl

/-- A header line flushes a non-empty block in progress and opens a block that
holds the `type` only. -/
theorem parseLine_header (st : List ConfigBlock × ConfigBlock) (line : String)
    (h : isHeader line = true) :
    parseLine st line
      = (if st.2 = [] then st.1 else st.1 ++ [st.2], [("type", headerType line)]) := by
  unfold isHeader at h
  simp only [Bool.and_eq_true, Bool.not_eq_true', decide_eq_true_eq] at h
  obtain ⟨hs, hh⟩ := h
  obtain ⟨blocks, block⟩ := st
  unfold parseLine
  rw [if_neg (by rw [hs]; exact Bool.false_ne_true)]
  simp only [hh, if_true, substr_inner]
  by_cases hb : block = []
  · subst hb
    simp [mapInsert, headerType, List.lookup]
  · have hlen : block.length > 0 := List.length_pos.mpr hb
    simp [hlen, hb, mapInsert, headerType, List.lookup]

theorem drop_past {α : Type} (xs : List α) (y : α) (ys : List α) :
    (xs ++ y :: ys).drop (xs.length + 1) = ys := by
  induction xs with
  | nil => rfl
  | cons x xs ih => simp

/-- A line that is neither skipped nor a header inserts its key and value into
the block in progress. -/
theorem parseLine_keyValue (st : List ConfigBlock × ConfigBlock) (line : String)
    (hs : skipLine line = false) (hh : isHeader line = false) :
    parseLine st line = (st.1, mapInsert st.2 (keyValue line).1 (keyValue line).2) := by
  have hhead : ¬ (trimChars line.data).head? = some '[' := by
    unfold isHeader at hh
    rw [hs] at hh
    simpa using hh
  unfold parseLine
  rw [if_neg (by rw [hs]; exact Bool.false_ne_true)]
  simp only [hhead, if_false]
  unfold keyValue findEq
  by_cases hmem : '=' ∈ line.data
  · obtain ⟨hsplit, hnot⟩ := split_at_eq line.data hmem
    have htrim := trimChars_around_eq (line.data.takeWhile notEq)
      ((line.data.dropWhile notEq).drop 1)
    rw [← hsplit] at htrim
    have hnot2 : '=' ∉ leftTrim (line.data.takeWhile notEq) :=
      fun e => hnot (mem_dropWhile _ _ _ e)
    obtain ⟨t1, t2⟩ := takeWhile_ne_append _ (rightTrim ((line.data.dropWhile notEq).drop 1)) hnot2
    have hmem2 : '=' ∈ trimChars line.data := by
      rw [htrim]; simp
    rw [if_pos hmem2, if_pos hmem]
    simp only [htrim, t1]
    rw [List.take_left, drop_past, trimChars_leftTrim, trimChars_rightTrim]
  · have hmem2 : '=' ∉ trimChars line.data := fun e => hmem (mem_trimChars _ _ e)
    rw [if_neg hmem2, if_neg hmem]
    simp only [trimChars_idem]

theorem lookup_append (k : String) (xs ys : ConfigBlock) :
    (xs ++ ys).lookup k = match xs.lookup k with
      | some v => some v
      | none => ys.lookup k := by
  induction xs with
  | nil => rfl
  | cons x xs ih =>
    obtain ⟨a, b⟩ := x
    by_cases h : k == a
    · simp [List.lookup, h]
    · have h2 : (k == a) = false := by simpa using h
      simp only [List.cons_append, List.lookup, h2]
      exact ih

/-- The value found in a block after `insert`: the value that was there, or the
inserted one when the key was absent. -/
theorem lookup_mapInsert (b : ConfigBlock) (k v k1 : String) :
    (mapInsert b k v).lookup k1 = match b.lookup k1 with
      | some x => some x
      | none => if k1 = k then some v else none := by
  unfold mapInsert
  cases hk : b.lookup k with
  | some x =>
    simp only
    cases hk1 : b.lookup k1 with
    | some y => rfl
    | none =>
      have hne : k1 ≠ k := fun e => by rw [e, hk] at hk1; cases hk1
      simp [hne]
  | none =>
    simp only
    rw [lookup_append]
    cases hk1 : b.lookup k1 with
    | some y => rfl
    | none =>
      by_cases e : k1 = k
      · subst e; simp [List.lookup]
      · have e2 : (k1 == k) = false := by simpa using e
        simp [List.lookup, e, e2]

theorem mapInsert_ne_nil (b : ConfigBlock) (k v : String) : mapInsert b k v ≠ [] := by
  unfold mapInsert
  cases hk : b.lookup k with
  | some x =>
    simp only
    intro h
    rw [h] at hk
    cases hk
  | none => simp

theorem foldl_mapInsert_ne_nil (ls : List String) (b : ConfigBlock) (hb : b ≠ []) :
    ls.foldl (fun b l => mapInsert b (keyValue l).1 (keyValue l).2) b ≠ [] := by
  induction ls generalizing b with
  | nil => exact hb
  | cons l ls ih => exact ih _ (mapInsert_ne_nil b _ _)

theorem sectionBlock_ne_nil (s : String × List String) : sectionBlock s ≠ [] :=
  foldl_mapInsert_ne_nil _ _ (by simp)

/-- An entry of a block survives later insertions. -/
theorem foldl_mapInsert_lookup (ls : List String) (b : ConfigBlock) (k v : String)
    (h : b.lookup k = some v) :
    (ls.foldl (fun b l => mapInsert b (keyValue l).1 (keyValue l).2) b).lookup k = some v := by
  induction ls generalizing b with
  | nil => exact h
  | cons l ls ih =>
    apply ih
    rw [lookup_mapInsert, h]

/-- A key that none of the inserted lines has stays absent. -/
theorem foldl_mapInsert_lookup_none (ls : List String) (b : ConfigBlock) (k : String)
    (h : b.lookup k = none) (hk : ∀ l ∈ ls, (keyValue l).1 ≠ k) :
    (ls.foldl (fun b l => mapInsert b (keyValue l).1 (keyValue l).2) b).lookup k = none := by
  induction ls generalizing b with
  | nil => exact h
  | cons l ls ih =>
    apply ih
    · rw [lookup_mapInsert, h]
      have := hk l (List.mem_cons_self _ _)
      simp [Ne.symm this]
    · exact fun l1 h1 => hk l1 (List.mem_cons_of_mem _ h1)

/-- The lines of a section body, none of them a header, go to the block in
progress. -/
theorem foldl_parseLine_body (body : List String) (hbody : ∀ l ∈ body, isHeader l = false)
    (blocks : List ConfigBlock) (b : ConfigBlock) :
    body.foldl parseLine (blocks, b)
      = (blocks, (body.filter fun l => !skipLine l).foldl
          (fun b l => mapInsert b (keyValue l).1 (keyValue l).2) b) := by
  induction body generalizing b with
  | nil => rfl
  | cons l ls ih =>
    have hl := hbody l (List.mem_cons_self _ _)
    have hls : ∀ l1 ∈ ls, isHeader l1 = false := fun l1 h1 => hbody l1 (List.mem_cons_of_mem _ h1)
    rw [List.foldl_cons]
    cases hs : skipLine l with
    | true =>
      rw [parseLine_skip _ _ hs, ih hls]
      simp [List.filter, hs]
    | false =>
      rw [parseLine_keyValue _ _ hs hl, ih hls]
      simp [List.filter, hs]

theorem foldl_parseLine_section (s : String × List String) (hh : isHeader s.1 = true)
    (hbody : ∀ l ∈ s.2, isHeader l = false) (blocks : List ConfigBlock) (b : ConfigBlock) :
    (s.1 :: s.2).foldl parseLine (blocks, b)
      = (if b = [] then blocks else blocks ++ [b], sectionBlock s) := by
  rw [List.foldl_cons, parseLine_header _ _ hh, foldl_parseLine_body _ hbody]
  rfl

/-- The sections of a text after a block in progress that is not empty. -/
theorem foldl_parseLine_sections (sections : List (String × List String))
    (hsec : ∀ s ∈ sections, isHeader s.1 = true ∧ ∀ l ∈ s.2, isHeader l = false)
    (blocks : List ConfigBlock) (b : ConfigBlock) (hb : b ≠ []) :
    ((sectionLines sections).foldl parseLine (blocks, b)).1
        ++ [((sectionLines sections).foldl parseLine (blocks, b)).2]
      = blocks ++ [b] ++ sections.map sectionBlock := by
  induction sections generalizing blocks b with
  | nil => simp [sectionLines]
  | cons s ss ih =>
    have hs := hsec s (List.mem_cons_self _ _)
    have hss : ∀ t ∈ ss, isHeader t.1 = true ∧ ∀ l ∈ t.2, isHeader l = false :=
      fun t ht => hsec t (List.mem_cons_of_mem _ ht)
    have e : sectionLines (s :: ss) = (s.1 :: s.2) ++ sectionLines ss := by
      simp [sectionLines]
    rw [e, List.foldl_append, foldl_parseLine_section s hs.1 hs.2, if_neg hb,
      ih hss _ _ (sectionBlock_ne_nil s)]
    simp

theorem foldl_parseLine_skipped (pre : List String) (hpre : ∀ l ∈ pre, skipLine l = true)
    (st : List ConfigBlock × ConfigBlock) : pre.foldl parseLine st = st := by
  induction pre with
  | nil => rfl
  | cons l ls ih =>
    rw [List.foldl_cons, parseLine_skip _ _ (hpre l (List.mem_cons_self _ _))]
    exact ih fun l1 h1 => hpre l1 (List.mem_cons_of_mem _ h1)

/-- The blocks of a text made of skipped lines followed by sections. -/
theorem parseConfigFile_eq_sections (pre : List String)
    (sections : List (String × List String)) (hpre : ∀ l ∈ pre, skipLine l = true)
    (hne : sections ≠ [])
    (hsec : ∀ s ∈ sections, isHeader s.1 = true ∧ ∀ l ∈ s.2, isHeader l = false) :
    parseConfigFile (pre ++ sectionLines sections) = sections.map sectionBlock := by
  cases sections with
  | nil => exact absurd rfl hne
  | cons s ss =>
    have hs := hsec s (List.mem_cons_self _ _)
    have hss : ∀ t ∈ ss, isHeader t.1 = true ∧ ∀ l ∈ t.2, isHeader l = false :=
      fun t ht => hsec t (List.mem_cons_of_mem _ ht)
    have e : sectionLines (s :: ss) = (s.1 :: s.2) ++ sectionLines ss := by
      simp [sectionLines]
    unfold parseConfigFile
    simp only
    rw [List.foldl_append, foldl_parseLine_skipped pre hpre, e, List.foldl_append,
      foldl_parseLine_section s hs.1 hs.2, if_pos rfl,
      foldl_parseLine_sections ss hss _ _ (sectionBlock_ne_nil s)]
    simp

/-- C11, as the code has it: for a text made of skipped lines followed by
sections, each a header line and the lines up to the next header,
`parseConfigFile` returns exactly one block per header line, in header order.
The `type` of the block of a header is the trimmed text between the first and
the last character of the trimmed header line, which is the text between the
brackets when the line ends with `]`.  A line of a section that is not skipped
is inserted into the block of that section: its key is present in the block,
with the line's value when the key is not `type` and no earlier line of the
section has it (a key that the block already holds keeps its value). -/
theorem parseConfigFile_sections (pre : List String) (sections : List (String × List String))
    (hpre : ∀ l ∈ pre, skipLine l = true) (hne : sections ≠ [])
    (hsec : ∀ s ∈ sections, isHeader s.1 = true ∧ ∀ l ∈ s.2, isHeader l = false) :
    parseConfigFile (pre ++ sectionLines sections) = sections.map sectionBlock ∧
      (parseConfigFile (pre ++ sectionLines sections)).length = sections.length ∧
      (∀ (k : Nat) (s : String × List String), sections[k]? = some s →
        ∃ b : ConfigBlock, (parseConfigFile (pre ++ sectionLines sections))[k]? = some b ∧
          b.lookup "type" = some (headerType s.1) ∧
          ∀ (before : List String) (l : String) (after : List String),
            s.2 = before ++ l :: after → skipLine l = false →
            (b.lookup (keyValue l).1).isSome = true ∧
            ((keyValue l).1 ≠ "type" →
              (∀ l1 ∈ before, skipLine l1 = false → (keyValue l1).1 ≠ (keyValue l).1) →
              b.lookup (keyValue l).1 = some (keyValue l).2)) ∧
      (∀ (line : String) (t : List Char), trimChars line.data = '[' :: (t ++ [']']) →
        headerType line = ⟨trimChars t⟩) := by
  have heq := parseConfigFile_eq_sections pre sections hpre hne hsec
  refine ⟨heq, by rw [heq, List.length_map], ?_, ?_⟩
  · intro k s hk
    refine ⟨sectionBlock s, by rw [heq, List.getElem?_map, hk]; rfl, ?_, ?_⟩
    · exact foldl_mapInsert_lookup _ _ "type" _ (by simp [List.lookup])
    · intro before l after hbody hskip
      have hfilter : (s.2.filter fun l => !skipLine l)
          = (before.filter fun l => !skipLine l) ++ l :: (after.filter fun l => !skipLine l) := by
        rw [hbody, List.filter_append, List.filter_cons]
        simp [hskip]
      have hblock : sectionBlock s
          = (after.filter fun l => !skipLine l).foldl
              (fun b l => mapInsert b (keyValue l).1 (keyValue l).2)
              (mapInsert ((before.filter fun l => !skipLine l).foldl
                (fun b l => mapInsert b (keyValue l).1 (keyValue l).2)
                [("type", headerType s.1)]) (keyValue l).1 (keyValue l).2) := by
        unfold sectionBlock
        rw [hfilter, List.foldl_append, List.foldl_cons]
      constructor
      · rw [hblock]
        cases hprev : ((before.filter fun l => !skipLine l).foldl
            (fun b l => mapInsert b (keyValue l).1 (keyValue l).2)
            [("type", headerType s.1)]).lookup (keyValue l).1 with
        | some v =>
          rw [foldl_mapInsert_lookup _ _ _ v (by rw [lookup_mapInsert, hprev])]
          rfl
        | none =>
          rw [foldl_mapInsert_lookup _ _ _ (keyValue l).2 (by rw [lookup_mapInsert, hprev]; simp)]
          rfl
      · intro htype hfresh
        rw [hblock]
        apply foldl_mapInsert_lookup
        have hnone := foldl_mapInsert_lookup_none (before.filter fun l => !skipLine l)
          [("type", headerType s.1)] (keyValue l).1
          (by
            have : ((keyValue l).1 == "type") = false := by simpa using htype
            simp [List.lookup, this])
          (by
            intro l1 h1
            obtain ⟨hm, hs1⟩ := List.mem_filter.mp h1
            exact hfresh l1 hm (by simpa using hs1))
        rw [lookup_mapInsert, hnone]
        simp
  · intro line t ht
    unfold headerType
    rw [ht]
    simp

theorem parseConfigFile_sections_witness :
    parseConfigFile sampleConfig
      = [ [("type", "net"), ("channels", "3"), ("height", "416"), ("width", "416")],
          [("type", "convolutional"), ("filters", "16"), ("size", "3"), ("stride", "1"),
            ("activation", "leaky")],
          [("type", "yolo"), ("anchors", "10,14, 23,27, 37,58"), ("classes", "1"),
            ("num", "3")] ] := by
  have h := (parseConfigFile_sections ["# sample"]
    [ ("[net]", ["channels=3", " batch=1", "height = 416", "width=416", ""]),
      ("[convolutional]", ["filters=16", "size=3", "stride=1", "activation=leaky"]),
      ("[yolo]", ["anchors = 10,14, 23,27, 37,58", "classes=1", "num=3"]) ]
    (by decide) (by decide) (by decide)).1
  have e : parseConfigFile sampleConfig = parseConfigFile (["# sample"] ++ sectionLines
    [ ("[net]", ["channels=3", " batch=1", "height = 416", "width=416", ""]),
      ("[convolutional]", ["filters=16", "size=3", "stride=1", "activation=leaky"]),
      ("[yolo]", ["anchors = 10,14, 23,27, 37,58", "classes=1", "num=3"]) ]) := rfl
  rw [e, h]
  decide

/-- C11 as stated fails: a second line with the key `width` is not stored in any
block, and the `type` of the header line `[net] #c` is `net] #`, not `net`. -/
theorem parseConfigFile_keeps_first_value :
    parseConfigFile ["[net]", "width=416", "width=608"]
        = [[("type", "net"), ("width", "416")]] ∧
      (∀ b ∈ parseConfigFile ["[net]", "width=416", "width=608"],
        b.lookup "width" ≠ some "608") ∧
      parseConfigFile ["[net] #c"] = [[("type", "net] #")]] := by
  decide

/-- C12, as the code has it: for every text and every line `L` that is empty,
begins with a space, or begins with `#`, inserting `L` at any line position
leaves the result of `parseConfigFile` unchanged. -/
theorem skipped_line_ignored (pre post : List String) (L : String)
    (hL : L.data = [] ∨ L.data.head? = some ' ' ∨ L.data.head? = some '#') :
    parseConfigFile (pre ++ L :: post) = parseConfigFile (pre ++ post) := by
  have hskip : skipLine L = true := by
    unfold skipLine
    rcases hL with h | h | h
    · simp [h]
    · simp [h]
    · simp [h]
  unfold parseConfigFile
  simp only [List.foldl_append, List.foldl_cons, parseLine_skip _ _ hskip]

theorem skipped_line_ignored_witness :
    parseConfigFile (["[net]", "width=416"] ++ " height=416" :: ["[yolo]"])
      = parseConfigFile (["[net]", "width=416"] ++ ["[yolo]"]) :=
  skipped_line_ignored ["[net]", "width=416"] ["[yolo]"] " height=416" (Or.inr (Or.inl rfl))

/-- C12 as stated fails for a line that begins with a tab: it is not skipped, and
inserting it adds an attribute. -/
theorem tab_line_not_skipped :
    ("\tbatch=1".data.head? = some (Char.ofNat 9)) ∧ isSpace (Char.ofNat 9) = true ∧
      parseConfigFile (["[net]"] ++ "\tbatch=1" :: []) = [[("type", "net"), ("batch", "1")]] ∧
      parseConfigFile (["[net]"] ++ []) = [[("type", "net")]] ∧
      parseConfigFile (["[net]"] ++ "\tbatch=1" :: []) ≠ parseConfigFile (["[net]"] ++ []) := by
  decide

/-- C13: a line that is neither skipped nor a header and holds an `=` is split at
the first `=` only: with `before` the text before the first `=` and `after`
the text after it, later `=` included, the round of the line loop inserts the
key `trim(before)` with the value `trim(after)` into the block in progress, and
so does `parseConfigFile` for a text that ends with the line. -/
theorem key_value_split (st : List ConfigBlock × ConfigBlock) (pre : List String)
    (line : String) (before after : List Char)
    (hline : line.data = before ++ '=' :: after) (hfirst : '=' ∉ before)
    (hs : skipLine line = false) (hh : isHeader line = false) :
    parseLine st line = (st.1, mapInsert st.2 ⟨trimChars before⟩ ⟨trimChars after⟩) ∧
      parseConfigFile (pre ++ [line])
        = (pre.foldl parseLine ([], [])).1
            ++ [mapInsert (pre.foldl parseLine ([], [])).2 ⟨trimChars before⟩
                  ⟨trimChars after⟩] := by
  have hkv : keyValue line = (⟨trimChars before⟩, ⟨trimChars after⟩) := by
    unfold keyValue
    obtain ⟨t1, t2⟩ := takeWhile_ne_append before after hfirst
    rw [if_pos (by rw [hline]; simp), hline, t1, t2]
    rfl
  have hstep : ∀ s : List ConfigBlock × ConfigBlock,
      parseLine s line = (s.1, mapInsert s.2 ⟨trimChars before⟩ ⟨trimChars after⟩) := by
    intro s
    rw [parseLine_keyValue s line hs hh, hkv]
  refine ⟨hstep st, ?_⟩
  unfold parseConfigFile
  simp only [List.foldl_append, List.foldl_cons, List.foldl_nil, hstep]

theorem key_value_split_witness :
    parseLine ([], [("type", "net")]) "a = b=c" = ([], [("type", "net"), ("a", "b=c")]) ∧
      parseConfigFile (["[net]"] ++ ["a = b=c"]) = [[("type", "net"), ("a", "b=c")]] :=
  have h := key_value_split ([], [("type", "net")]) ["[net]"] "a = b=c" ['a', ' ']
    [' ', 'b', '=', 'c'] rfl (by decide) (by decide) (by decide)
  ⟨h.1.trans (by decide), h.2.trans (by decide)⟩

/-- C14: for every text, `parseConfigFile` returns a list that is not empty and
whose last element is the block in progress at the end of the input; for a
text in which every line is skipped, the empty text included, the result is
exactly one block with no attribute at all. -/
theorem final_block_flushed (lines : List String) :
    parseConfigFile lines ≠ [] ∧
      (parseConfigFile lines).getLast? = some (lines.foldl parseLine ([], [])).2 ∧
      ((∀ l ∈ lines, skipLine l = true) → parseConfigFile lines = [[]]) := by
  refine ⟨?_, ?_, ?_⟩
  · unfold parseConfigFile
    simp
  · unfold parseConfigFile
    simp
  · intro h
    unfold parseConfigFile
    simp only [foldl_parseLine_skipped lines h]
    rfl

theorem final_block_flushed_witness :
    parseConfigFile ["# only a comment", "", " indented=1"] = [[]] ∧
      parseConfigFile [] = [[]] ∧
      ([] : ConfigBlock).lookup "type" = none :=
  ⟨(final_block_flushed ["# only a comment", "", " indented=1"]).2.2 (by decide),
    (final_block_flushed []).2.2 (by decide), rfl⟩

/-! ## The attribute pass -/

theorem takeWhile_append_stop {α : Type} (p : α → Bool) (xs : List α) (y : α) (ys : List α)
    (hxs : ∀ x ∈ xs, p x = true) (hy : p y = false) :
    (xs ++ y :: ys).takeWhile p = xs := by
  induction xs with
  | nil => rw [List.nil_append, List.takeWhile_cons, hy]; rfl
  | cons x xs ih =>
    rw [List.cons_append, List.takeWhile_cons, if_pos (hxs x (List.mem_cons_self _ _)),
      ih fun z hz => hxs z (List.mem_cons_of_mem _ hz)]

theorem notComma_iff (c : Char) : notComma c = true ↔ c ≠ ',' := by
  unfold notComma
  simp

theorem findComma_none (s : List Char) (h : ',' ∉ s) : findComma s = none := by
  unfold findComma
  rw [if_neg h]

theorem findComma_join (f rest : List Char) (h : ',' ∉ f) :
    findComma (f ++ ',' :: rest) = some f.length := by
  unfold findComma
  rw [if_pos (by simp), takeWhile_append_stop notComma f ',' rest
    (fun x hx => (notComma_iff x).mpr fun e => h (e ▸ hx)) (by decide)]

theorem joinComma_cons_cons (f g : List Char) (rest : List (List Char)) :
    joinComma (f :: g :: rest) = f ++ ',' :: joinComma (g :: rest) := rfl

/-- The field loop over fields joined by commas converts the fields in order. -/
theorem parseFields_join {α : Type} (conv : String → Option α) (fields : List (List Char)) :
    (∀ f ∈ fields, ',' ∉ f) → fields.getLast? ≠ some [] →
    ∀ (fuel : Nat) (acc out : List α), (joinComma fields).length ≤ fuel →
      parseFields conv fuel (joinComma fields) acc = .ok out →
      ∃ vs, out = acc ++ vs ∧ List.Forall₂ (fun f v => conv ⟨trimChars f⟩ = some v) fields vs := by
  induction fields with
  | nil =>
    intro _ _ fuel acc out _ h
    cases fuel with
    | zero =>
      simp only [joinComma, parseFields, if_true] at h
      exact ⟨[], by rw [← Except.ok.inj h]; simp, List.Forall₂.nil⟩
    | succ n =>
      simp only [joinComma, parseFields, if_true] at h
      exact ⟨[], by rw [← Except.ok.inj h]; simp, List.Forall₂.nil⟩
  | cons f rest ih =>
    intro hcomma hlast fuel acc out hfuel h
    have hf : ',' ∉ f := hcomma f (List.mem_cons_self _ _)
    cases rest with
    | nil =>
      have hne : f ≠ [] := fun e => hlast (by rw [e]; rfl)
      have hjoin : joinComma [f] = f := rfl
      rw [hjoin] at h hfuel
      cases fuel with
      | zero =>
        have : f.length = 0 := Nat.le_zero.mp hfuel
        exact absurd (List.length_eq_zero.mp this) hne
      | succ n =>
        rw [parseFields, if_neg hne, findComma_none f hf] at h
        simp only at h
        cases hc : conv ⟨trimChars f⟩ with
        | none => rw [hc] at h; cases h
        | some v =>
          rw [hc] at h
          exact ⟨[v], (Except.ok.inj h).symm, List.Forall₂.cons hc List.Forall₂.nil⟩
    | cons g rest2 =>
      rw [joinComma_cons_cons] at h hfuel
      cases fuel with
      | zero =>
        rw [List.length_append, List.length_cons] at hfuel
        omega
      | succ n =>
        rw [parseFields, if_neg (by simp), findComma_join f _ hf] at h
        simp only [List.take_left, drop_past] at h
        cases hc : conv ⟨trimChars f⟩ with
        | none => rw [hc] at h; cases h
        | some v =>
          rw [hc] at h
          simp only at h
          have hfuel2 : (joinComma (g :: rest2)).length ≤ n := by
            rw [List.length_append, List.length_cons] at hfuel
            omega
          obtain ⟨vs, hout, hall⟩ := ih (fun x hx => hcomma x (List.mem_cons_of_mem _ hx))
            (by simpa [List.getLast?_cons_cons] using hlast) n (acc ++ [v]) out hfuel2 h
          exact ⟨v :: vs, by rw [hout]; simp, List.Forall₂.cons hc hall⟩

/-- The field loop never runs out of rounds. -/
theorem parseFields_fuel {α : Type} (conv : String → Option α) (fuel : Nat) :
    ∀ (s : List Char) (acc : List α), s.length ≤ fuel →
      parseFields conv fuel s acc ≠ .error .undefined := by
  induction fuel with
  | zero =>
    intro s acc hs
    have : s = [] := List.length_eq_zero.mp (Nat.le_zero.mp hs)
    rw [this, parseFields, if_pos rfl]
    intro h; cases h
  | succ n ih =>
    intro s acc hs
    rw [parseFields]
    split
    · intro h; cases h
    · split
      · rename_i npos _
        split
        · intro h; cases h
        · apply ih
          rw [List.length_drop]
          omega
      · split
        · intro h; cases h
        · intro h; cases h

theorem blockAt_ok (b : ConfigBlock) (k v : String) :
    blockAt b k = .ok v ↔ b.lookup k = some v := by
  unfold blockAt
  cases b.lookup k with
  | none => simp
  | some x => simp

theorem assertKey_ok (b : ConfigBlock) (k : String) (u : Unit) :
    assertKey b k = .ok u ↔ b.lookup k ≠ none := by
  unfold assertKey
  cases b.lookup k with
  | none => simp
  | some x => simp

theorem assertKey_none (b : ConfigBlock) (k : String) (h : b.lookup k = none) :
    assertKey b k = .error .assertion := by
  unfold assertKey
  rw [h]

theorem assertKey_cases (b : ConfigBlock) (k : String) :
    assertKey b k = .ok () ∨ assertKey b k = .error .assertion := by
  unfold assertKey
  cases b.lookup k with
  | none => exact Or.inr rfl
  | some x => exact Or.inl rfl

theorem orThrow_ok {α : Type} (o : Option α) (a : α) : orThrow o = .ok a ↔ o = some a := by
  unfold orThrow
  cases o with
  | none => simp
  | some x => simp

theorem error_bind {α β : Type} (e : Fault) (f : α → Except Fault β) :
    (Except.error e : Except Fault α).bind f = .error e := rfl

theorem isHeadBlock_iff (b : ConfigBlock) :
    isHeadBlock b = true ↔ b.lookup "type" = some "region" ∨ b.lookup "type" = some "yolo" := by
  unfold isHeadBlock
  simp

/-- A `net` block that lacks a required key fails an assertion. -/
theorem parseConfigBlock_net_lacking (stof : String → Option Nat) (y : Yolo) (b : ConfigBlock)
    (ht : b.lookup "type" = some "net")
    (hl : b.lookup "channels" = none ∨ b.lookup "height" = none ∨ b.lookup "width" = none) :
    parseConfigBlock stof y b = .error .assertion := by
  unfold parseConfigBlock
  rw [(blockAt_ok b "type" "net").mpr ht, ok_bind, if_pos rfl]
  rcases assertKey_cases b "channels" with h1 | h1
  · rw [h1, ok_bind]
    rcases assertKey_cases b "height" with h2 | h2
    · rw [h2, ok_bind]
      rcases assertKey_cases b "width" with h3 | h3
      · rcases hl with h | h | h
        · exact absurd h ((assertKey_ok b _ ()).mp h1)
        · exact absurd h ((assertKey_ok b _ ()).mp h2)
        · exact absurd h ((assertKey_ok b _ ()).mp h3)
      · rw [h3]; rfl
    · rw [h2]; rfl
  · rw [h1]; rfl

/-- A detection-head block that lacks a required key fails an assertion. -/
theorem parseConfigBlock_head_lacking (stof : String → Option Nat) (y : Yolo) (b : ConfigBlock)
    (ht : isHeadBlock b = true)
    (hl : b.lookup "num" = none ∨ b.lookup "classes" = none ∨ b.lookup "anchors" = none) :
    parseConfigBlock stof y b = .error .assertion := by
  unfold parseConfigBlock
  have hkind : ∃ type, b.lookup "type" = some type ∧ type ≠ "net"
      ∧ (type = "region" ∨ type = "yolo") := by
    rcases (isHeadBlock_iff b).mp ht with h | h
    · exact ⟨"region", h, by decide, Or.inl rfl⟩
    · exact ⟨"yolo", h, by decide, Or.inr rfl⟩
  obtain ⟨type, hty, hnet, hhead⟩ := hkind
  rw [(blockAt_ok b "type" type).mpr hty, ok_bind, if_neg hnet, if_pos hhead]
  rcases assertKey_cases b "num" with h1 | h1
  · rw [h1, ok_bind]
    rcases assertKey_cases b "classes" with h2 | h2
    · rw [h2, ok_bind]
      rcases assertKey_cases b "anchors" with h3 | h3
      · rcases hl with h | h | h
        · exact absurd h ((assertKey_ok b _ ()).mp h1)
        · exact absurd h ((assertKey_ok b _ ()).mp h2)
        · exact absurd h ((assertKey_ok b _ ()).mp h3)
      · rw [h3]; rfl
    · rw [h2]; rfl
  · rw [h1]; rfl

theorem parseConfigBlock_lacking (stof : String → Option Nat) (y : Yolo) (b : ConfigBlock)
    (h : lacksRequiredKey b) : parseConfigBlock stof y b = .error .assertion := by
  rcases h with ⟨ht, hl⟩ | ⟨ht, hl⟩
  · exact parseConfigBlock_net_lacking stof y b ht hl
  · exact parseConfigBlock_head_lacking stof y b ht hl

/-- A loop with a round that fails in every state does not complete. -/
theorem forEachE_error {σ α : Type} (body : σ → α → Except Fault σ) (xs : List α) (a : α)
    (ha : a ∈ xs) (hfail : ∀ s, ∃ f, body s a = .error f) :
    ∀ s, ∃ f, forEachE body xs s = .error f := by
  induction xs with
  | nil => cases ha
  | cons x xs ih =>
    intro s
    rw [forEachE]
    cases hx : body s x with
    | error e => exact ⟨e, rfl⟩
    | ok s1 =>
      rw [ok_bind]
      rcases List.mem_cons.mp ha with h | h
      · obtain ⟨f, hf⟩ := hfail s
        rw [h, hx] at hf
        cases hf
      · exact ih h s1

/-- What a completed round of the attribute pass does for a detection-head
block: one descriptor is pushed and the head count goes up by one. -/
theorem parseConfigBlock_head (stof : String → Option Nat) (y y1 : Yolo) (b : ConfigBlock)
    (ht : isHeadBlock b = true) (h : parseConfigBlock stof y b = .ok y1) :
    ∃ d, outputTensorOf stof b = .ok d ∧ y1.m_YoloTensors = y.m_YoloTensors ++ [d] ∧
      y1.m_YoloCount = toUint (y.m_YoloCount + 1) ∧
      ∃ classes, (b.lookup "classes").bind stoul = some classes ∧
        y1.m_NumClasses = toUint classes := by
  have hkind : ∃ type, b.lookup "type" = some type ∧ type ≠ "net"
      ∧ (type = "region" ∨ type = "yolo") := by
    rcases (isHeadBlock_iff b).mp ht with h | h
    · exact ⟨"region", h, by decide, Or.inl rfl⟩
    · exact ⟨"yolo", h, by decide, Or.inr rfl⟩
  obtain ⟨type, hty, hnet, hhead⟩ := hkind
  unfold parseConfigBlock at h
  rw [(blockAt_ok b "type" type).mpr hty, ok_bind, if_neg hnet, if_pos hhead] at h
  rw [bind_eq_ok] at h
  obtain ⟨_, _, h⟩ := h
  rw [bind_eq_ok] at h
  obtain ⟨_, _, h⟩ := h
  rw [bind_eq_ok] at h
  obtain ⟨_, _, h⟩ := h
  dsimp only at h
  rw [bind_eq_ok] at h
  obtain ⟨classes, hc, h⟩ := h
  rw [bind_eq_ok] at hc
  obtain ⟨s, hs, hc⟩ := hc
  rw [bind_eq_ok] at h
  obtain ⟨y2, hy2, h⟩ := h
  rw [bind_eq_ok] at h
  obtain ⟨d, hd, h⟩ := h
  have hy1 := (Except.ok.inj h).symm
  have hy2' : y2.m_YoloTensors = y.m_YoloTensors ∧ y2.m_YoloCount = toUint (y.m_YoloCount + 1)
      ∧ y2.m_NumClasses = toUint classes := by
    split at hy2
    · rw [bind_eq_ok] at hy2
      obtain ⟨v, _, hy2⟩ := hy2
      rw [← Except.ok.inj hy2]
      exact ⟨rfl, rfl, rfl⟩
    · rw [← Except.ok.inj hy2]
      exact ⟨rfl, rfl, rfl⟩
  refine ⟨d, hd, ?_, ?_, classes, ?_, ?_⟩
  · rw [hy1]; simp only; rw [hy2'.1]
  · rw [hy1]; exact hy2'.2.1
  · rw [(blockAt_ok b _ s).mp hs]
    exact (orThrow_ok _ _).mp hc
  · rw [hy1]; exact hy2'.2.2

/-- A completed round of the attribute pass for a block that is not a detection
head leaves the descriptors and the head count alone. -/
theorem parseConfigBlock_other (stof : String → Option Nat) (y y1 : Yolo) (b : ConfigBlock)
    (ht : isHeadBlock b = false) (h : parseConfigBlock stof y b = .ok y1) :
    y1.m_YoloTensors = y.m_YoloTensors ∧ y1.m_YoloCount = y.m_YoloCount := by
  unfold parseConfigBlock at h
  rw [bind_eq_ok] at h
  obtain ⟨type, hty, h⟩ := h
  have hty2 := (blockAt_ok b _ _).mp hty
  have hnh : ¬ (type = "region" ∨ type = "yolo") := by
    intro hh
    have : isHeadBlock b = true := by
      rw [isHeadBlock_iff, hty2]
      rcases hh with e | e
      · exact Or.inl (by rw [e])
      · exact Or.inr (by rw [e])
    rw [ht] at this
    cases this
  by_cases hnet : type = "net"
  · rw [if_pos hnet] at h
    repeat (rw [bind_eq_ok] at h; obtain ⟨_, _, h⟩ := h)
    split at h
    · rw [bind_eq_ok] at h
      obtain ⟨_, _, h⟩ := h
      rw [← Except.ok.inj h]
      exact ⟨rfl, rfl⟩
    · rw [← Except.ok.inj h]
      exact ⟨rfl, rfl⟩
  · rw [if_neg hnet, if_neg hnh] at h
    rw [← Except.ok.inj h]
    exact ⟨rfl, rfl⟩

/-- The descriptors after the attribute pass: those that were there, followed
by one descriptor per detection-head block, in block order. -/
theorem forEachE_descriptors (stof : String → Option Nat) (blocks : List ConfigBlock) :
    ∀ y y1 : Yolo, y.m_YoloCount < 4294967296 →
      forEachE (parseConfigBlock stof) blocks y = .ok y1 →
      ∃ descs, y1.m_YoloTensors = y.m_YoloTensors ++ descs ∧
        List.Forall₂ (fun b d => outputTensorOf stof b = .ok d)
          (blocks.filter isHeadBlock) descs ∧
        y1.m_YoloCount = toUint (y.m_YoloCount + descs.length) := by
  induction blocks with
  | nil =>
    intro y y1 hc h
    rw [forEachE] at h
    refine ⟨[], ?_, List.Forall₂.nil, ?_⟩
    · rw [← Except.ok.inj h]; simp
    · rw [← Except.ok.inj h]
      exact (toUint_of_lt _ hc).symm
  | cons b bs ih =>
    intro y y1 hc h
    rw [forEachE, bind_eq_ok] at h
    obtain ⟨y2, hstep, hrest⟩ := h
    cases hb : isHeadBlock b with
    | true =>
      obtain ⟨d, hd, ht, hcount, _⟩ := parseConfigBlock_head stof y y2 b hb hstep
      have hc2 : y2.m_YoloCount < 4294967296 := by
        rw [hcount]; unfold toUint; omega
      obtain ⟨descs, h1, h2, h3⟩ := ih y2 y1 hc2 hrest
      refine ⟨d :: descs, ?_, ?_, ?_⟩
      · rw [h1, ht]; simp
      · rw [List.filter_cons, hb]
        exact List.Forall₂.cons hd h2
      · rw [h3, hcount, List.length_cons]
        unfold toUint
        omega
    | false =>
      obtain ⟨ht, hcount⟩ := parseConfigBlock_other stof y y2 b hb hstep
      have hc2 : y2.m_YoloCount < 4294967296 := by rw [hcount]; exact hc
      obtain ⟨descs, h1, h2, h3⟩ := ih y2 y1 hc2 hrest
      refine ⟨descs, ?_, ?_, ?_⟩
      · rw [h1, ht]
      · rw [List.filter_cons, hb]
        exact h2
      · rw [h3, hcount]

theorem forall₂_getElem? {α β : Type} (R : α → β → Prop) (xs : List α) (ys : List β)
    (h : List.Forall₂ R xs ys) (k : Nat) (x : α) (hx : xs[k]? = some x) :
    ∃ y, ys[k]? = some y ∧ R x y := by
  induction h generalizing k with
  | nil => simp at hx
  | cons hr _ ih =>
    cases k with
    | zero =>
      simp only [List.getElem?_cons_zero, Option.some.injEq] at hx
      subst hx
      exact ⟨_, by simp, hr⟩
    | succ j =>
      simp only [List.getElem?_cons_succ] at hx
      obtain ⟨y, hy, hr2⟩ := ih j hx
      exact ⟨y, by simpa using hy, hr2⟩

/-- What a descriptor built by `outputTensorOf` holds. -/
theorem outputTensorOf_ok (stof : String → Option Nat) (b : ConfigBlock) (d : TensorInfo)
    (h : outputTensorOf stof b = .ok d) :
    (∃ a, b.lookup "anchors" = some a ∧
        parseFields stof a.data.length a.data [] = .ok d.anchors) ∧
      (∀ m, b.lookup "mask" = some m →
        parseFields maskEntry m.data.length m.data [] = .ok d.mask) ∧
      (b.lookup "mask" = none → d.mask = []) ∧
      (∀ s, b.lookup "scale_x_y" = some s → stof s = some d.scaleXY) ∧
      (b.lookup "scale_x_y" = none → d.scaleXY = floatOne) ∧
      (d.mask ≠ [] → d.numBBoxes = toUint d.mask.length) ∧
      (d.mask = [] → ∃ s n, b.lookup "num" = some s ∧ stoul (trim s) = some n ∧
        d.numBBoxes = toUint n) := by
  unfold outputTensorOf at h
  dsimp only at h
  rw [bind_eq_ok] at h
  obtain ⟨a, ha, h⟩ := h
  rw [bind_eq_ok] at h
  obtain ⟨anchors, hanchors, h⟩ := h
  rw [bind_eq_ok] at h
  obtain ⟨mask, hmask, h⟩ := h
  rw [bind_eq_ok] at h
  obtain ⟨scale, hscale, h⟩ := h
  rw [bind_eq_ok] at h
  obtain ⟨nb, hnb, h⟩ := h
  have hd := (Except.ok.inj h).symm
  have e1 : d.anchors = anchors := by rw [hd]
  have e2 : d.mask = mask := by rw [hd]
  have e3 : d.scaleXY = scale := by rw [hd]
  have e4 : d.numBBoxes = toUint nb := by rw [hd]
  refine ⟨⟨a, (blockAt_ok b _ _).mp ha, by rw [e1]; exact hanchors⟩, ?_, ?_, ?_, ?_, ?_, ?_⟩
  · intro m hm
    rw [hm] at hmask
    rw [e2]; exact hmask
  · intro hm
    rw [hm] at hmask
    rw [e2, ← Except.ok.inj hmask]
    rfl
  · intro s hs
    rw [hs] at hscale
    rw [e3]; exact (orThrow_ok _ _).mp hscale
  · intro hs
    rw [hs] at hscale
    rw [e3, ← Except.ok.inj hscale]
  · intro hne
    rw [e2] at hne
    have hpos : mask.length > 0 := List.length_pos.mpr hne
    rw [if_pos hpos] at hnb
    rw [e4, e2, ← Except.ok.inj hnb]
  · intro hnil
    rw [e2] at hnil
    have hpos : ¬ mask.length > 0 := by rw [hnil]; exact Nat.lt_irrefl 0
    rw [if_neg hpos, bind_eq_ok] at hnb
    obtain ⟨s, hs, hn⟩ := hnb
    exact ⟨s, nb, (blockAt_ok b _ _).mp hs, (orThrow_ok _ _).mp hn, e4⟩

/-- C15, as the code has it: for every detection-head block `b` of a document
that `parseConfigBlocks` completes, the descriptor pushed for `b` has box
count equal to the number of entries of the `mask` attribute whenever that
attribute is present and has at least one entry, and equal to the `num`
attribute when the `mask` attribute is absent or has no entry. -/
theorem box_count (stof : String → Option Nat) (y y1 : Yolo)
    (hc : y.m_YoloCount < 4294967296) (hrun : parseConfigBlocks stof y = .ok y1)
    (k : Nat) (b : ConfigBlock) (hb : (y.m_ConfigBlocks.filter isHeadBlock)[k]? = some b) :
    ∃ d, y1.m_YoloTensors[y.m_YoloTensors.length + k]? = some d ∧
      (∀ fields : List (List Char), b.lookup "mask" = some ⟨joinComma fields⟩ →
        (∀ f ∈ fields, ',' ∉ f) → fields.getLast? ≠ some [] → fields ≠ [] →
        fields.length < 4294967296 →
        d.mask.length = fields.length ∧ d.numBBoxes = fields.length) ∧
      (b.lookup "mask" = none ∨ b.lookup "mask" = some "" →
        ∃ s n, b.lookup "num" = some s ∧ stoul (trim s) = some n ∧ d.numBBoxes = toUint n) := by
  obtain ⟨descs, h1, h2, _⟩ := forEachE_descriptors stof y.m_ConfigBlocks y y1 hc hrun
  obtain ⟨d, hd, hout⟩ := forall₂_getElem? _ _ _ h2 k b hb
  obtain ⟨_, hmask, hnomask, _, _, hnb1, hnb2⟩ := outputTensorOf_ok stof b d hout
  refine ⟨d, ?_, ?_, ?_⟩
  · rw [h1, List.getElem?_append_right (Nat.le_add_right _ _), Nat.add_sub_cancel_left]
    exact hd
  · intro fields hm hcomma hlast hne hlen
    have hparse := hmask _ hm
    obtain ⟨vs, hvs, hall⟩ := parseFields_join maskEntry fields hcomma hlast _ [] d.mask
      (Nat.le_refl _) hparse
    have hl : d.mask.length = fields.length := by
      rw [hvs, List.nil_append, ← hall.length_eq]
    have hpos : d.mask ≠ [] := by
      intro e
      rw [e] at hl
      exact hne (List.length_eq_zero.mp hl.symm)
    exact ⟨hl, by rw [hnb1 hpos, hl, toUint_of_lt _ hlen]⟩
  · intro hm
    apply hnb2
    rcases hm with hm | hm
    · exact hnomask hm
    · have hparse := hmask _ hm
      have : parseFields maskEntry 0 [] ([] : List Int) = .ok [] := rfl
      have e : ("" : String).data = [] := rfl
      rw [e] at hparse
      rw [List.length_nil, this] at hparse
      exact (Except.ok.inj hparse).symm

theorem box_count_witness :
    parseConfigBlocks sampleStof (Yolo.create "input" 1 true [sampleMasked])
        = .ok (sampleAfter sampleMasked sampleMaskedDescriptor) ∧
      ∃ d, (sampleAfter sampleMasked sampleMaskedDescriptor).m_YoloTensors[0 + 0]? = some d ∧
        (∀ fields : List (List Char), sampleMasked.lookup "mask" = some ⟨joinComma fields⟩ →
          (∀ f ∈ fields, ',' ∉ f) → fields.getLast? ≠ some [] → fields ≠ [] →
          fields.length < 4294967296 →
          d.mask.length = fields.length ∧ d.numBBoxes = fields.length) ∧
        (sampleMasked.lookup "mask" = none ∨ sampleMasked.lookup "mask" = some "" →
          ∃ s n, sampleMasked.lookup "num" = some s ∧ stoul (trim s) = some n ∧
            d.numBBoxes = toUint n) :=
  ⟨by decide,
    box_count sampleStof (Yolo.create "input" 1 true [sampleMasked])
      (sampleAfter sampleMasked sampleMaskedDescriptor) (by decide) (by decide) 0 sampleMasked
      (by decide)⟩

/-- C15 as stated fails for a `mask` attribute that is present and empty (the
line `mask=`): the mask has no entry, and the box count is `num`, here 3. -/
theorem empty_mask_uses_num :
    parseConfigFile ["[yolo]", "anchors=10,14", "classes=1", "num=3", "mask="]
        = [sampleEmptyMask] ∧
      sampleEmptyMask.lookup "mask" = some "" ∧
      parseConfigBlocks sampleStof (Yolo.create "input" 1 true [sampleEmptyMask])
        = .ok (sampleAfter sampleEmptyMask sampleEmptyMaskDescriptor) ∧
      sampleEmptyMaskDescriptor.mask.length = 0 ∧ sampleEmptyMaskDescriptor.numBBoxes = 3 := by
  decide

theorem forall₂_and {α β : Type} (R S : α → β → Prop) (h : ∀ a b, R a b → S a b) :
    ∀ (xs : List α) (ys : List β), List.Forall₂ R xs ys → List.Forall₂ (fun a b => R a b ∧ S a b) xs ys := by
  intro xs ys hxy
  induction hxy with
  | nil => exact List.Forall₂.nil
  | cons hab _ ih => exact List.Forall₂.cons ⟨hab, h _ _ hab⟩ ih

/-- C16: on a freshly constructed compiler, a completed `parseConfigBlocks`
leaves exactly one descriptor per yolo/region block of the document, in block
order; each carries the block's anchors (the comma-separated fields, in
order), its mask (empty when absent) and its `scale_x_y` (1.0 when absent),
and `m_YoloCount` equals the length of the descriptor list.  For the sample
document (`net` with channels=3, height=416, width=416; one `convolutional`;
one `yolo` with three anchor pairs, num=3, classes=1) the pass gives input
3x416x416, class count 1 and exactly one descriptor, of box count 3. -/
theorem descriptors_per_head_block (stof : String → Option Nat) (inputBlobName : String)
    (batchSize : Nat) (implicitBatch : Bool) (doc : List ConfigBlock) (y1 : Yolo)
    (hlen : doc.length < 4294967296)
    (hrun : parseConfigBlocks stof (Yolo.create inputBlobName batchSize implicitBatch doc)
      = .ok y1) :
    (List.Forall₂
        (fun b d => outputTensorOf stof b = .ok d ∧
          (∀ fields : List (List Char), b.lookup "anchors" = some ⟨joinComma fields⟩ →
            (∀ f ∈ fields, ',' ∉ f) → fields.getLast? ≠ some [] →
            List.Forall₂ (fun f v => stof ⟨trimChars f⟩ = some v) fields d.anchors) ∧
          (∀ fields : List (List Char), b.lookup "mask" = some ⟨joinComma fields⟩ →
            (∀ f ∈ fields, ',' ∉ f) → fields.getLast? ≠ some [] →
            List.Forall₂ (fun f v => maskEntry ⟨trimChars f⟩ = some v) fields d.mask) ∧
          (b.lookup "mask" = none → d.mask = []) ∧
          (∀ s, b.lookup "scale_x_y" = some s → stof s = some d.scaleXY) ∧
          (b.lookup "scale_x_y" = none → d.scaleXY = floatOne))
        (doc.filter isHeadBlock) y1.m_YoloTensors ∧
      y1.m_YoloTensors.length = (doc.filter isHeadBlock).length ∧
      y1.m_YoloCount = y1.m_YoloTensors.length) ∧
    (parseConfigFile sampleConfig
        = [ [("type", "net"), ("channels", "3"), ("height", "416"), ("width", "416")],
            [("type", "convolutional"), ("filters", "16"), ("size", "3"), ("stride", "1"),
              ("activation", "leaky")],
            [("type", "yolo"), ("anchors", "10,14, 23,27, 37,58"), ("classes", "1"),
              ("num", "3")] ] ∧
      parseConfigBlocks sampleStof (Yolo.create "input" 1 true (parseConfigFile sampleConfig))
        = .ok sampleParsed ∧
      (sampleParsed.m_InputC, sampleParsed.m_InputH, sampleParsed.m_InputW) = (3, 416, 416) ∧
      sampleParsed.m_NumClasses = 1 ∧ sampleParsed.m_YoloCount = 1 ∧
      sampleParsed.m_YoloTensors.map (fun d => d.numBBoxes) = [3]) := by
  refine ⟨?_, by decide⟩
  obtain ⟨descs, h1, h2, h3⟩ := forEachE_descriptors stof doc _ y1
    (show (0 : Nat) < 4294967296 by decide) hrun
  have e1 : y1.m_YoloTensors = descs := by rw [h1]; rfl
  have hl : descs.length = (doc.filter isHeadBlock).length := h2.length_eq.symm
  have hle : descs.length < 4294967296 :=
    hl ▸ Nat.lt_of_le_of_lt (List.length_filter_le _ _) hlen
  refine ⟨?_, by rw [e1, hl], ?_⟩
  · rw [e1]
    refine forall₂_and _ _ ?_ _ _ h2
    intro b d hout
    obtain ⟨⟨a, ha, hanch⟩, hmask, hnomask, hscale, hnoscale, _, _⟩ :=
      outputTensorOf_ok stof b d hout
    refine ⟨?_, ?_, hnomask, hscale, hnoscale⟩
    · intro fields hf hcomma hlast
      rw [ha] at hf
      cases hf
      obtain ⟨vs, hvs, hall⟩ := parseFields_join stof fields hcomma hlast _ [] d.anchors
        (Nat.le_refl _) hanch
      rw [hvs]
      exact hall
    · intro fields hf hcomma hlast
      obtain ⟨vs, hvs, hall⟩ := parseFields_join maskEntry fields hcomma hlast _ [] d.mask
        (Nat.le_refl _) (hmask _ hf)
      rw [hvs]
      exact hall
  · rw [h3, e1]
    show toUint (0 + descs.length) = descs.length
    rw [Nat.zero_add]
    exact toUint_of_lt _ hle

theorem descriptors_per_head_block_witness :
    sampleParsed.m_YoloTensors.length
        = ((parseConfigFile sampleConfig).filter isHeadBlock).length ∧
      sampleParsed.m_YoloCount = sampleParsed.m_YoloTensors.length :=
  (descriptors_per_head_block sampleStof "input" 1 true (parseConfigFile sampleConfig)
    sampleParsed (by decide) (by decide)).1.2

/-- C20: `parseConfigBlocks` aborts on every document that contains a `net`
block lacking one of `channels`, `height`, `width`, or a yolo/region block
lacking one of `num`, `classes`, `anchors` (a block with a `mask` and no `num`
included); the block itself fails its assertion in whatever state it is
reached, and a run that completes has met no such block. -/
theorem missing_required_key_aborts (stof : String → Option Nat) (y : Yolo) :
    (∀ b ∈ y.m_ConfigBlocks, lacksRequiredKey b →
        (∀ s, parseConfigBlock stof s b = .error .assertion) ∧
        ∃ f, parseConfigBlocks stof y = .error f) ∧
      (∀ b : ConfigBlock, isHeadBlock b = true → b.lookup "num" = none →
        lacksRequiredKey b) ∧
      (∀ y1, parseConfigBlocks stof y = .ok y1 →
        ∀ b ∈ y.m_ConfigBlocks, ¬ lacksRequiredKey b) := by
  have key : ∀ b ∈ y.m_ConfigBlocks, lacksRequiredKey b →
      ∃ f, parseConfigBlocks stof y = .error f := by
    intro b hb hl
    exact forEachE_error (parseConfigBlock stof) y.m_ConfigBlocks b hb
      (fun s => ⟨_, parseConfigBlock_lacking stof s b hl⟩) y
  refine ⟨fun b hb hl => ⟨fun s => parseConfigBlock_lacking stof s b hl, key b hb hl⟩,
    fun b hh hn => Or.inr ⟨hh, Or.inl hn⟩, ?_⟩
  intro y1 hok b hb hl
  obtain ⟨f, hf⟩ := key b hb hl
  rw [hok] at hf
  cases hf

theorem missing_required_key_aborts_witness :
    lacksRequiredKey [("type", "yolo"), ("mask", "0,1,2"), ("classes", "1"), ("anchors", "10,14")] ∧
      parseConfigBlocks sampleStof
          (Yolo.create "input" 1 true
            [[("type", "net"), ("channels", "3"), ("height", "416"), ("width", "416")],
              [("type", "yolo"), ("mask", "0,1,2"), ("classes", "1"), ("anchors", "10,14")]])
        = .error .assertion ∧
      ∃ f, parseConfigBlocks sampleStof
          (Yolo.create "input" 1 true
            [[("type", "net"), ("channels", "3"), ("height", "416"), ("width", "416")],
              [("type", "yolo"), ("mask", "0,1,2"), ("classes", "1"), ("anchors", "10,14")]])
        = .error f :=
  ⟨by decide, by decide,
    ((missing_required_key_aborts sampleStof
      (Yolo.create "input" 1 true
        [[("type", "net"), ("channels", "3"), ("height", "416"), ("width", "416")],
          [("type", "yolo"), ("mask", "0,1,2"), ("classes", "1"), ("anchors", "10,14")]])).1
      [("type", "yolo"), ("mask", "0,1,2"), ("classes", "1"), ("anchors", "10,14")]
      (by decide) (by decide)).2⟩

theorem ite_kind_skip {P : Prop} [Decidable P] {a b c : LayerKind} (ha : a ≠ c)
    (h : (if P then a else b) = c) : b = c := by
  by_cases hp : P
  · rw [if_pos hp] at h
    exact absurd h ha
  · rwa [if_neg hp] at h

theorem layerKind_yolo_iff (t : String) : layerKind t = .yolo ↔ t = "yolo" ∨ t = "region" := by
  constructor
  · intro h
    unfold layerKind at h
    iterate 12 replace h := ite_kind_skip (by decide) h
    by_cases hy : t = "yolo" ∨ t = "region"
    · exact hy
    · rw [if_neg hy] at h
      replace h := ite_kind_skip (by decide) h
      cases h
  · rintro (h | h) <;> subst h <;> decide

theorem isHeadBlock_kind (b : ConfigBlock) (t : String) (ht : b.lookup "type" = some t) :
    isHeadBlock b = true ↔ layerKind t = .yolo := by
  rw [layerKind_yolo_iff, isHeadBlock_iff, ht]
  constructor
  · rintro (h | h)
    · exact Or.inr (Option.some.inj h)
    · exact Or.inl (Option.some.inj h)
  · rintro (h | h)
    · exact Or.inr (by rw [h])
    · exact Or.inl (by rw [h])

/-- What a round of the block loop does to the detection-head variables: a
yolo/region block captures the grid of the current tensor into descriptor
`yoloCountInputs`, records the tensor and counts; any other block leaves them. -/
theorem buildBlock_heads (y : Yolo) (B : LayerBuilders) (weights : List Nat) (i : Nat)
    (st st1 : BuildState) (h : buildBlock y B weights i st = .ok st1) :
    ∃ block, y.m_ConfigBlocks[i]? = some block ∧
      ((isHeadBlock block = true ∧ st.yoloCountInputs < y.m_YoloCount ∧
          (∃ cur d, st.m_YoloTensors[st.yoloCountInputs]? = some cur ∧
            capturedGrid st.previous cur d ∧
            st1.m_YoloTensors = st.m_YoloTensors.set st.yoloCountInputs d) ∧
          st1.yoloTensorInputs = st.yoloTensorInputs ++ [st.previous] ∧
          st1.yoloCountInputs = toUint (st.yoloCountInputs + 1)) ∨
        (isHeadBlock block = false ∧ st1.m_YoloTensors = st.m_YoloTensors ∧
          st1.yoloTensorInputs = st.yoloTensorInputs ∧
          st1.yoloCountInputs = st.yoloCountInputs)) := by
  unfold buildBlock at h
  split at h
  · cases h
  rename_i block hb
  split at h
  · cases h
  rename_i type ht
  refine ⟨block, hb, ?_⟩
  by_cases hk : layerKind type = .yolo
  · left
    rw [hk] at h
    dsimp only at h
    split at h
    · cases h
    rename_i cur hcur
    rw [bind_eq_ok] at h
    obtain ⟨_, _, h⟩ := h
    split at h
    · rename_i hlt
      injection h with h
      subst h
      refine ⟨(isHeadBlock_kind block type ht).mpr hk, hlt,
        ⟨cur, _, hcur, ?_, rfl⟩, rfl, rfl⟩
      exact ⟨rfl, rfl, rfl, rfl, rfl, rfl⟩
    · cases h
  · right
    have hnot : isHeadBlock block = false := by
      cases hh : isHeadBlock block
      · rfl
      · exact absurd ((isHeadBlock_kind block type ht).mp hh) hk
    refine ⟨hnot, ?_⟩
    split at h
    all_goals
      repeat' (first
        | (rw [bind_eq_ok] at h; obtain ⟨_, _, h⟩ := h)
        | (split at h)
        | (dsimp only at h))
    all_goals first
      | (cases h; done)
      | (exact absurd ‹layerKind type = LayerKind.yolo› hk)
      | (injection h with h; subst h; exact ⟨rfl, rfl, rfl⟩)
      | (obtain ⟨p, _, hp⟩ := pushTensor_ok _ _ _ _ ‹pushTensor _ _ _ = _›
         injection h with h; subst h; subst hp; exact ⟨rfl, rfl, rfl⟩)
      | (obtain ⟨p, _, hp⟩ := pushTensor_ok _ _ _ _ h
         subst hp; exact ⟨rfl, rfl, rfl⟩)

theorem headsBefore_succ (blocks : List ConfigBlock) (n : Nat) (b : ConfigBlock)
    (hb : blocks[n]? = some b) :
    headsBefore blocks (n + 1) = headsBefore blocks n + (if isHeadBlock b = true then 1 else 0) := by
  unfold headsBefore
  rw [List.take_succ, hb, List.filter_append, List.length_append]
  by_cases h : isHeadBlock b = true
  · simp [h]
  · simp [h]

theorem headsBefore_all (blocks : List ConfigBlock) :
    headsBefore blocks blocks.length = (blocks.filter isHeadBlock).length := by
  unfold headsBefore
  rw [List.take_length]

theorem buildInit_heads (y : Yolo) (B : LayerBuilders) (st : BuildState)
    (h : buildInit y B = .ok st) :
    st.yoloCountInputs = 0 ∧ st.yoloTensorInputs = [] ∧ st.m_YoloTensors = y.m_YoloTensors := by
  unfold buildInit at h
  dsimp only at h
  split at h
  · cases h
  · split at h
    · injection h with h; subst h; exact ⟨rfl, rfl, rfl⟩
    · cases h

/-- The detection-head variables when the loop variable is `n`: the count is
the number of yolo/region blocks passed, it has not exceeded `m_YoloCount`,
descriptors from the count on are still the pre-populated ones, and descriptor
`k` below the count holds the grid of the tensor that was current when the
loop reached the `k`-th yolo/region block, which is also input `k`. -/
theorem buildLoop_heads (y : Yolo) (B : LayerBuilders) (weights : List Nat)
    (hc : y.m_YoloCount < 4294967296) (n : Nat) :
    ∀ st, buildLoop y B weights n = .ok st →
      st.yoloCountInputs = headsBefore y.m_ConfigBlocks n ∧
      st.yoloCountInputs ≤ y.m_YoloCount ∧
      st.yoloTensorInputs.length = st.yoloCountInputs ∧
      st.m_YoloTensors.length = y.m_YoloTensors.length ∧
      (∀ k, st.yoloCountInputs ≤ k → st.m_YoloTensors[k]? = y.m_YoloTensors[k]?) ∧
      (∀ k, k < st.yoloCountInputs → ∃ (i : Nat) (s : BuildState) (b : ConfigBlock)
          (d0 d : TensorInfo),
        i < n ∧ y.m_ConfigBlocks[i]? = some b ∧ isHeadBlock b = true ∧
        headsBefore y.m_ConfigBlocks i = k ∧ buildLoop y B weights i = .ok s ∧
        st.yoloTensorInputs[k]? = some s.previous ∧ y.m_YoloTensors[k]? = some d0 ∧
        st.m_YoloTensors[k]? = some d ∧ capturedGrid s.previous d0 d) := by
  induction n with
  | zero =>
    intro st h
    unfold buildLoop at h
    rw [bind_eq_ok] at h
    obtain ⟨s0, h0, h1⟩ := h
    have e : s0 = st := Except.ok.inj h1
    obtain ⟨a1, a2, a3⟩ := buildInit_heads y B s0 h0
    subst e
    refine ⟨by rw [a1]; rfl, by rw [a1]; exact Nat.zero_le _, by rw [a1, a2]; rfl,
      by rw [a3], fun k _ => by rw [a3], ?_⟩
    intro k hk
    rw [a1] at hk
    exact absurd hk (Nat.not_lt_zero k)
  | succ n ih =>
    intro st h
    rw [buildLoop_succ, bind_eq_ok] at h
    obtain ⟨s0, h0, h1⟩ := h
    obtain ⟨i1, i2, i3, i4, i5, i6⟩ := ih s0 h0
    obtain ⟨block, hb, hcase⟩ := buildBlock_heads y B weights n s0 st h1
    rcases hcase with ⟨hh, hlt, ⟨cur, d, hcur, hgrid, hset⟩, hin, hcnt⟩ | ⟨hh, e1, e2, e3⟩
    · have hcnt1 : st.yoloCountInputs = s0.yoloCountInputs + 1 := by
        rw [hcnt]
        exact toUint_of_lt _ (by omega)
      have hclen : s0.yoloCountInputs < s0.m_YoloTensors.length := by
        by_contra hge
        rw [List.getElem?_eq_none (Nat.le_of_not_lt hge)] at hcur
        cases hcur
      refine ⟨?_, by omega, ?_, ?_, ?_, ?_⟩
      · rw [headsBefore_succ _ _ _ hb, if_pos hh, hcnt1, i1]
      · rw [hin, List.length_append, List.length_singleton, i3, hcnt1]
      · rw [hset, List.length_set, i4]
      · intro k hk
        rw [hset, List.getElem?_set_ne (by omega)]
        exact i5 k (by omega)
      · intro k hk
        by_cases hkc : k < s0.yoloCountInputs
        · obtain ⟨i, s, b, d0, d1, g1, g2, g3, g4, g5, g6, g7, g8, g9⟩ := i6 k hkc
          refine ⟨i, s, b, d0, d1, by omega, g2, g3, g4, g5, ?_, g7, ?_, g9⟩
          · rw [hin, List.getElem?_append_left (by omega)]
            exact g6
          · rw [hset, List.getElem?_set_ne (by omega)]
            exact g8
        · have hk0 : k = s0.yoloCountInputs := by omega
          subst hk0
          refine ⟨n, s0, block, cur, d, Nat.lt_succ_self n, hb, hh, i1.symm, h0, ?_, ?_, ?_, hgrid⟩
          · rw [hin, List.getElem?_append_right (by omega), i3, Nat.sub_self]
            rfl
          · rw [← i5 _ (Nat.le_refl _)]
            exact hcur
          · rw [hset, List.getElem?_set_self hclen]
    · have hf : isHeadBlock block ≠ true := by rw [hh]; decide
      refine ⟨?_, by rw [e3]; exact i2, by rw [e2, e3]; exact i3, by rw [e1]; exact i4, ?_, ?_⟩
      · rw [headsBefore_succ _ _ _ hb, if_neg hf, e3, i1, Nat.add_zero]
      · intro k hk
        rw [e1]
        exact i5 k (by rw [e3] at hk; exact hk)
      · intro k hk
        rw [e3] at hk
        obtain ⟨i, s, b, d0, d1, g1, g2, g3, g4, g5, g6, g7, g8, g9⟩ := i6 k hk
        exact ⟨i, s, b, d0, d1, by omega, g2, g3, g4, g5, by rw [e2]; exact g6, g7,
          by rw [e1]; exact g8, g9⟩

theorem finishNetwork_count_mismatch (y : Yolo) (B : LayerBuilders) (weights : List Nat)
    (st : BuildState) (h : y.m_YoloCount ≠ st.yoloCountInputs) :
    finishNetwork y B weights st = (.error .assertion, ⟨none, false, []⟩) := by
  unfold finishNetwork
  by_cases hw : bitsInt (toUint weights.length) ≠ st.weightPtr
  · rw [if_pos hw]
  · rw [if_neg hw, if_neg h]

theorem finishNetwork_ok (y : Yolo) (B : LayerBuilders) (weights : List Nat)
    (st : BuildState) (h : (finishNetwork y B weights st).1 = .ok .NVDSINFER_SUCCESS) :
    y.m_YoloCount = st.yoloCountInputs ∧
      ∃ plugin out,
        YoloLayer.create y.m_InputW y.m_InputH y.m_NumClasses y.m_NewCoords st.m_YoloTensors
          (forLoop st.yoloCountInputs (fun j outputSize =>
            (outputSize + toUint ((st.m_YoloTensors.getD j default).numBBoxes
              * (st.m_YoloTensors.getD j default).gridSizeY
              * (st.m_YoloTensors.getD j default).gridSizeX)) % 18446744073709551616) 0)
          = .ok plugin ∧
        B.addPluginV2 st.yoloTensorInputs y.m_YoloCount plugin = some out ∧
        (finishNetwork y B weights st).2 = ⟨some plugin, true, [out]⟩ := by
  by_cases hcount : y.m_YoloCount = st.yoloCountInputs
  · refine ⟨hcount, ?_⟩
    unfold finishNetwork at h ⊢
    by_cases hw : bitsInt (toUint weights.length) ≠ st.weightPtr
    · rw [if_pos hw] at h
      cases h
    rw [if_neg hw, if_pos hcount] at h ⊢
    try dsimp only at h ⊢
    split at h
    · cases h
    rename_i plugin hp
    try rw [hp]
    split at h
    · cases h
    rename_i out ho
    exact ⟨plugin, out, rfl, ho, rfl⟩
  · rw [finishNetwork_count_mismatch y B weights st hcount] at h
    cases h

/-- C17: `buildYoloNetwork` returns success only if the number of yolo/region
blocks among its blocks equals `m_YoloCount`; when the two differ the run does
not return a status, no operator has been created, none has been added to the
graph and no output has been marked. -/
theorem head_count_checked (y : Yolo) (B : LayerBuilders) (weights : List Nat)
    (hc : y.m_YoloCount < 4294967296) :
    ((buildYoloNetwork y B weights).1 = .ok .NVDSINFER_SUCCESS →
        (y.m_ConfigBlocks.filter isHeadBlock).length = y.m_YoloCount) ∧
      ((y.m_ConfigBlocks.filter isHeadBlock).length ≠ y.m_YoloCount →
        (∃ f, (buildYoloNetwork y B weights).1 = .error f) ∧
        (buildYoloNetwork y B weights).2.yoloPlugin = none ∧
        (buildYoloNetwork y B weights).2.pluginAdded = false ∧
        (buildYoloNetwork y B weights).2.outputs = []) := by
  unfold buildYoloNetwork
  cases hL : buildLoop y B weights y.m_ConfigBlocks.length with
  | error f =>
    exact ⟨fun h => (by cases h), fun _ => ⟨⟨f, rfl⟩, rfl, rfl, rfl⟩⟩
  | ok st =>
    dsimp only
    have hcnt : st.yoloCountInputs = (y.m_ConfigBlocks.filter isHeadBlock).length := by
      rw [(buildLoop_heads y B weights hc _ st hL).1, headsBefore_all]
    constructor
    · intro h
      rw [← hcnt]
      exact (finishNetwork_ok y B weights st h).1.symm
    · intro hne
      have hm : y.m_YoloCount ≠ st.yoloCountInputs := by
        rw [hcnt]
        exact fun e => hne e.symm
      rw [finishNetwork_count_mismatch y B weights st hm]
      exact ⟨⟨_, rfl⟩, rfl, rfl, rfl⟩

theorem head_count_checked_witness :
    (buildYoloNetwork sampleYolo sampleBuilders [0, 0, 0, 0, 0, 0]).1 = .ok .NVDSINFER_SUCCESS ∧
      (sampleYolo.m_ConfigBlocks.filter isHeadBlock).length = sampleYolo.m_YoloCount ∧
      (buildYoloNetwork { sampleYolo with m_YoloCount := 2 } sampleBuilders
          [0, 0, 0, 0, 0, 0]).1 = .error .assertion ∧
      (buildYoloNetwork { sampleYolo with m_YoloCount := 2 } sampleBuilders
          [0, 0, 0, 0, 0, 0]).2.pluginAdded = false :=
  ⟨by decide,
    (head_count_checked sampleYolo sampleBuilders [0, 0, 0, 0, 0, 0] (by decide)).1 (by decide),
    by decide,
    ((head_count_checked { sampleYolo with m_YoloCount := 2 } sampleBuilders [0, 0, 0, 0, 0, 0]
      (by decide)).2 (by decide)).2.2.1⟩

theorem forLoop_sum (l : List TensorInfo) (f : TensorInfo → Nat) (n : Nat) (hn : n ≤ l.length)
    (hsmall : ∀ d ∈ l, f d < 4294967296) (hcount : n < 4294967296) :
    forLoop n (fun j out => (out + toUint (f (l.getD j default))) % 18446744073709551616) 0
        = ((l.take n).map f).sum ∧
      ((l.take n).map f).sum ≤ n * 4294967295 := by
  induction n with
  | zero => exact ⟨rfl, by simp⟩
  | succ k ih =>
    obtain ⟨e, hle⟩ := ih (by omega) (by omega)
    have hk : k < l.length := hn
    have hget : l.getD k default = l[k] := by
      rw [List.getD_eq_getElem?_getD, List.getElem?_eq_getElem hk]
      rfl
    have hf : f l[k] < 4294967296 := hsmall _ (List.getElem_mem hk)
    have htake : l.take (k + 1) = l.take k ++ [l[k]] := by
      rw [List.take_succ, List.getElem?_eq_getElem hk]
      rfl
    have hsum : ((l.take (k + 1)).map f).sum = ((l.take k).map f).sum + f l[k] := by
      rw [htake, List.map_append, List.sum_append]
      simp
    rw [hsum]
    refine ⟨?_, by omega⟩
    show (forLoop k _ 0 + toUint (f (l.getD k default))) % 18446744073709551616 = _
    rw [e, hget, toUint_of_lt _ hf]
    exact Nat.mod_eq_of_lt (by omega)

theorem YoloLayer.create_ok (w h c nc : Nat) (ts : List TensorInfo) (o : Nat) (p : YoloLayer)
    (hp : YoloLayer.create w h c nc ts o = .ok p) : p.m_YoloTensors = ts ∧ p.m_OutputSize = o := by
  unfold YoloLayer.create at hp
  split at hp
  · injection hp with hp
    subst hp
    exact ⟨rfl, rfl⟩
  · cases hp

theorem intBits_of_nonneg (z : Int) (h0 : 0 ≤ z) (h1 : z < 4294967296) :
    ((intBits z : Nat) : Int) = z := by
  rw [intBits_cast]
  exact Int.emod_eq_of_lt h0 h1

/-- On a successful build (the compiler coming from the attribute pass, with
one pre-populated descriptor per counted head), descriptor `k` of the
operator is the pre-populated descriptor `k` with the grid of the tensor that
was current when the block loop reached the `k`-th yolo/region block: grid
height and width are that tensor's dimensions 2 and 3 (stored into `uint`;
equal to the dimension when it is not negative).  The output size handed to the
`YoloLayer` constructor is the sum over all descriptors of box count x grid
height x grid width, when no such product leaves `uint`. -/
theorem grid_and_output_size (y : Yolo) (B : LayerBuilders) (weights : List Nat) (net : Network)
    (hc : y.m_YoloCount < 4294967296) (hl : y.m_YoloTensors.length = y.m_YoloCount)
    (hok : buildYoloNetwork y B weights = (.ok .NVDSINFER_SUCCESS, net)) :
    ∃ plugin, net.yoloPlugin = some plugin ∧ net.pluginAdded = true ∧
      plugin.m_YoloTensors.length = y.m_YoloCount ∧
      (∀ k d, plugin.m_YoloTensors[k]? = some d →
        ∃ (i : Nat) (s : BuildState) (b : ConfigBlock) (d0 : TensorInfo),
          y.m_ConfigBlocks[i]? = some b ∧ isHeadBlock b = true ∧
          headsBefore y.m_ConfigBlocks i = k ∧ buildLoop y B weights i = .ok s ∧
          y.m_YoloTensors[k]? = some d0 ∧ capturedGrid s.previous d0 d ∧
          (0 ≤ s.previous.dims.getD 2 0 → s.previous.dims.getD 2 0 < 4294967296 →
            (d.gridSizeY : Int) = s.previous.dims.getD 2 0) ∧
          (0 ≤ s.previous.dims.getD 3 0 → s.previous.dims.getD 3 0 < 4294967296 →
            (d.gridSizeX : Int) = s.previous.dims.getD 3 0)) ∧
      ((∀ d ∈ plugin.m_YoloTensors, d.numBBoxes * d.gridSizeY * d.gridSizeX < 4294967296) →
        plugin.m_OutputSize
          = (plugin.m_YoloTensors.map fun d => d.numBBoxes * d.gridSizeY * d.gridSizeX).sum) := by
  unfold buildYoloNetwork at hok
  cases hL : buildLoop y B weights y.m_ConfigBlocks.length with
  | error f =>
    rw [hL] at hok
    cases hok
  | ok st =>
    rw [hL] at hok
    dsimp only at hok
    have h1 : (finishNetwork y B weights st).1 = .ok .NVDSINFER_SUCCESS := by rw [hok]
    obtain ⟨hcount, plugin, out, hcreate, _, h2⟩ := finishNetwork_ok y B weights st h1
    rw [hok] at h2
    dsimp only at h2
    obtain ⟨hts, hos⟩ := YoloLayer.create_ok _ _ _ _ _ _ _ hcreate
    obtain ⟨_, _, _, i4, _, i6⟩ := buildLoop_heads y B weights hc _ st hL
    have hlen : st.m_YoloTensors.length = st.yoloCountInputs := by rw [i4, hl, hcount]
    refine ⟨plugin, by rw [h2], by rw [h2], by rw [hts, i4, hl], ?_, ?_⟩
    · intro k d hk
      rw [hts] at hk
      have hklt : k < st.yoloCountInputs := by
        rw [← hlen]
        by_contra hge
        rw [List.getElem?_eq_none (Nat.le_of_not_lt hge)] at hk
        cases hk
      obtain ⟨i, s, b, d0, d1, _, g2, g3, g4, g5, _, g7, g8, g9⟩ := i6 k hklt
      rw [hk] at g8
      cases g8
      refine ⟨i, s, b, d0, g2, g3, g4, g5, g7, g9, ?_, ?_⟩
      · intro a0 a1
        rw [g9.1]
        exact intBits_of_nonneg _ a0 a1
      · intro a0 a1
        rw [g9.2.1]
        exact intBits_of_nonneg _ a0 a1
    · intro hsmall
      rw [hts] at hsmall ⊢
      rw [hos]
      have hs := (forLoop_sum st.m_YoloTensors
        (fun d => d.numBBoxes * d.gridSizeY * d.gridSizeX) st.yoloCountInputs
        (Nat.le_of_eq hlen.symm) hsmall (by omega)).1
      rw [← hlen, List.take_length] at hs
      rw [← hs, hlen]

theorem grid_and_output_size_witness :
    buildYoloNetwork sampleYolo sampleBuilders [0, 0, 0, 0, 0, 0]
        = (.ok .NVDSINFER_SUCCESS, ⟨some sampleLayer13, true, [⟨1000, [1, 507, 6]⟩]⟩) ∧
      sampleLayer13.m_OutputSize = 3 * 13 * 13 ∧
      ∃ plugin, (some sampleLayer13 : Option YoloLayer) = some plugin ∧ true = true ∧
        plugin.m_YoloTensors.length = sampleYolo.m_YoloCount ∧
        (∀ k d, plugin.m_YoloTensors[k]? = some d →
          ∃ (i : Nat) (s : BuildState) (b : ConfigBlock) (d0 : TensorInfo),
            sampleYolo.m_ConfigBlocks[i]? = some b ∧ isHeadBlock b = true ∧
            headsBefore sampleYolo.m_ConfigBlocks i = k ∧
            buildLoop sampleYolo sampleBuilders [0, 0, 0, 0, 0, 0] i = .ok s ∧
            sampleYolo.m_YoloTensors[k]? = some d0 ∧ capturedGrid s.previous d0 d ∧
            (0 ≤ s.previous.dims.getD 2 0 → s.previous.dims.getD 2 0 < 4294967296 →
              (d.gridSizeY : Int) = s.previous.dims.getD 2 0) ∧
            (0 ≤ s.previous.dims.getD 3 0 → s.previous.dims.getD 3 0 < 4294967296 →
              (d.gridSizeX : Int) = s.previous.dims.getD 3 0)) ∧
        ((∀ d ∈ plugin.m_YoloTensors, d.numBBoxes * d.gridSizeY * d.gridSizeX < 4294967296) →
          plugin.m_OutputSize
            = (plugin.m_YoloTensors.map fun d => d.numBBoxes * d.gridSizeY * d.gridSizeX).sum) :=
  ⟨by decide, by decide,
    grid_and_output_size sampleYolo sampleBuilders [0, 0, 0, 0, 0, 0]
      ⟨some sampleLayer13, true, [⟨1000, [1, 507, 6]⟩]⟩ (by decide) (by decide) (by decide)⟩

/-- C19, as the code has it: for every operator configuration, every first
input shape with a dimension 0 and every output index below 1,
`getOutputDimensions` returns the three-entry shape
`[batch, totalCandidates, 6]`, where `batch` is dimension 0 of the first input
and `totalCandidates` is the stored 64-bit output size narrowed to `int` (the
stored size itself when that is below 2^31).  The post-processor reads
candidate `b` as the six consecutive floats at offsets `b * 6 + 0 .. b * 6 + 5`:
corners `x1, y1, x2, y2`, then confidence, then class index. -/
theorem output_shape {ε : Type} (l : YoloLayer) (index nbInputDims : Int) (batch : ε)
    (rest : List ε) (more : List (List ε)) (constant : Int → ε) (hidx : index < 1) :
    l.getOutputDimensions index ((batch :: rest) :: more) nbInputDims constant
        = .ok [batch, constant (bitsInt (toUint l.m_OutputSize)), constant 6] ∧
      (l.m_OutputSize < 2147483648 →
        l.getOutputDimensions index ((batch :: rest) :: more) nbInputDims constant
          = .ok [batch, constant (l.m_OutputSize : Int), constant 6]) ∧
      (∀ (output thr : List ℚ) (b netW netH : Nat), b * 6 + 5 < 4294967296 →
        decodeTensorYolo output (b + 1) netW netH thr
          = (decodeTensorYolo output b netW netH thr).bind fun binfo =>
              (output[b * 6 + 4]?).bind fun confidence =>
              (output[b * 6 + 5]?).bind fun classIndex =>
              (floatToInt classIndex).bind fun maxIndex =>
              (vecAt thr maxIndex).bind fun threshold =>
              if confidence < threshold then some binfo
              else
                (output[b * 6 + 0]?).bind fun x1 =>
                (output[b * 6 + 1]?).bind fun y1 =>
                (output[b * 6 + 2]?).bind fun x2 =>
                (output[b * 6 + 3]?).bind fun y2 =>
                some (addBBoxProposal x1 y1 x2 y2 netW netH maxIndex confidence binfo)) := by
  have hshape : l.getOutputDimensions index ((batch :: rest) :: more) nbInputDims constant
      = .ok [batch, constant (bitsInt (toUint l.m_OutputSize)), constant 6] := by
    unfold YoloLayer.getOutputDimensions
    rw [if_pos hidx]
    simp only [List.getElem?_cons_zero]
  refine ⟨hshape, ?_, ?_⟩
  · intro hlt
    rw [hshape, toUint_of_lt _ (by omega)]
    unfold bitsInt
    rw [if_pos hlt]
  · intro output thr b netW netH hb
    rw [decodeTensorYolo_succ, toUint_of_lt (b * 6 + 0) (by omega),
      toUint_of_lt (b * 6 + 1) (by omega), toUint_of_lt (b * 6 + 2) (by omega),
      toUint_of_lt (b * 6 + 3) (by omega), toUint_of_lt (b * 6 + 4) (by omega),
      toUint_of_lt (b * 6 + 5) (by omega)]

theorem output_shape_witness :
    sampleLayer13.getOutputDimensions 0 [[(1 : Int), 18, 13, 13]] 1 id = .ok [1, 507, 6] :=
  (output_shape sampleLayer13 0 1 (1 : Int) [18, 13, 13] [] id (by decide)).1

/-- C19 as stated fails for a stored output size that is not an `int`: for the
size 2^32 + 507 the second dimension of the shape is 507. -/
theorem output_shape_narrowed :
    sampleLayerWide.m_OutputSize = 4294967803 ∧
      sampleLayerWide.getOutputDimensions 0 [[(1 : Int), 18, 13, 13]] 1 id = .ok [1, 507, 6] ∧
      sampleLayerWide.getOutputDimensions 0 [[(1 : Int), 18, 13, 13]] 1 id
        ≠ .ok [1, (sampleLayerWide.m_OutputSize : Int), 6] := by
  decide

/-! ## The weight loader -/

theorem hasSubstr_iff (s t : String) : hasSubstr s t = true ↔ t.data <:+: s.data := by
  unfold hasSubstr
  rw [List.any_eq_true]
  constructor
  · rintro ⟨u, hu, hp⟩
    rw [List.mem_tails] at hu
    rw [List.isPrefixOf_iff_prefix] at hp
    exact List.infix_iff_prefix_suffix.mpr ⟨u, hp, hu⟩
  · intro h
    obtain ⟨u, hp, hu⟩ := List.infix_iff_prefix_suffix.mp h
    exact ⟨u, (List.mem_tails u s.data).mpr hu, by rwa [List.isPrefixOf_iff_prefix]⟩

theorem four_bytes (n : Nat) (s : List Nat) (h : s.length = 4 * (n + 1)) :
    ∃ b0 b1 b2 b3 rest, s = b0 :: b1 :: b2 :: b3 :: rest ∧ rest.length = 4 * n := by
  match s, h with
  | b0 :: b1 :: b2 :: b3 :: rest, h =>
    exact ⟨b0, b1, b2, b3, rest, rfl, by simp only [List.length_cons] at h; omega⟩
  | [], h => simp at h
  | [_], h => simp at h; omega
  | [_, _], h => simp at h; omega
  | [_, _, _], h => simp at h; omega

/-- The read loop on a whole number of records, at least one: every record is
pushed. -/
theorem readWeights_words (n : Nat) : ∀ (body acc : List Nat), body.length = 4 * (n + 1) →
    readWeights body acc = .ok (acc ++ words body) := by
  induction n with
  | zero =>
    intro body acc h
    obtain ⟨b0, b1, b2, b3, rest, rfl, hr⟩ := four_bytes 0 body h
    have : rest = [] := List.length_eq_zero.mp hr
    subst this
    rfl
  | succ k ih =>
    intro body acc h
    obtain ⟨b0, b1, b2, b3, rest, rfl, hr⟩ := four_bytes (k + 1) body h
    have hne : rest ≠ [] := by
      intro e
      rw [e] at hr
      simp at hr
    rw [readWeights]
    rw [if_neg hne, ih rest _ hr, words, List.append_assoc]
    rfl

theorem words_length (n : Nat) : ∀ body : List Nat, body.length = 4 * n →
    (words body).length = n := by
  induction n with
  | zero =>
    intro body h
    have : body = [] := List.length_eq_zero.mp h
    subst this
    rfl
  | succ k ih =>
    intro body h
    obtain ⟨b0, b1, b2, b3, rest, rfl, hr⟩ := four_bytes k body h
    rw [words, List.length_cons, ih rest hr]

theorem words_getElem (n : Nat) : ∀ (body : List Nat) (k : Nat), body.length = 4 * n → k < n →
    (words body)[k]? = some (ofLeBytes ((body.drop (4 * k)).take 4)) := by
  induction n with
  | zero => intro _ k _ hk; omega
  | succ m ih =>
    intro body k h hk
    obtain ⟨b0, b1, b2, b3, rest, rfl, hr⟩ := four_bytes m body h
    rw [words]
    cases k with
    | zero => simp
    | succ j =>
      have e : 4 * (j + 1) = (4 * j) + 1 + 1 + 1 + 1 := by ring
      rw [List.getElem?_cons_succ, ih rest j hr (by omega), e]
      rfl

/-- The read loop ends in a failed assertion when the unread part is empty or
ends inside a record. -/
theorem readWeights_truncated (n : Nat) : ∀ (body acc : List Nat) (r : Nat),
    body.length = 4 * n + r → r < 4 → (n = 0 ∨ r ≠ 0) →
    readWeights body acc = .error .assertion := by
  induction n with
  | zero =>
    intro body acc r h hr _
    match body, h with
    | [], _ => rfl
    | [_], _ => rfl
    | [_, _], _ => rfl
    | [_, _, _], _ => rfl
    | _ :: _ :: _ :: _ :: _, h => simp at h; omega
  | succ k ih =>
    intro body acc r h hr hc
    have hr0 : r ≠ 0 := by
      rcases hc with hc | hc
      · omega
      · exact hc
    match body, h with
    | [], h => simp at h; omega
    | [_], h => simp at h; omega
    | [_, _], h => simp at h; omega
    | [_, _, _], h => simp at h; omega
    | b0 :: b1 :: b2 :: b3 :: rest, h =>
      have hl : rest.length = 4 * k + r := by simp only [List.length_cons] at h; omega
      have hne : rest ≠ [] := by
        intro e
        rw [e] at hl
        simp at hl
        omega
      rw [readWeights]
      rw [if_neg hne]
      exact ih rest _ r hl hr (Or.inr hr0)

/-- What the read loop returns, when it returns: the records of the unread
part, which is a whole number of records. -/
theorem readWeights_ok (m : Nat) : ∀ (body acc ws : List Nat), body.length ≤ m →
    readWeights body acc = .ok ws →
    ws = acc ++ words body ∧ body.length = 4 * (words body).length := by
  induction m with
  | zero =>
    intro body acc ws hm h
    have : body = [] := List.length_eq_zero.mp (Nat.le_zero.mp hm)
    subst this
    cases h
  | succ k ih =>
    intro body acc ws hm h
    match body, hm, h with
    | [], _, h => cases h
    | [_], _, h => cases h
    | [_, _], _, h => cases h
    | [_, _, _], _, h => cases h
    | b0 :: b1 :: b2 :: b3 :: rest, hm, h =>
      rw [readWeights] at h
      by_cases hr : rest = []
      · subst hr
        rw [if_pos rfl] at h
        exact ⟨(Except.ok.inj h).symm, rfl⟩
      · rw [if_neg hr] at h
        obtain ⟨e1, e2⟩ := ih rest _ ws (by simp only [List.length_cons] at hm; omega) h
        refine ⟨by rw [e1, words, List.append_assoc]; rfl, ?_⟩
        rw [words]
        simp only [List.length_cons]
        omega

/-- C21: for every path that contains `.weights` and every file made of a
header of `h` bytes followed by `4 * n` bytes with `n ≥ 1`, where `h` is 16
when the path contains `yolov2` and not `yolov2-tiny` and 20 otherwise,
`loadWeights` returns exactly `n` floats, the `k`-th being the 32-bit value
stored at bytes `[h + 4k, h + 4k + 4)` of the file; the header bytes do not
matter. -/
theorem loadWeights_records (weightsFilePath : String) (header body : List Nat) (n : Nat)
    (hext : hasSubstr weightsFilePath ".weights" = true)
    (hh : header.length = headerBytes weightsFilePath) (hb : body.length = 4 * n)
    (hn : 1 ≤ n) :
    headerBytes weightsFilePath
        = (if hasSubstr weightsFilePath "yolov2" = true
            ∧ hasSubstr weightsFilePath "yolov2-tiny" = false then 16 else 20) ∧
      loadWeights weightsFilePath (some (header ++ body)) = .ok (words body) ∧
      (words body).length = n ∧
      ∀ k, k < n → (words body)[k]?
        = some (ofLeBytes (((header ++ body).drop (headerBytes weightsFilePath + 4 * k)).take 4)) := by
  refine ⟨?_, ?_, words_length n body hb, ?_⟩
  · unfold headerBytes
    by_cases h1 : hasSubstr weightsFilePath "yolov2" = true
    · by_cases h2 : hasSubstr weightsFilePath "yolov2-tiny" = true
      · rw [if_neg (by simp [h2]), if_neg (by simp [h2])]
      · rw [if_pos ⟨h1, h2⟩, if_pos ⟨h1, by simpa using h2⟩]
    · rw [if_neg (by simp [h1]), if_neg (by simp [h1])]
  · unfold loadWeights
    dsimp only
    rw [if_pos hext, if_neg (by rw [List.length_append, hh]; omega), ← hh,
      List.drop_left]
    obtain ⟨m, rfl⟩ : ∃ m, n = m + 1 := ⟨n - 1, by omega⟩
    rw [readWeights_words m body [] hb, List.nil_append]
  · intro k hk
    rw [← hh, ← List.drop_drop, List.drop_left]
    exact words_getElem n body k hb hk

theorem loadWeights_records_witness :
    loadWeights "yolov5.weights" (some sampleWeightFile) = .ok [1065353216, 1] :=
  (loadWeights_records "yolov5.weights" (sampleWeightFile.take 20) (sampleWeightFile.drop 20) 2
    (by decide) (by decide) (by decide) (by decide)).2.1

/-- C22: `loadWeights` ends in a failed assertion for every path that does not
contain `.weights`, and for every `.weights` file whose content after the
skipped header is not a whole number of 4-byte records; whenever it returns,
the floats are the 4-byte records of the content after the header, which they
cover exactly, so none is built from fewer than four bytes. -/
theorem loadWeights_fatal (weightsFilePath : String) (file : Option (List Nat)) :
    (hasSubstr weightsFilePath ".weights" = false →
        loadWeights weightsFilePath file = .error .assertion) ∧
      (∀ content, file = some content → hasSubstr weightsFilePath ".weights" = true →
        (content.length - headerBytes weightsFilePath) % 4 ≠ 0 →
        loadWeights weightsFilePath file = .error .assertion) ∧
      (∀ ws, loadWeights weightsFilePath file = .ok ws →
        ∃ content, file = some content ∧
          ws = words (content.drop (headerBytes weightsFilePath)) ∧
          (content.drop (headerBytes weightsFilePath)).length = 4 * ws.length) := by
  refine ⟨?_, ?_, ?_⟩
  · intro hext
    unfold loadWeights
    cases file with
    | none => rfl
    | some content =>
      dsimp only
      rw [if_neg (by rw [hext]; decide)]
  · intro content hfile hext hrem
    subst hfile
    unfold loadWeights
    dsimp only
    rw [if_pos hext, if_neg (by omega)]
    exact readWeights_truncated ((content.length - headerBytes weightsFilePath) / 4) _ []
      ((content.length - headerBytes weightsFilePath) % 4)
      (by rw [List.length_drop]; omega) (Nat.mod_lt _ (by decide)) (Or.inr hrem)
  · intro ws h
    unfold loadWeights at h
    cases file with
    | none => cases h
    | some content =>
      dsimp only at h
      refine ⟨content, rfl, ?_⟩
      by_cases hext : hasSubstr weightsFilePath ".weights" = true
      · rw [if_pos hext] at h
        by_cases hshort : content.length < headerBytes weightsFilePath
        · rw [if_pos hshort] at h
          have e : content.drop (headerBytes weightsFilePath) = [] :=
            List.drop_eq_nil_of_le (Nat.le_of_lt hshort)
          rw [e, ← Except.ok.inj h]
          exact ⟨rfl, rfl⟩
        · rw [if_neg hshort] at h
          obtain ⟨e1, e2⟩ := readWeights_ok _ _ [] ws (Nat.le_refl _) h
          rw [List.nil_append] at e1
          rw [e1]
          exact ⟨rfl, e2⟩
      · rw [if_neg hext] at h
        cases h

theorem loadWeights_fatal_witness :
    loadWeights "yolov5.wts" (some sampleWeightFile) = .error .assertion ∧
      loadWeights "yolov5.weights" (some (sampleWeightFile ++ [7])) = .error .assertion :=
  ⟨(loadWeights_fatal "yolov5.wts" (some sampleWeightFile)).1 (by decide),
    (loadWeights_fatal "yolov5.weights" (some (sampleWeightFile ++ [7]))).2.1
      (sampleWeightFile ++ [7]) rfl (by decide) (by decide)⟩

/-! ## Unsupported and silent blocks -/

theorem layerKind_unsupported (t : String) (h : t ∉ recognisedTypes) :
    layerKind t = .unsupported := by
  simp only [recognisedTypes, List.mem_cons, List.mem_singleton, List.not_mem_nil, or_false,
    not_or] at h
  obtain ⟨h1, h2, h3, h4, h5, h6, h7, h8, h9, h10, h11, h12, h13, h14, h15, h16, h17, h18, h19,
    h20, h21, h22, h23, h24⟩ := h
  unfold layerKind
  rw [if_neg h1, if_neg (not_or.mpr ⟨h2, h3⟩), if_neg (not_or.mpr ⟨h4, h5⟩), if_neg h6,
    if_neg (not_or.mpr ⟨h7, not_or.mpr ⟨h8, h9⟩⟩), if_neg (not_or.mpr ⟨h10, h11⟩), if_neg h12,
    if_neg h13, if_neg h14, if_neg h15,
    if_neg (not_or.mpr ⟨h16, not_or.mpr ⟨h17, not_or.mpr ⟨h18, h19⟩⟩⟩),
    if_neg (not_or.mpr ⟨h20, h21⟩), if_neg (not_or.mpr ⟨h22, h23⟩), if_neg h24]

theorem layerKind_net_iff (t : String) : layerKind t = .net ↔ t = "net" := by
  constructor
  · intro h
    unfold layerKind at h
    by_cases hn : t = "net"
    · exact hn
    · rw [if_neg hn] at h
      iterate 13 replace h := ite_kind_skip (by decide) h
      cases h
  · intro h
    subst h
    decide

theorem layerKind_dropout_iff (t : String) : layerKind t = .dropout ↔ t = "dropout" := by
  constructor
  · intro h
    unfold layerKind at h
    iterate 13 replace h := ite_kind_skip (by decide) h
    by_cases hd : t = "dropout"
    · exact hd
    · rw [if_neg hd] at h
      cases h
  · intro h
    subst h
    decide

theorem isSilentBlock_kind (b : ConfigBlock) (t : String) (ht : b.lookup "type" = some t) :
    isSilentBlock b = true ↔ layerKind t = .net ∨ layerKind t = .dropout := by
  rw [layerKind_net_iff, layerKind_dropout_iff]
  unfold isSilentBlock
  rw [ht]
  simp

theorem isReferenceBlock_kind (b : ConfigBlock) (t : String) (ht : b.lookup "type" = some t)
    (h : isReferenceBlock b = true) :
    layerKind t = .shortcut ∨ layerKind t = .sam ∨ layerKind t = .channels := by
  apply layerKind_reference
  unfold isReferenceBlock at h
  rw [ht] at h
  simpa [or_assoc] using h

/-- What a round of the block loop does to the list of emitted tensors: a `net`
or `dropout` block leaves the whole state alone, any other block pushes one
tensor. -/
theorem buildBlock_emits (y : Yolo) (B : LayerBuilders) (weights : List Nat) (i : Nat)
    (st st1 : BuildState) (h : buildBlock y B weights i st = .ok st1) :
    ∃ block, y.m_ConfigBlocks[i]? = some block ∧
      ((isSilentBlock block = true ∧ st1 = st) ∨
        (isSilentBlock block = false ∧
          st1.tensorOutputs.length = st.tensorOutputs.length + 1)) := by
  unfold buildBlock at h
  split at h
  · cases h
  rename_i block hb
  split at h
  · cases h
  rename_i type ht
  refine ⟨block, hb, ?_⟩
  by_cases hk : layerKind type = .net ∨ layerKind type = .dropout
  · left
    refine ⟨(isSilentBlock_kind block type ht).mpr hk, ?_⟩
    rcases hk with hk | hk <;>
    · rw [hk] at h
      exact (Except.ok.inj h).symm
  · right
    have hnot : isSilentBlock block = false := by
      cases hh : isSilentBlock block
      · rfl
      · exact absurd ((isSilentBlock_kind block type ht).mp hh) hk
    refine ⟨hnot, ?_⟩
    rw [not_or] at hk
    split at h
    all_goals
      repeat' (first
        | (rw [bind_eq_ok] at h; obtain ⟨_, _, h⟩ := h)
        | (split at h)
        | (dsimp only at h))
    all_goals first
      | (cases h; done)
      | (exact absurd ‹layerKind type = LayerKind.net› hk.1)
      | (exact absurd ‹layerKind type = LayerKind.dropout› hk.2)
      | (obtain ⟨p, _, hp⟩ := pushTensor_ok _ _ _ _ ‹pushTensor _ _ _ = _›
         injection h with h; subst h; subst hp
         simp only [List.length_append, List.length_singleton])
      | (obtain ⟨p, _, hp⟩ := pushTensor_ok _ _ _ _ h
         subst hp
         simp only [List.length_append, List.length_singleton])
      | (injection h with h; subst h
         simp only [List.length_append, List.length_singleton])

theorem silentBefore_succ (blocks : List ConfigBlock) (n : Nat) (b : ConfigBlock)
    (hb : blocks[n]? = some b) :
    silentBefore blocks (n + 1)
      = silentBefore blocks n + (if isSilentBlock b = true then 1 else 0) := by
  unfold silentBefore
  rw [List.take_succ, hb, List.filter_append, List.length_append]
  by_cases h : isSilentBlock b = true
  · simp [h]
  · simp [h]

/-- When the loop variable is `n`, the emitted tensors and the `net` and
`dropout` blocks passed add up to `n`. -/
theorem buildLoop_emitted (y : Yolo) (B : LayerBuilders) (weights : List Nat) (n : Nat) :
    ∀ st, buildLoop y B weights n = .ok st →
      st.tensorOutputs.length + silentBefore y.m_ConfigBlocks n = n := by
  induction n with
  | zero =>
    intro st h
    unfold buildLoop at h
    rw [bind_eq_ok] at h
    obtain ⟨s0, h0, h1⟩ := h
    have e : s0 = st := Except.ok.inj h1
    rw [← e, buildInit_outputs y B s0 h0]
    rfl
  | succ k ih =>
    intro st h
    rw [buildLoop_succ, bind_eq_ok] at h
    obtain ⟨s0, h0, h1⟩ := h
    have hk := ih s0 h0
    obtain ⟨block, hb, hcase⟩ := buildBlock_emits y B weights k s0 st h1
    rw [silentBefore_succ _ _ _ hb]
    rcases hcase with ⟨hs, e⟩ | ⟨hs, e⟩
    · rw [if_pos hs, e]
      omega
    · rw [if_neg (by rw [hs]; decide), e]
      omega

theorem silentBefore_mono (blocks : List ConfigBlock) (j : Nat) (b : ConfigBlock)
    (hb : blocks[j]? = some b) (hs : isSilentBlock b = true) :
    ∀ i, j < i → silentBefore blocks j + 1 ≤ silentBefore blocks i := by
  intro i hji
  have key : ∀ d, silentBefore blocks (j + 1) ≤ silentBefore blocks (j + 1 + d) := by
    intro d
    induction d with
    | zero => exact Nat.le_refl _
    | succ e ih =>
      cases hg : blocks[j + 1 + e]? with
      | none =>
        have hlen : blocks.length ≤ j + 1 + e := by
          by_contra hlt
          rw [List.getElem?_eq_getElem (Nat.lt_of_not_le hlt)] at hg
          cases hg
        have e1 : silentBefore blocks (j + 1 + (e + 1)) = silentBefore blocks (j + 1 + e) := by
          unfold silentBefore
          rw [List.take_of_length_le (by omega), List.take_of_length_le hlen]
        rw [e1]
        exact ih
      | some c =>
        have := silentBefore_succ blocks (j + 1 + e) c hg
        have e2 : j + 1 + (e + 1) = j + 1 + e + 1 := rfl
        rw [e2, this]
        omega
  have h1 := silentBefore_succ blocks j b hb
  rw [if_pos hs] at h1
  have h2 := key (i - (j + 1))
  have e3 : j + 1 + (i - (j + 1)) = i := by omega
  rw [e3] at h2
  omega

theorem buildYoloNetwork_error_of_block (y : Yolo) (B : LayerBuilders) (weights : List Nat)
    (i : Nat) (hi : i < y.m_ConfigBlocks.length)
    (hfail : ∀ st, buildLoop y B weights i = .ok st → ∃ f, buildBlock y B weights i st = .error f) :
    ∃ f, buildYoloNetwork y B weights = (.error f, ⟨none, false, []⟩) := by
  cases hL : buildLoop y B weights i with
  | error e =>
    have h2 := buildLoop_error_le y B weights i e hL (y.m_ConfigBlocks.length - i)
    have h3 : i + (y.m_ConfigBlocks.length - i) = y.m_ConfigBlocks.length := by omega
    rw [h3] at h2
    refine ⟨e, ?_⟩
    unfold buildYoloNetwork
    rw [h2]
  | ok st =>
    obtain ⟨f, hf⟩ := hfail st hL
    exact ⟨f, buildYoloNetwork_abort_at y B weights i st f hi hL hf⟩

theorem lt_length_of_getElem? {α : Type} (l : List α) (i : Nat) (a : α) (h : l[i]? = some a) :
    i < l.length := by
  by_contra hge
  rw [List.getElem?_eq_none (Nat.le_of_not_lt hge)] at h
  cases h

/-- C23: a block whose `type` is none of the recognised layer names fails the
assertion of the last branch in whatever state the loop reaches it, so
`buildYoloNetwork` does not return a status: it ends at that block with
nothing done to the network, unless it has ended at an earlier block.  A
`dropout` block leaves the loop state as it is: no tensor is emitted, and the
current tensor, the weight cursor and the detection-input count are
unchanged. -/
theorem unsupported_type_aborts (y : Yolo) (B : LayerBuilders) (weights : List Nat) (i : Nat)
    (block : ConfigBlock) (type : String) (hblock : y.m_ConfigBlocks[i]? = some block)
    (htype : block.lookup "type" = some type) :
    (type ∉ recognisedTypes →
        (∀ st, buildBlock y B weights i st = .error .assertion) ∧
        (∀ st, buildLoop y B weights i = .ok st →
          buildYoloNetwork y B weights = (.error .assertion, ⟨none, false, []⟩)) ∧
        ∃ f, buildYoloNetwork y B weights = (.error f, ⟨none, false, []⟩)) ∧
      (type = "dropout" → ∀ st, buildBlock y B weights i st = .ok st) := by
  have hi := lt_length_of_getElem? _ _ _ hblock
  constructor
  · intro hun
    have hb : ∀ st, buildBlock y B weights i st = .error .assertion := by
      intro st
      unfold buildBlock
      rw [hblock]
      dsimp only
      rw [htype]
      dsimp only
      rw [layerKind_unsupported type hun]
    exact ⟨hb, fun st hL => buildYoloNetwork_abort_at y B weights i st _ hi hL (hb st),
      buildYoloNetwork_error_of_block y B weights i hi (fun st _ => ⟨_, hb st⟩)⟩
  · intro hd st
    unfold buildBlock
    rw [hblock]
    dsimp only
    rw [htype]
    dsimp only
    rw [(layerKind_dropout_iff type).mpr hd]

theorem unsupported_type_aborts_witness :
    buildYoloNetwork { sampleYolo with m_ConfigBlocks := sampleYolo.m_ConfigBlocks ++ [[("type", "softmax")]] }
        sampleBuilders [0, 0, 0, 0, 0, 0]
      = (.error .assertion, ⟨none, false, []⟩) ∧
    buildBlock sampleDropoutYolo sampleBuilders [] 2 sampleStateAt4 = .ok sampleStateAt4 :=
  ⟨((unsupported_type_aborts
      { sampleYolo with m_ConfigBlocks := sampleYolo.m_ConfigBlocks ++ [[("type", "softmax")]] }
      sampleBuilders [0, 0, 0, 0, 0, 0] 6 [("type", "softmax")] "softmax" (by decide)
      (by decide)).1 (by decide)).2.1 sampleStateAt6 (by decide),
    (unsupported_type_aborts sampleDropoutYolo sampleBuilders [] 2 [("type", "dropout")]
      "dropout" (by decide) (by decide)).2 rfl sampleStateAt4⟩

/-- C26: when the block loop reaches block `i`, the number of emitted tensors
is `i` minus the number of `net` and `dropout` blocks among blocks
`0 .. i - 1`.  Hence, in a document whose block 0 is `net`, a reference block
(`shortcut`, `sam`, `shift_channels` or `control_channels`) that comes after a
`dropout` block or a second `net` block fails its first assertion,
`i - 2 < tensorOutputs.size()`, for every value of `from`: the block is
rejected and `buildYoloNetwork` does not return a status. -/
theorem emitted_count (y : Yolo) (B : LayerBuilders) (weights : List Nat) (i : Nat)
    (st : BuildState) (hrun : buildLoop y B weights i = .ok st) :
    st.tensorOutputs.length = i - silentBefore y.m_ConfigBlocks i ∧
      silentBefore y.m_ConfigBlocks i ≤ i ∧
      ∀ (j : Nat) (block0 blockj blocki : ConfigBlock),
        y.m_ConfigBlocks[0]? = some block0 → block0.lookup "type" = some "net" →
        0 < j → j < i → i < 4294967296 →
        y.m_ConfigBlocks[j]? = some blockj → isSilentBlock blockj = true →
        y.m_ConfigBlocks[i]? = some blocki → isReferenceBlock blocki = true →
        (∀ from_, assertReference i from_ st.tensorOutputs.length = .error .assertion) ∧
          (∃ f, buildBlock y B weights i st = .error f) ∧
          ∃ f, buildYoloNetwork y B weights = (.error f, ⟨none, false, []⟩) := by
  have hcount := buildLoop_emitted y B weights i st hrun
  refine ⟨by omega, by omega, ?_⟩
  intro j block0 blockj blocki h0 h0t hj hji hi hbj hsj hbi hri
  have hs0 : isSilentBlock block0 = true := by
    unfold isSilentBlock
    rw [h0t]
    rfl
  have m1 := silentBefore_mono y.m_ConfigBlocks 0 block0 h0 hs0 j hj
  have m2 := silentBefore_mono y.m_ConfigBlocks j blockj hbj hsj i hji
  have hsize : st.tensorOutputs.length + 2 ≤ i := by omega
  have hassert : ∀ from_, assertReference i from_ st.tensorOutputs.length = .error .assertion := by
    intro from_
    have ha := intBits_cast ((i : Int) - 2)
    unfold assertReference
    generalize intBits ((i : Int) - 2) = a at ha ⊢
    have : ¬ a < st.tensorOutputs.length := by omega
    rw [if_pos this]
  have hfail : ∃ f, buildBlock y B weights i st = .error f := by
    obtain ⟨type, ht⟩ : ∃ type, blocki.lookup "type" = some type := by
      cases hl : blocki.lookup "type" with
      | none =>
        unfold isReferenceBlock at hri
        rw [hl] at hri
        cases hri
      | some t => exact ⟨t, rfl⟩
    have hkind := isReferenceBlock_kind blocki type ht hri
    unfold buildBlock
    rw [hbi]
    dsimp only
    rw [ht]
    dsimp only
    cases hr : readFrom i blocki with
    | error e =>
      rcases hkind with hk | hk | hk <;>
      · rw [hk]
        exact ⟨e, rfl⟩
    | ok from_ =>
      rcases hkind with hk | hk | hk <;>
      · rw [hk]
        dsimp only
        rw [ok_bind, hassert from_]
        exact ⟨.assertion, rfl⟩
  refine ⟨hassert, hfail, ?_⟩
  obtain ⟨f, hf⟩ := hfail
  exact ⟨f, buildYoloNetwork_abort_at y B weights i st f (lt_length_of_getElem? _ _ _ hbi) hrun hf⟩

theorem emitted_count_witness :
    buildLoop sampleDropoutYolo sampleBuilders [] 4 = .ok sampleDropoutStateAt4 ∧
      sampleDropoutStateAt4.tensorOutputs.length
        = 4 - silentBefore sampleDropoutYolo.m_ConfigBlocks 4 ∧
      buildBlock sampleDropoutYolo sampleBuilders [] 4 sampleDropoutStateAt4
        = .error .assertion ∧
      ∃ f, buildYoloNetwork sampleDropoutYolo sampleBuilders [] = (.error f, ⟨none, false, []⟩) :=
  ⟨by decide,
    (emitted_count sampleDropoutYolo sampleBuilders [] 4 sampleDropoutStateAt4 (by decide)).1,
    by decide,
    ((emitted_count sampleDropoutYolo sampleBuilders [] 4 sampleDropoutStateAt4
      (by decide)).2.2 2 [("type", "net"), ("channels", "3"), ("height", "13"), ("width", "13")]
      [("type", "dropout")] [("type", "shortcut"), ("from", "-2")] (by decide) (by decide) (by decide) (by decide) (by decide)
      (by decide) (by decide) (by decide) (by decide)).2.2⟩

/-! ## The operator at inference time -/

theorem enqueue_loop (l : YoloLayer) (batchSize : Int) (n : Nat) :
    forLoop n (fun i (s : Nat × List KernelLaunch) =>
        (addSize s.1
            (toUint ((l.m_YoloTensors.getD i default).numBBoxes
              * (l.m_YoloTensors.getD i default).gridSizeY
              * (l.m_YoloTensors.getD i default).gridSizeX)),
          s.2 ++ [l.launch batchSize i s.1])) (0, [])
      = (l.lastInputSizeAt n,
          (List.range n).map fun k => l.launch batchSize k (l.lastInputSizeAt k)) := by
  induction n with
  | zero => rfl
  | succ k ih =>
    rw [forLoop, ih, List.range_succ, List.map_append]
    rfl

theorem enqueue_eq (l : YoloLayer) (batchSize : Int) (hlen : l.m_YoloTensors.length < 4294967296) :
    l.enqueue batchSize
      = { status := 0, lastInputSize := l.lastInputSizeAt l.m_YoloTensors.length,
          launches := (List.range l.m_YoloTensors.length).map fun k =>
            l.launch batchSize k (l.lastInputSizeAt k) } := by
  unfold YoloLayer.enqueue
  dsimp only
  rw [toUint_of_lt _ hlen, enqueue_loop]

theorem enqueue_launch (l : YoloLayer) (batchSize : Int) (hlen : l.m_YoloTensors.length < 4294967296)
    (k : Nat) :
    (l.enqueue batchSize).launches[k]?
      = if k < l.m_YoloTensors.length then some (l.launch batchSize k (l.lastInputSizeAt k))
        else none := by
  rw [enqueue_eq l batchSize hlen]
  dsimp only
  by_cases hk : k < l.m_YoloTensors.length
  · rw [if_pos hk, List.getElem?_map, List.getElem?_range hk]
    rfl
  · rw [if_neg hk, List.getElem?_eq_none (by rw [List.length_map, List.length_range]; omega)]

theorem lastInputSizeAt_eq (l : YoloLayer) (n : Nat) (hn : n ≤ l.m_YoloTensors.length)
    (hsmall : ∀ d ∈ l.m_YoloTensors, headCandidates d < 4294967296) (hcount : n < 4294967296) :
    l.lastInputSizeAt n = candidatesBefore l n :=
  (forLoop_sum l.m_YoloTensors headCandidates n hn hsmall hcount).1

theorem launch_fields (l : YoloLayer) (batchSize : Int) (i off : Nat) :
    (l.launch batchSize i off).input = i ∧
      (l.launch batchSize i off).lastInputSize = off ∧
      (l.launch batchSize i off).outputSize = l.m_OutputSize ∧
      (l.launch batchSize i off).numBBoxes = (l.m_YoloTensors.getD i default).numBBoxes ∧
      (l.launch batchSize i off).gridSizeX = (l.m_YoloTensors.getD i default).gridSizeX ∧
      (l.launch batchSize i off).gridSizeY = (l.m_YoloTensors.getD i default).gridSizeY ∧
      (l.launch batchSize i off).numOutputClasses = l.m_NumClasses ∧
      (l.launch batchSize i off).inputSize
        = toUint (((l.m_YoloTensors.getD i default).numBBoxes * (4 + 1 + l.m_NumClasses))
            * (l.m_YoloTensors.getD i default).gridSizeY
            * (l.m_YoloTensors.getD i default).gridSizeX) := by
  unfold YoloLayer.launch
  dsimp only
  split
  · split <;> exact ⟨rfl, rfl, rfl, rfl, rfl, rfl, rfl, rfl⟩
  · exact ⟨rfl, rfl, rfl, rfl, rfl, rfl, rfl, rfl⟩

theorem launch_kernel (l : YoloLayer) (batchSize : Int) (i off : Nat) :
    (l.launch batchSize i off).kernel
      = if (l.m_YoloTensors.getD i default).mask.length > 0 then
          (if l.m_NewCoords ≠ 0 then DecodeKernel.cudaYoloLayer_nc else DecodeKernel.cudaYoloLayer)
        else DecodeKernel.cudaRegionLayer := by
  unfold YoloLayer.launch
  dsimp only
  split
  · split <;> rfl
  · rfl

theorem getD_of_getElem? {α : Type} (l : List α) (k : Nat) (d dflt : α) (h : l[k]? = some d) :
    l.getD k dflt = d := by
  rw [List.getD_eq_getElem?_getD, h]
  rfl

theorem headCandidates_le (d : TensorInfo) (c : Nat) :
    headCandidates d ≤ d.numBBoxes * (5 + c) * d.gridSizeY * d.gridSizeX := by
  unfold headCandidates
  apply Nat.mul_le_mul_right
  apply Nat.mul_le_mul_right
  exact Nat.le_mul_of_pos_right _ (by omega)

/-- The launches of `enqueue` when no product wraps: one kernel per
descriptor, in list order, the `k`-th on input `k` with the `k`-th
descriptor's box count and grid; the output
offset `lastInputSize` passed for descriptor `k` is the sum over the earlier
descriptors of box count x grid height x grid width (0 for the first), and the
input size passed is box count x (5 + class count) x grid height x grid width.
The products are `uint` expressions, here below `2 ^ 32`. -/
theorem enqueue_offsets (l : YoloLayer) (batchSize : Int)
    (hlen : l.m_YoloTensors.length < 4294967296)
    (hsmall : ∀ d ∈ l.m_YoloTensors,
      d.numBBoxes * (5 + l.m_NumClasses) * d.gridSizeY * d.gridSizeX < 4294967296) :
    (l.enqueue batchSize).launches.length = l.m_YoloTensors.length ∧
      ∀ k d, l.m_YoloTensors[k]? = some d →
        ∃ c, (l.enqueue batchSize).launches[k]? = some c ∧ c.input = k ∧
          c.numBBoxes = d.numBBoxes ∧ c.gridSizeY = d.gridSizeY ∧ c.gridSizeX = d.gridSizeX ∧
          c.numOutputClasses = l.m_NumClasses ∧
          c.lastInputSize
            = ((l.m_YoloTensors.take k).map fun e =>
                e.numBBoxes * e.gridSizeY * e.gridSizeX).sum ∧
          (k = 0 → c.lastInputSize = 0) ∧
          c.inputSize = d.numBBoxes * (5 + l.m_NumClasses) * d.gridSizeY * d.gridSizeX := by
  constructor
  · rw [enqueue_eq l batchSize hlen]
    dsimp only
    rw [List.length_map, List.length_range]
  · intro k d hd
    have hk : k < l.m_YoloTensors.length := lt_length_of_getElem? _ _ _ hd
    have hget := getD_of_getElem? l.m_YoloTensors k d default hd
    have hs : ∀ e ∈ l.m_YoloTensors, headCandidates e < 4294967296 := fun e he =>
      Nat.lt_of_le_of_lt (headCandidates_le e l.m_NumClasses) (hsmall e he)
    have hoff : l.lastInputSizeAt k = candidatesBefore l k :=
      lastInputSizeAt_eq l k (Nat.le_of_lt hk) hs (by omega)
    obtain ⟨f1, f2, _, f4, f5, f6, f7, f8⟩ := launch_fields l batchSize k (l.lastInputSizeAt k)
    refine ⟨l.launch batchSize k (l.lastInputSizeAt k), ?_, f1, ?_, ?_, ?_, f7, ?_, ?_, ?_⟩
    · rw [enqueue_launch l batchSize hlen, if_pos hk]
    · rw [f4, hget]
    · rw [f6, hget]
    · rw [f5, hget]
    · rw [f2, hoff]
      rfl
    · intro h0
      subst h0
      rw [f2]
      rfl
    · rw [f8, hget]
      have e : 4 + 1 + l.m_NumClasses = 5 + l.m_NumClasses := rfl
      rw [e]
      exact toUint_of_lt _ (hsmall d (List.getElem?_mem hd))

theorem enqueue_offsets_witness :
    (sampleLayerTwoHeads.enqueue 1).launches.length = 2 ∧
      ((sampleLayerTwoHeads.enqueue 1).launches.map fun c =>
          (c.input, c.lastInputSize, c.inputSize)) = [(0, 0, 3549), (1, 507, 9464)] :=
  ⟨(enqueue_offsets sampleLayerTwoHeads 1 (by decide) (by decide)).1, by decide⟩

/-- C25, as the code has it: for a descriptor with a non-empty mask the
new-coordinates kernel is launched when the flag `m_NewCoords` is non-zero and
the legacy kernel when it is zero, whatever the anchors; a descriptor with an
empty mask is decoded by the region kernel, whatever the flag. -/
theorem kernel_selection (l : YoloLayer) (batchSize : Int) (k : Nat) (d : TensorInfo)
    (c : KernelLaunch) (hlen : l.m_YoloTensors.length < 4294967296)
    (hd : l.m_YoloTensors[k]? = some d) (hc : (l.enqueue batchSize).launches[k]? = some c) :
    (d.mask ≠ [] →
        (l.m_NewCoords ≠ 0 → c.kernel = .cudaYoloLayer_nc) ∧
        (l.m_NewCoords = 0 → c.kernel = .cudaYoloLayer)) ∧
      (d.mask = [] → c.kernel = .cudaRegionLayer) := by
  have hk : k < l.m_YoloTensors.length := lt_length_of_getElem? _ _ _ hd
  have hget := getD_of_getElem? l.m_YoloTensors k d default hd
  rw [enqueue_launch l batchSize hlen, if_pos hk] at hc
  have e : c = l.launch batchSize k (l.lastInputSizeAt k) := (Option.some.inj hc).symm
  rw [e, launch_kernel, hget]
  constructor
  · intro hm
    have hpos : d.mask.length > 0 := List.length_pos.mpr hm
    rw [if_pos hpos]
    exact ⟨fun h => by rw [if_pos h], fun h => by rw [if_neg (not_not.mpr h)]⟩
  · intro hm
    rw [hm]
    rfl

theorem kernel_selection_witness :
    ((sampleLayerTwoHeads.enqueue 1).launches.map fun c => c.kernel)
        = [.cudaYoloLayer_nc, .cudaRegionLayer] ∧
      ∀ c, (sampleLayerTwoHeads.enqueue 1).launches[0]? = some c →
        c.kernel = .cudaYoloLayer_nc :=
  ⟨by decide, fun c hc =>
    ((kernel_selection sampleLayerTwoHeads 1 0 _ c (by decide) rfl hc).1 (by decide)).1
      (by decide)⟩

/-- C25 as stated fails for a descriptor with an empty mask: under the new
coordinate scheme (flag 1) the second sample descriptor is decoded by the
region kernel, and so is the descriptor of the sample operator with flag 0. -/
theorem empty_mask_region_kernel :
    sampleLayerTwoHeads.m_NewCoords = 1 ∧
      ((sampleLayerTwoHeads.enqueue 1).launches.map fun c => c.kernel)
        = [.cudaYoloLayer_nc, .cudaRegionLayer] ∧
      sampleLayer13.m_NewCoords = 0 ∧
      ((sampleLayer13.enqueue 1).launches.map fun c => c.kernel) = [.cudaRegionLayer] := by
  decide

theorem candidatesBefore_succ (l : YoloLayer) (k : Nat) (d : TensorInfo)
    (hd : l.m_YoloTensors[k]? = some d) :
    candidatesBefore l (k + 1) = candidatesBefore l k + headCandidates d := by
  unfold candidatesBefore
  rw [List.take_succ, hd, List.map_append, List.sum_append]
  simp

theorem candidatesBefore_all (l : YoloLayer) :
    candidatesBefore l l.m_YoloTensors.length = (l.m_YoloTensors.map headCandidates).sum := by
  unfold candidatesBefore
  rw [List.take_length]

theorem candidatesBefore_mono (l : YoloLayer) (j : Nat) :
    ∀ d, candidatesBefore l j ≤ candidatesBefore l (j + d) := by
  intro d
  induction d with
  | zero => exact Nat.le_refl _
  | succ e ih =>
    cases hg : l.m_YoloTensors[j + e]? with
    | none =>
      have hlen : l.m_YoloTensors.length ≤ j + e := by
        by_contra hlt
        rw [List.getElem?_eq_getElem (Nat.lt_of_not_le hlt)] at hg
        cases hg
      have e1 : candidatesBefore l (j + (e + 1)) = candidatesBefore l (j + e) := by
        unfold candidatesBefore
        rw [List.take_of_length_le (by omega), List.take_of_length_le hlen]
      rw [e1]
      exact ih
    | some c =>
      have e2 : j + (e + 1) = j + e + 1 := rfl
      rw [e2, candidatesBefore_succ l (j + e) c hg]
      omega

theorem candidatesBefore_le (l : YoloLayer) (j k : Nat) (h : j ≤ k) :
    candidatesBefore l j ≤ candidatesBefore l k := by
  have := candidatesBefore_mono l j (k - j)
  have e : j + (k - j) = k := by omega
  rwa [e] at this

/-- Every slot below the total lies in the range of one element of the list. -/
theorem slot_in_range (f : TensorInfo → Nat) : ∀ (ts : List TensorInfo) (slot : Nat),
    slot < (ts.map f).sum →
    ∃ k d, ts[k]? = some d ∧ ((ts.take k).map f).sum ≤ slot ∧
      slot < ((ts.take k).map f).sum + f d := by
  intro ts
  induction ts with
  | nil =>
    intro slot h
    simp at h
  | cons a t ih =>
    intro slot h
    rw [List.map_cons, List.sum_cons] at h
    by_cases ha : slot < f a
    · exact ⟨0, a, by simp, by simp, by simpa using ha⟩
    · obtain ⟨k, d, hd, h1, h2⟩ := ih (slot - f a) (by omega)
      refine ⟨k + 1, d, by simpa using hd, ?_, ?_⟩
      · rw [List.take_succ_cons, List.map_cons, List.sum_cons]
        omega
      · rw [List.take_succ_cons, List.map_cons, List.sum_cons]
        omega

/-- The launch for descriptor `k`: its candidate range runs from the
candidates before `k` to the candidates before `k + 1`. -/
theorem enqueue_range (l : YoloLayer) (batchSize : Int)
    (hlen : l.m_YoloTensors.length < 4294967296)
    (hsmall : ∀ d ∈ l.m_YoloTensors, headCandidates d < 4294967296) (k : Nat) (c : KernelLaunch)
    (hc : (l.enqueue batchSize).launches[k]? = some c) :
    k < l.m_YoloTensors.length ∧ c.outputSize = l.m_OutputSize ∧
      c.lastInputSize = candidatesBefore l k ∧
      c.lastInputSize + c.numBBoxes * c.gridSizeY * c.gridSizeX = candidatesBefore l (k + 1) := by
  rw [enqueue_launch l batchSize hlen] at hc
  by_cases hk : k < l.m_YoloTensors.length
  · rw [if_pos hk] at hc
    have e : c = l.launch batchSize k (l.lastInputSizeAt k) := (Option.some.inj hc).symm
    obtain ⟨_, f2, f3, f4, f5, f6, _, _⟩ := launch_fields l batchSize k (l.lastInputSizeAt k)
    have hd : l.m_YoloTensors[k]? = some l.m_YoloTensors[k] := List.getElem?_eq_getElem hk
    have hget := getD_of_getElem? l.m_YoloTensors k _ default hd
    have hoff : l.lastInputSizeAt k = candidatesBefore l k :=
      lastInputSizeAt_eq l k (Nat.le_of_lt hk) hsmall (by omega)
    refine ⟨hk, by rw [e, f3], by rw [e, f2, hoff], ?_⟩
    rw [e, f2, f4, f5, f6, hget, hoff, candidatesBefore_succ l k _ hd]
    rfl
  · rw [if_neg hk] at hc
    cases hc

/-- The operator of a successful build: one descriptor per counted head, and
an output size that is the sum of the descriptors' candidates. -/
theorem buildYoloNetwork_outputSize (y : Yolo) (B : LayerBuilders) (weights : List Nat)
    (net : Network) (l : YoloLayer) (hc : y.m_YoloCount < 4294967296)
    (hl : y.m_YoloTensors.length = y.m_YoloCount)
    (hok : buildYoloNetwork y B weights = (.ok .NVDSINFER_SUCCESS, net))
    (hplugin : net.yoloPlugin = some l)
    (hsmall : ∀ d ∈ l.m_YoloTensors, headCandidates d < 4294967296) :
    l.m_YoloTensors.length = y.m_YoloCount ∧
      l.m_OutputSize = (l.m_YoloTensors.map headCandidates).sum := by
  unfold buildYoloNetwork at hok
  cases hL : buildLoop y B weights y.m_ConfigBlocks.length with
  | error f =>
    rw [hL] at hok
    cases hok
  | ok st =>
    rw [hL] at hok
    dsimp only at hok
    have h1 : (finishNetwork y B weights st).1 = .ok .NVDSINFER_SUCCESS := by rw [hok]
    obtain ⟨hcount, plugin, out, hcreate, _, h2⟩ := finishNetwork_ok y B weights st h1
    rw [hok] at h2
    dsimp only at h2
    rw [h2] at hplugin
    have e : plugin = l := Option.some.inj hplugin
    subst e
    obtain ⟨hts, hos⟩ := YoloLayer.create_ok _ _ _ _ _ _ _ hcreate
    obtain ⟨_, _, _, i4, _, _⟩ := buildLoop_heads y B weights hc _ st hL
    have hlen : st.m_YoloTensors.length = st.yoloCountInputs := by rw [i4, hl, hcount]
    refine ⟨by rw [hts, i4, hl], ?_⟩
    rw [hts] at hsmall ⊢
    rw [hos]
    have hs := (forLoop_sum st.m_YoloTensors headCandidates st.yoloCountInputs
      (Nat.le_of_eq hlen.symm) hsmall (by omega)).1
    rw [← hlen, List.take_length] at hs
    rw [← hs, hlen]
    rfl

/-- C27: let the operator be the one built by a successful `buildYoloNetwork`
(from a compiler with one pre-populated descriptor per counted head), with no
product box count x grid height x grid width leaving `uint`.  Then its output
size is the sum of these products, and in `enqueue` the candidate range
`[offset, offset + box count x grid height x grid width)` of every launch lies
within `[0, outputSize)`, the range of an earlier launch ends where a later one
begins or before, the running total after the last descriptor is the output
size, and every candidate slot below the output size lies in the range of
exactly one launch. -/
theorem enqueue_covers_output (y : Yolo) (B : LayerBuilders) (weights : List Nat)
    (net : Network) (l : YoloLayer) (batchSize : Int) (hc : y.m_YoloCount < 4294967296)
    (hl : y.m_YoloTensors.length = y.m_YoloCount)
    (hok : buildYoloNetwork y B weights = (.ok .NVDSINFER_SUCCESS, net))
    (hplugin : net.yoloPlugin = some l)
    (hsmall : ∀ d ∈ l.m_YoloTensors, d.numBBoxes * d.gridSizeY * d.gridSizeX < 4294967296) :
    l.m_OutputSize
        = (l.m_YoloTensors.map fun d => d.numBBoxes * d.gridSizeY * d.gridSizeX).sum ∧
      (∀ (k : Nat) (c : KernelLaunch), (l.enqueue batchSize).launches[k]? = some c →
        c.outputSize = l.m_OutputSize ∧
        c.lastInputSize + c.numBBoxes * c.gridSizeY * c.gridSizeX ≤ l.m_OutputSize) ∧
      (∀ (j k : Nat) (cj ck : KernelLaunch), j < k →
        (l.enqueue batchSize).launches[j]? = some cj →
        (l.enqueue batchSize).launches[k]? = some ck →
        cj.lastInputSize + cj.numBBoxes * cj.gridSizeY * cj.gridSizeX ≤ ck.lastInputSize) ∧
      (l.enqueue batchSize).lastInputSize = l.m_OutputSize ∧
      (∀ slot, slot < l.m_OutputSize →
        ∃! k : Nat, ∃ c : KernelLaunch, (l.enqueue batchSize).launches[k]? = some c ∧
          c.lastInputSize ≤ slot ∧
          slot < c.lastInputSize + c.numBBoxes * c.gridSizeY * c.gridSizeX) := by
  obtain ⟨hcnt, hsize⟩ := buildYoloNetwork_outputSize y B weights net l hc hl hok hplugin hsmall
  have hlen : l.m_YoloTensors.length < 4294967296 := by rw [hcnt]; exact hc
  have hall := candidatesBefore_all l
  have hr := enqueue_range l batchSize hlen hsmall
  refine ⟨hsize, ?_, ?_, ?_, ?_⟩
  · intro k c hkc
    obtain ⟨hk, r1, _, r3⟩ := hr k c hkc
    refine ⟨r1, ?_⟩
    rw [r3, hsize, ← hall]
    exact candidatesBefore_le l _ _ hk
  · intro j k cj ck hjk hj hk
    obtain ⟨_, _, _, r3⟩ := hr j cj hj
    obtain ⟨_, _, s2, _⟩ := hr k ck hk
    rw [r3, s2]
    exact candidatesBefore_le l _ _ hjk
  · rw [enqueue_eq l batchSize hlen]
    dsimp only
    rw [lastInputSizeAt_eq l _ (Nat.le_refl _) hsmall hlen, hall, hsize]
  · intro slot hslot
    rw [hsize] at hslot
    obtain ⟨k, d, hd, h1, h2⟩ := slot_in_range headCandidates l.m_YoloTensors slot hslot
    have hk : k < l.m_YoloTensors.length := lt_length_of_getElem? _ _ _ hd
    have hlaunch : (l.enqueue batchSize).launches[k]?
        = some (l.launch batchSize k (l.lastInputSizeAt k)) := by
      rw [enqueue_launch l batchSize hlen, if_pos hk]
    obtain ⟨_, _, r2, r3⟩ := hr k _ hlaunch
    have hsucc := candidatesBefore_succ l k d hd
    have hcb : candidatesBefore l k = ((l.m_YoloTensors.take k).map headCandidates).sum := rfl
    refine ⟨k, ⟨_, hlaunch, by rw [r2, hcb]; exact h1, by rw [r3, hsucc, hcb]; exact h2⟩, ?_⟩
    rintro j ⟨cj, hj, j1, j2⟩
    obtain ⟨_, _, s2, s3⟩ := hr j cj hj
    rw [s2] at j1
    rw [s3] at j2
    rw [← hcb] at h1 h2
    rw [← hsucc] at h2
    by_contra hne
    rcases Nat.lt_or_gt_of_ne hne with hlt | hgt
    · have := candidatesBefore_le l (j + 1) k hlt
      omega
    · have := candidatesBefore_le l (k + 1) j hgt
      omega

theorem enqueue_covers_output_witness :
    buildYoloNetwork sampleYolo sampleBuilders [0, 0, 0, 0, 0, 0]
        = (.ok .NVDSINFER_SUCCESS, ⟨some sampleLayer13, true, [⟨1000, [1, 507, 6]⟩]⟩) ∧
      (sampleLayer13.enqueue 1).lastInputSize = sampleLayer13.m_OutputSize ∧
      ((sampleLayer13.enqueue 1).launches.map fun c =>
          (c.lastInputSize, c.numBBoxes * c.gridSizeY * c.gridSizeX, c.outputSize))
        = [(0, 507, 507)] :=
  ⟨by decide,
    (enqueue_covers_output sampleYolo sampleBuilders [0, 0, 0, 0, 0, 0]
      ⟨some sampleLayer13, true, [⟨1000, [1, 507, 6]⟩]⟩ sampleLayer13 1 (by decide) (by decide)
      (by decide) rfl (by decide)).2.2.2.1,
    by decide⟩

/-! ## The `uint` products of box count and grid -/

/-- C18 fails on the code where a product box count x grid height x grid width
leaves `uint`: the document `sampleManyBlocks` (a head with `num=1000000` on an
80 x 80 grid, and a head with three boxes) passes the attribute pass and builds
successfully, the sum over the descriptors of box count x grid height x grid
width is 6400019200, and the output size handed to the `YoloLayer` constructor
is 2105051904, the first product having been reduced modulo `2 ^ 32` before it
was added to the 64-bit sum. -/
theorem output_size_wraps :
    parseConfigBlocks sampleStof (Yolo.create "input" 1 true sampleManyBlocks)
        = .ok sampleManyYolo ∧
      buildYoloNetwork sampleManyYolo sampleBuilders [0, 0, 0, 0]
        = (.ok .NVDSINFER_SUCCESS, ⟨some sampleManyLayer, true, [⟨1000, [1, 507, 6]⟩]⟩) ∧
      (sampleManyLayer.m_YoloTensors.map fun d =>
          d.numBBoxes * d.gridSizeY * d.gridSizeX).sum = 6400019200 ∧
      sampleManyLayer.m_OutputSize = 2105051904 ∧
      (6400000000 % 4294967296 + 19200 : Nat) = 2105051904 := by
  decide

/-- C24 fails on the code where a product leaves `uint`: for the operator of
`sampleManyBlocks` (one class; a head of 1000000 boxes on an 80 x 80 grid, then
a head of three boxes) the sum of box count x grid height x grid width over the
descriptors before the second is 6400000000 and box count x (5 + class count)
x grid height x grid width of the first is 38400000000, and `enqueue` passes the
output offset 2105032704 to the second launch and the input size 4040261632 to
the first, both products having been reduced modulo `2 ^ 32`. -/
theorem enqueue_offset_wraps :
    ((sampleManyLayer.m_YoloTensors.take 1).map fun d =>
          d.numBBoxes * d.gridSizeY * d.gridSizeX).sum = 6400000000 ∧
      ((sampleManyLayer.m_YoloTensors.take 1).map fun d =>
          d.numBBoxes * (5 + sampleManyLayer.m_NumClasses) * d.gridSizeY * d.gridSizeX)
        = [38400000000] ∧
      ((sampleManyLayer.enqueue 1).launches.map fun c =>
          (c.input, c.lastInputSize, c.inputSize))
        = [(0, 0, 4040261632), (1, 2105032704, 115200)] ∧
      (6400000000 % 4294967296 : Nat) = 2105032704 ∧
      (38400000000 % 4294967296 : Nat) = 4040261632 := by
  decide

end DsYolo
